import Mathlib

/-! AirPlay bridge (`src/dsp/airplay_plugin.c`): ring buffer, pipe pump, daemon supervision.

A shallow embedding of the C module.  Conventions:

* `RING_SAMPLES` is `MOVE_SAMPLE_RATE * 2 * RING_SECONDS`; `MOVE_SAMPLE_RATE` comes from
  `plugin_api_v1.h`, so the capacity is a parameter `RING_SAMPLES : Nat` of every function
  that uses it.
* `uint64_t` counters are `Nat` with an explicit `% 2 ^ 64` at every increment.
* `int16_t` samples are `Int`; bytes are `Nat`.
* C arrays are lists, an in-bounds store is `List.set`, an in-bounds load is `List.getD`.
* Pointers are modelled by what they point to; the `!inst` guards are the null case and are
  not part of the model.
-/

namespace AirPlay

/-- Value of a binary32 `float`: NaN, or the finite value `m * 2 ^ e`, where `e` may be
negative.  The infinities are not needed: no stored gain is infinite. -/
inductive F32 where
  | nan : F32
  | val (m : Int) (e : Int) : F32
  deriving DecidableEq

/-- The struct `airplay_instance_t`. -/
structure Instance where
  module_dir : String
  fifo_path : String
  config_path : String
  device_name : String
  error_msg : String
  slot : Int
  fifo_fd : Int
  daemon_pid : Int
  daemon_running : Bool
  ring : List Int
  write_pos : Nat
  write_abs : Nat
  play_abs : Nat
  pending_bytes : List Nat
  pending_len : Nat
  gain : F32
  receiving_audio : Bool
  last_audio_ms : Nat
  deriving DecidableEq

/-! ## Ring buffer -/

/-- Function `ring_available`. -/
def ring_available (RING_SAMPLES : Nat) (inst : Instance) : Nat :=
  if inst.write_abs ≤ inst.play_abs then 0
  else
    let avail := inst.write_abs - inst.play_abs
    if avail > RING_SAMPLES then RING_SAMPLES else avail

/-- One iteration of the `for` loop of `ring_push` (loop index `i`). -/
def ring_push_iter (RING_SAMPLES : Nat) (samples : List Int) (inst : Instance) (i : Nat) :
    Instance :=
  { inst with
    ring := inst.ring.set inst.write_pos (samples.getD i 0)
    write_pos := (inst.write_pos + 1) % RING_SAMPLES
    write_abs := (inst.write_abs + 1) % 2 ^ 64 }

/-- Function `ring_push`: the copy loop for `i = 0 .. n-1`, then the drop-oldest adjustment. -/
def ring_push (RING_SAMPLES : Nat) (inst : Instance) (samples : List Int) (n : Nat) :
    Instance :=
  let inst1 := (List.range n).foldl (ring_push_iter RING_SAMPLES samples) inst
  let oldest := if inst1.write_abs > RING_SAMPLES then inst1.write_abs - RING_SAMPLES else 0
  if inst1.play_abs < oldest then { inst1 with play_abs := oldest } else inst1

/-- One iteration of the `for` loop of `ring_pop`; the loop state is `(out, abs_pos)`. -/
def ring_pop_iter (RING_SAMPLES : Nat) (inst : Instance) (st : List Int × Nat) (i : Nat) :
    List Int × Nat :=
  (st.1.set i (inst.ring.getD (st.2 % RING_SAMPLES) 0), (st.2 + 1) % 2 ^ 64)

/-- Function `ring_pop`: returns the instance, the caller's buffer and the count `got`. -/
def ring_pop (RING_SAMPLES : Nat) (inst : Instance) (out : List Int) (n : Nat) :
    Instance × List Int × Nat :=
  if n = 0 then (inst, out, 0)
  else
    let got := ring_available RING_SAMPLES inst
    let got := if got > n then n else got
    let st := (List.range got).foldl (ring_pop_iter RING_SAMPLES inst) (out, inst.play_abs)
    ({ inst with play_abs := st.2 }, st.1, got)

/-- Function `clear_ring`. -/
def clear_ring (inst : Instance) : Instance :=
  { inst with
    write_pos := 0
    write_abs := 0
    play_abs := 0
    pending_len := 0
    pending_bytes := List.replicate 4 0 }

/-- A call on the ring buffer API, as issued by the rest of the module. -/
inductive RingOp where
  | push (samples : List Int)
  | pop (out : List Int) (n : Nat)
  | clear
  deriving DecidableEq

/-- Executes one ring call. A push passes the whole array, `n` being its length. -/
def RingOp.run (RING_SAMPLES : Nat) (inst : Instance) : RingOp → Instance
  | .push samples => ring_push RING_SAMPLES inst samples samples.length
  | .pop out n => (ring_pop RING_SAMPLES inst out n).1
  | .clear => clear_ring inst

/-- Executes a sequence of ring calls, left to right. -/
def runOps (RING_SAMPLES : Nat) (inst : Instance) (ops : List RingOp) : Instance :=
  ops.foldl (RingOp.run RING_SAMPLES) inst

/-- What a ring call requires for the 64-bit counters not to wrap: a push of `n` samples
needs `write_abs + n < 2 ^ 64`. -/
def RingOp.below (inst : Instance) : RingOp → Prop
  | .push samples => inst.write_abs + samples.length < 2 ^ 64
  | _ => True

instance (inst : Instance) (op : RingOp) : Decidable (op.below inst) := by
  cases op <;> unfold RingOp.below <;> infer_instance

/-- The 64-bit counters do not wrap during the run. -/
def CountersBelow (RING_SAMPLES : Nat) : Instance → List RingOp → Prop
  | _, [] => True
  | inst, op :: rest =>
      op.below inst ∧ CountersBelow RING_SAMPLES (op.run RING_SAMPLES inst) rest

instance (RING_SAMPLES : Nat) :
    (inst : Instance) → (ops : List RingOp) → Decidable (CountersBelow RING_SAMPLES inst ops)
  | _, [] => isTrue trivial
  | inst, op :: rest =>
    match (inferInstance : Decidable (op.below inst)),
      (instDecidableCountersBelow RING_SAMPLES (op.run RING_SAMPLES inst) rest) with
    | isTrue h1, isTrue h2 => isTrue ⟨h1, h2⟩
    | isFalse h1, _ => isFalse (fun h => h1 h.1)
    | _, isFalse h2 => isFalse (fun h => h2 h.2)

/-- The samples pushed since the last `clear_ring`, in push order. -/
def pushedSince (ops : List RingOp) : List Int :=
  ops.foldl (fun S op =>
    match op with
    | .push samples => S ++ samples
    | .pop _ _ => S
    | .clear => []) []

/-- The ring-state invariant of the three cursors. -/
def RingInv (RING_SAMPLES : Nat) (inst : Instance) : Prop :=
  inst.play_abs ≤ inst.write_abs ∧
  inst.write_abs - inst.play_abs ≤ RING_SAMPLES ∧
  inst.write_pos = inst.write_abs % RING_SAMPLES

/-- A freshly `calloc`ed instance of capacity `RING_SAMPLES`: every field zero. -/
def zeroed (RING_SAMPLES : Nat) : Instance :=
  { module_dir := "", fifo_path := "", config_path := "", device_name := "", error_msg := "",
    slot := 0, fifo_fd := 0, daemon_pid := 0, daemon_running := false,
    ring := List.replicate RING_SAMPLES 0, write_pos := 0, write_abs := 0, play_abs := 0,
    pending_bytes := List.replicate 4 0, pending_len := 0, gain := F32.val 0 0,
    receiving_audio := false, last_audio_ms := 0 }

/-- The cursor invariant together with the range of the 64-bit write counter. -/
def RingInv64 (RING_SAMPLES : Nat) (inst : Instance) : Prop :=
  RingInv RING_SAMPLES inst ∧ inst.write_abs < 2 ^ 64

/-- The ring holds the stream `S`: `S` is everything pushed since the last clear, and every
position of `S` inside the window of the last `RING_SAMPLES` positions is stored in its slot. -/
def Holds (RING_SAMPLES : Nat) (inst : Instance) (S : List Int) : Prop :=
  inst.ring.length = RING_SAMPLES ∧ inst.write_abs = S.length ∧ S.length < 2 ^ 64 ∧
  RingInv RING_SAMPLES inst ∧
  ∀ j, j < S.length → S.length ≤ j + RING_SAMPLES →
    inst.ring.getD (j % RING_SAMPLES) 0 = S.getD j 0

/-! ## Environment

The module talks to the operating system: the FIFO, the clock, the child process and the
file system.  `World` holds, as scripts, the results the system calls will return (consumed
front to back) and, as records, the effects the module has had. -/

/-- Result of one `read(fifo_fd, buf, sizeof(buf))`: the bytes delivered, or `-1` with an
`errno`. -/
inductive ReadResult where
  | data (bytes : List Nat)
  | error (errno : Int)
  deriving DecidableEq

/-- What the forked child became: the program `execl` loaded, or the exit code of
`_exit(127)` after a failed `execl`. -/
inductive ChildImage where
  | exec (path : String) (argv : List String) (ld_library_path : String)
  | exited (code : Nat)
  deriving DecidableEq

/-- The environment of the module. -/
structure World where
  /-- results of the coming `read` calls on the FIFO; none left means no data (`EAGAIN`) -/
  reads : List ReadResult
  /-- values of the coming `now_ms` calls -/
  clock : List Nat
  /-- return values of the coming `waitpid` calls -/
  waitpids : List Int
  /-- whether the coming `calloc` calls succeed -/
  callocs : List Bool
  /-- whether the coming `mkfifo` calls succeed -/
  mkfifos : List Bool
  /-- descriptors returned by the coming `open` calls on the FIFO, negative on failure -/
  opens : List Int
  /-- whether the coming `fopen(config_path, "w")` calls succeed -/
  fopens : List Bool
  /-- pid the kernel gives the next child; not positive when `fork` fails -/
  forks : List Int
  /-- whether the coming `execl` calls in a child succeed -/
  execs : List Bool
  /-- paths that exist among those this module creates and unlinks -/
  files : List String
  /-- contents last written to each config path -/
  configs : List (String × String)
  /-- descriptors opened and not yet closed -/
  open_fds : List Int
  /-- signals sent with `kill`, oldest first, as `(pid, signal)` -/
  signals : List (Int × Int)
  /-- children forked, newest first, with what each became -/
  children : List (Int × ChildImage)
  /-- lines passed to `ap_log`, oldest first -/
  log : List String
  /-- trace of the samples `pump_pipe` has handed to `ring_push`, oldest first -/
  pushed : List Int
  deriving DecidableEq

/-- Constant `AUDIO_IDLE_MS`. -/
def AUDIO_IDLE_MS : Nat := 3000

/-- Function `now_ms`. -/
def now_ms (w : World) : Nat × World :=
  match w.clock with
  | [] => (0, w)
  | t :: rest => (t, { w with clock := rest })

/-- Function `ap_log` (`append_log` and the host logger are one log here). -/
def ap_log (w : World) (msg : String) : World :=
  { w with log := w.log ++ [msg] }

/-- Library `snprintf(dst, size, "%s", src)`: at most `size - 1` characters are stored.
A character stands for one byte: the texts of this module are ASCII, and for a text with
multi-byte characters the C function cuts at `size - 1` bytes instead. -/
def snprintf_s (size : Nat) (src : String) : String :=
  String.mk (src.data.take (size - 1))

/-- Function `set_error`: `snprintf` into `error_msg[256]`, then `ap_log`. -/
def set_error (inst : Instance) (w : World) (msg : String) : Instance × World :=
  let inst := { inst with error_msg := snprintf_s 256 msg }
  (inst, ap_log w inst.error_msg)

/-- Function `clear_error`. -/
def clear_error (inst : Instance) : Instance :=
  { inst with error_msg := "" }

/-! ## Pipe pump -/

/-- Library `memcpy(dst + off, src, n)` on arrays as lists. -/
def memcpy {α : Type} (dst : List α) (off : Nat) (src : List α) (n : Nat) : List α :=
  dst.take off ++ src.take n ++ dst.drop (off + n)

/-- The `int16_t` with the given 16-bit pattern. -/
def toInt16 (v : Nat) : Int :=
  if v % 65536 ≥ 32768 then (v % 65536 : Int) - 65536 else (v % 65536 : Int)

/-- The `int16_t` array that a little-endian host sees over a byte array. -/
def le16 : List Nat → List Int
  | lo :: hi :: rest => toInt16 (lo + 256 * hi) :: le16 rest
  | _ => []

/-- The scratch array `merged` after the two `memcpy` calls that fill it in `pump_pipe`:
the pending bytes, then the `n = buf.length` bytes just read.  The array starts zeroed; no
entry is read before it is written. -/
def merge_pending (inst : Instance) (buf : List Nat) : List Nat :=
  let merged : List Nat := List.replicate 4100 0
  let merged_bytes := inst.pending_len
  let merged :=
    if inst.pending_len > 0 then memcpy merged 0 inst.pending_bytes inst.pending_len
    else merged
  memcpy merged merged_bytes buf buf.length

/-- The body of `if (n > 0)` in `pump_pipe`, up to the `break` test; `buf` holds the
`n = buf.length` bytes that were read.  `size_t` is 64 bits wide, so `~((size_t)3U)` is
`2 ^ 64 - 4`. -/
def pump_block (RING_SAMPLES : Nat) (inst : Instance) (w : World) (buf : List Nat) :
    Instance × World :=
  let samples : List Int := List.replicate 2048 0
  let merged := merge_pending inst buf
  let merged_bytes := inst.pending_len + buf.length
  let aligned_bytes := merged_bytes &&& (2 ^ 64 - 4)
  let remainder := merged_bytes - aligned_bytes
  let inst :=
    { inst with
      pending_bytes :=
        if remainder > 0 then
          memcpy inst.pending_bytes 0 (merged.drop aligned_bytes) remainder
        else inst.pending_bytes
      pending_len := remainder % 256 }
  let sample_count := aligned_bytes / 2
  let r : Instance × World :=
    if sample_count > 0 then
      let samples := memcpy samples 0 (le16 (merged.take (sample_count * 2))) sample_count
      (ring_push RING_SAMPLES inst samples sample_count,
        { w with pushed := w.pushed ++ samples.take sample_count })
    else (inst, w)
  let t := now_ms r.2
  ({ r.1 with last_audio_ms := t.1, receiving_audio := true }, t.2)

/-- The `while (1)` loop of `pump_pipe`; the first argument is `w.reads`. -/
def pump_loop (RING_SAMPLES : Nat) : List ReadResult → Instance → World → Instance × World
  | [], inst, w => (inst, w)
  | r :: rest, inst, w =>
    if ring_available RING_SAMPLES inst + 2048 ≥ RING_SAMPLES then (inst, w)
    else
      let w := { w with reads := rest }
      match r with
      | .data bytes =>
        let buf := bytes.take 4096
        if buf.length > 0 then
          let r := pump_block RING_SAMPLES inst w buf
          if buf.length < 4096 then r else pump_loop RING_SAMPLES rest r.1 r.2
        else (inst, w)
      | .error _ => (inst, w)

/-- Function `pump_pipe`. -/
def pump_pipe (RING_SAMPLES : Nat) (inst : Instance) (w : World) : Instance × World :=
  if inst.fifo_fd < 0 then (inst, w)
  else
    let r := pump_loop RING_SAMPLES w.reads inst w
    if r.1.receiving_audio ∧ r.1.last_audio_ms > 0 then
      let t := now_ms r.2
      if t.1 > r.1.last_audio_ms ∧ t.1 - r.1.last_audio_ms > AUDIO_IDLE_MS then
        ({ r.1 with receiving_audio := false }, t.2)
      else (r.1, t.2)
    else r

/-- `k` successive calls of `pump_pipe`. -/
def pump_calls (RING_SAMPLES : Nat) : Nat → Instance → World → Instance × World
  | 0, inst, w => (inst, w)
  | k + 1, inst, w =>
    let r := pump_pipe RING_SAMPLES inst w
    pump_calls RING_SAMPLES k r.1 r.2

/-- A world in which nothing is scripted and nothing has happened. -/
def World.idle : World :=
  { reads := [], clock := [], waitpids := [], callocs := [], mkfifos := [], opens := [],
    fopens := [], forks := [], execs := [], files := [], configs := [], open_fds := [],
    signals := [], children := [], log := [], pushed := [] }

/-! ## Daemon supervision -/

/-- Signal numbers passed to `kill`. -/
def SIGTERM : Int := 15

/-- Signal number of the forced termination. -/
def SIGKILL : Int := 9

/-- Constant `LOG_PATH`. -/
def LOG_PATH : String := "/data/UserData/move-anything/cache/airplay-runtime.log"

/-- Library `waitpid`: the next scripted return value (the pid when the child has exited,
`0` when `WNOHANG` finds it still running, `-1` on error or when nothing is scripted). -/
def sys_waitpid (w : World) : Int × World :=
  match w.waitpids with
  | [] => (-1, w)
  | r :: rest => (r, { w with waitpids := rest })

/-- Library `kill`; its return value is discarded by every caller. -/
def sys_kill (w : World) (pid sig : Int) : World :=
  { w with signals := w.signals ++ [(pid, sig)] }

/-- Library `unlink`. -/
def sys_unlink (w : World) (path : String) : World :=
  { w with files := w.files.filter (fun p => p ≠ path) }

/-- The value of an `int` result: 32 bits, two's complement.  Signed overflow is undefined
in C; the wrap-around that the compiled code shows is what is modelled. -/
def toInt32 (x : Int) : Int := (x + 2147483648) % 4294967296 - 2147483648

/-- The RTSP port `write_config` prints: the `int` expression `5000 + inst->slot - 1`. -/
def rtsp_port (slot : Int) : Int := toInt32 (toInt32 (5000 + slot) - 1)

/-- The UDP port base `write_config` prints: the `int` expression
`6001 + (inst->slot - 1) * 10`. -/
def udp_port_base (slot : Int) : Int := toInt32 (6001 + toInt32 (toInt32 (slot - 1) * 10))

/-- The text `write_config` prints into the config file. -/
def config_text (inst : Instance) : String :=
  "general = \x7b\n" ++
  "  name = \"" ++ inst.device_name ++ "\";\n" ++
  "  port = " ++ toString (rtsp_port inst.slot) ++ ";\n" ++
  "  udp_port_base = " ++ toString (udp_port_base inst.slot) ++ ";\n" ++
  "  interpolation = \"basic\";\n" ++
  "  drift_tolerance_in_seconds = 0.002;\n" ++
  "\x7d;\n" ++
  "\n" ++
  "pipe = \x7b\n" ++
  "  name = \"" ++ inst.fifo_path ++ "\";\n" ++
  "  audio_backend_buffer_desired_length_in_seconds = 0.2;\n" ++
  "\x7d;\n"

/-- Function `write_config`: returns `0`, or `-1` when `fopen` fails. -/
def write_config (inst : Instance) (w : World) : Int × Instance × World :=
  match w.fopens with
  | true :: rest =>
    (0, inst,
      { w with
        fopens := rest
        files := inst.config_path :: w.files.filter (fun p => p ≠ inst.config_path)
        configs := (inst.config_path, config_text inst)
          :: w.configs.filter (fun c => c.1 ≠ inst.config_path) })
  | _ =>
    let r := set_error inst { w with fopens := w.fopens.tail }
      "failed to write shairport-sync config"
    (-1, r.1, r.2)

/-- Function `stop_daemon`.  The `usleep` between the two polls is not modelled. -/
def stop_daemon (inst : Instance) (w : World) : Instance × World :=
  let r : Instance × World :=
    if inst.daemon_pid > 0 then
      let rc := sys_waitpid w
      let w :=
        if rc.1 = 0 then
          let w := sys_kill rc.2 inst.daemon_pid SIGTERM
          let rc := sys_waitpid w
          if rc.1 = 0 then
            let w := sys_kill rc.2 inst.daemon_pid SIGKILL
            (sys_waitpid w).2
          else rc.2
        else rc.2
      ({ inst with daemon_pid := -1 }, w)
    else (inst, w)
  ({ r.1 with daemon_running := false }, r.2)

/-- What the forked child does (the `pid == 0` branch of `start_daemon`): it redirects
stdout to `/dev/null` and stderr to the log, sets `LD_LIBRARY_PATH`, unsets `LD_PRELOAD`
and calls `execl`; when `execl` fails it calls `_exit(127)`. -/
def daemon_child (inst : Instance) (shairport_path : String) (exec_ok : Bool) : ChildImage :=
  if exec_ok then
    .exec shairport_path ["shairport-sync", "-c", inst.config_path, "-o", "pipe", "-v"]
      (snprintf_s 1024 (inst.module_dir ++ "/lib"))
  else .exited 127

/-- Library `fork`, seen from the parent: the child's pid, or `-1`.  The child runs
`child`, with the scripted outcome of its `execl`, and is recorded in `children`. -/
def sys_fork (w : World) (child : Bool → ChildImage) : Int × World :=
  match w.forks with
  | [] => (-1, w)
  | p :: rest =>
    if p > 0 then
      (p, { w with
            forks := rest
            execs := w.execs.tail
            children := (p, child (w.execs.headD false)) :: w.children })
    else (-1, { w with forks := rest })

/-- Function `start_daemon`: returns `0` or `-1`. -/
def start_daemon (inst : Instance) (w : World) : Int × Instance × World :=
  let r := stop_daemon inst w
  let c := write_config r.1 r.2
  if c.1 ≠ 0 then (-1, c.2.1, c.2.2)
  else
    let inst := c.2.1
    let shairport_path := snprintf_s 1024 (inst.module_dir ++ "/bin/shairport-sync")
    let f := sys_fork c.2.2 (daemon_child inst shairport_path)
    let pid := f.1
    if pid < 0 then
      let e := set_error inst f.2 "fork failed for shairport-sync"
      (-1, e.1, e.2)
    else
      let inst := clear_error { inst with daemon_pid := pid, daemon_running := true }
      let log_msg := snprintf_s 384 ("shairport-sync started pid=" ++ toString pid ++ " name="
        ++ inst.device_name ++ " fifo=" ++ inst.fifo_path)
      (0, inst, ap_log f.2 log_msg)

/-- Function `check_daemon_alive`. -/
def check_daemon_alive (inst : Instance) (w : World) : Instance × World :=
  if inst.daemon_pid ≤ 0 then (inst, w)
  else
    let rc := sys_waitpid w
    if rc.1 = inst.daemon_pid then
      set_error { inst with daemon_pid := -1, daemon_running := false } rc.2
        "shairport-sync exited unexpectedly"
    else (inst, rc.2)

/-! ## FIFO management -/

/-- Function `create_fifo`: returns `0` or `-1`. -/
def create_fifo (inst : Instance) (w : World) : Int × Instance × World :=
  let inst :=
    { inst with fifo_path := snprintf_s 512 ("/tmp/airplay-audio-" ++ toString inst.slot) }
  let w := sys_unlink w inst.fifo_path
  match w.mkfifos with
  | true :: rest =>
    let w := { w with mkfifos := rest, files := inst.fifo_path :: w.files }
    let fd := w.opens.headD (-1)
    let w := { w with opens := w.opens.tail }
    if fd < 0 then
      let e := set_error { inst with fifo_fd := fd } w "failed to open audio FIFO"
      (-1, e.1, sys_unlink e.2 inst.fifo_path)
    else (0, { inst with fifo_fd := fd }, { w with open_fds := fd :: w.open_fds })
  | _ =>
    let e := set_error inst { w with mkfifos := w.mkfifos.tail } "mkfifo failed"
    (-1, e.1, e.2)

/-- Function `close_fifo`. -/
def close_fifo (inst : Instance) (w : World) : Instance × World :=
  let r : Instance × World :=
    if inst.fifo_fd ≥ 0 then
      ({ inst with fifo_fd := -1 },
        { w with open_fds := w.open_fds.filter (fun fd => fd ≠ inst.fifo_fd) })
    else (inst, w)
  if r.1.fifo_path ≠ "" then
    ({ r.1 with fifo_path := "" }, sys_unlink r.2 r.1.fifo_path)
  else r

/-! ## Plugin API v2 -/

/-- The outcome of an API call that also uses the global `g_instance_counter`. -/
structure Created where
  /-- the returned pointer; `none` is `NULL` -/
  inst : Option Instance
  /-- the value of `g_instance_counter` on return -/
  counter : Int
  world : World
  deriving DecidableEq

/-- Function `v2_create_instance`; `g` is `g_instance_counter` and `module_dir = none` is a
`NULL` argument. -/
def v2_create_instance (RING_SAMPLES : Nat) (g : Int) (w : World)
    (module_dir : Option String) : Created :=
  match w.callocs with
  | true :: rest =>
    let w := { w with callocs := rest }
    let inst := zeroed RING_SAMPLES
    let g := g + 1
    let inst := { inst with slot := g }
    let inst := { inst with module_dir := snprintf_s 512 (module_dir.getD ".") }
    let inst :=
      { inst with device_name := snprintf_s 128 ("Move - Slot " ++ toString inst.slot) }
    let inst :=
      { inst with
        config_path :=
          snprintf_s 512 ("/tmp/airplay-config-" ++ toString inst.slot ++ ".conf") }
    let inst := { inst with gain := F32.val 1 0, fifo_fd := -1, daemon_pid := -1 }
    let f := create_fifo inst w
    if f.1 ≠ 0 then { inst := none, counter := g, world := f.2.2 }
    else
      let d := start_daemon f.2.1 f.2.2
      if d.1 ≠ 0 then
        let c := close_fifo d.2.1 d.2.2
        { inst := none, counter := g, world := c.2 }
      else
        { inst := some d.2.1, counter := g,
          world := ap_log d.2.2 "airplay plugin instance created" }
  | _ => { inst := none, counter := g, world := { w with callocs := w.callocs.tail } }

/-- Function `v2_destroy_instance` on a non-`NULL` instance: the new value of
`g_instance_counter` and the world. -/
def v2_destroy_instance (inst : Instance) (g : Int) (w : World) : Int × World :=
  let s := stop_daemon inst w
  let c := close_fifo s.1 s.2
  let w := if c.1.config_path ≠ "" then sys_unlink c.2 c.1.config_path else c.2
  let g := if g > 0 then g - 1 else g
  (g, ap_log w "airplay plugin instance destroyed")

/-- Number of significant bits of `n`, for `n < 2 ^ fuel`. -/
def bitlen : Nat → Nat → Nat
  | 0, _ => 0
  | fuel + 1, n => if n = 0 then 0 else 1 + bitlen fuel (n / 2)

/-- Nearest integer to `m / 2 ^ k`, ties to even. -/
def round_shift (m : Int) (k : Nat) : Int :=
  let q := m / 2 ^ k
  let r := m % 2 ^ k
  if 2 * r < 2 ^ k then q
  else if 2 * r > 2 ^ k then q + 1
  else if q % 2 = 0 then q else q + 1

/-- The `float` product `x * g` of an `int16_t` (converted exactly) and a finite `float`
`m * 2 ^ e`: the exact product rounded to 24 significant bits, as `(m', e')`. -/
def f32_mul_int16 (x : Int) (m e : Int) : Int × Int :=
  let p := x * m
  let k := bitlen 64 p.natAbs - 24
  (round_shift p k, e + k)

/-- Comparison `m * 2 ^ e > c` for an integer `c`. -/
def f32_gt (m e : Int) (c : Int) : Bool :=
  if e ≥ 0 then m * 2 ^ e.toNat > c else m > c * 2 ^ (-e).toNat

/-- Comparison `m * 2 ^ e < c` for an integer `c`. -/
def f32_lt (m e : Int) (c : Int) : Bool :=
  if e ≥ 0 then m * 2 ^ e.toNat < c else m < c * 2 ^ (-e).toNat

/-- Conversion `(int16_t)s` of an in-range `float` `m * 2 ^ e`: truncation toward zero. -/
def f32_to_int16 (m e : Int) : Int :=
  if e ≥ 0 then m * 2 ^ e.toNat else Int.tdiv m (2 ^ (-e).toNat)

/-- Comparison `gain != 1.0f`; NaN differs from every number. -/
def F32.ne_one : F32 → Bool
  | .nan => true
  | .val m e => !(if e ≥ 0 then m * 2 ^ e.toNat = 1 else m = 2 ^ (-e).toNat)

/-- The body of the gain loop of `v2_render_block` for one sample.  With a NaN gain the
product is NaN, both comparisons are false and C leaves the conversion undefined; the
AArch64 conversion instruction gives 0. -/
def gain_sample (gain : F32) (x : Int) : Int :=
  match gain with
  | .nan => 0
  | .val m e =>
    let s := f32_mul_int16 x m e
    if f32_gt s.1 s.2 32767 then 32767
    else if f32_lt s.1 s.2 (-32768) then -32768
    else f32_to_int16 s.1 s.2

/-- The 16-bit pattern of an `int16_t`. -/
def toUInt16 (x : Int) : Nat := (x % 65536).toNat

/-- Library `memset(out, 0, needed * sizeof(int16_t))`. -/
def memset_zero (out : List Int) (needed : Nat) : List Int :=
  List.replicate needed 0 ++ out.drop needed

/-- Function `v2_render_block`; `inst = none` is a `NULL` instance.  Returns the instance,
the caller's buffer and the world. -/
def v2_render_block (RING_SAMPLES : Nat) (inst : Option Instance) (out : List Int)
    (frames : Int) (w : World) : Option Instance × List Int × World :=
  if frames ≤ 0 then (inst, out, w)
  else
    let needed := frames.toNat * 2
    let out := memset_zero out needed
    match inst with
    | none => (none, out, w)
    | some inst =>
      let a := check_daemon_alive inst w
      let p := pump_pipe RING_SAMPLES a.1 a.2
      let r := ring_pop RING_SAMPLES p.1 out needed
      let inst := r.1
      let out := r.2.1
      let got := r.2.2
      let out :=
        if inst.gain.ne_one ∧ got > 0 then
          (List.range got).foldl
            (fun o i => o.set i (gain_sample inst.gain (o.getD i 0))) out
        else out
      let out :=
        if inst.daemon_running then
          out.set (needed - 1) (toInt16 (toUInt16 (out.getD (needed - 1) 0) ||| 5))
        else out
      (some inst, out, p.2)

/-- The host's view: the counter, the world and the instances it holds, oldest first. -/
structure Host where
  counter : Int
  world : World
  live : List Instance
  deriving DecidableEq

/-- A call of the host on the plugin: create an instance, or destroy the one at an index of
its list. -/
inductive HostCall where
  | create (module_dir : Option String)
  | destroy (index : Nat)
  deriving DecidableEq

/-- Executes one host call. -/
def Host.step (RING_SAMPLES : Nat) (h : Host) : HostCall → Host
  | .create module_dir =>
    let c := v2_create_instance RING_SAMPLES h.counter h.world module_dir
    match c.inst with
    | some inst => { counter := c.counter, world := c.world, live := h.live ++ [inst] }
    | none => { counter := c.counter, world := c.world, live := h.live }
  | .destroy index =>
    match h.live.get? index with
    | some inst =>
      let d := v2_destroy_instance inst h.counter h.world
      { counter := d.1, world := d.2, live := h.live.eraseIdx index }
    | none => h

/-- Executes a sequence of host calls from the initial state of the plugin. -/
def Host.run (RING_SAMPLES : Nat) (w : World) (calls : List HostCall) : Host :=
  calls.foldl (Host.step RING_SAMPLES) { counter := 0, world := w, live := [] }

/-- The bytes `P` delivered so far have been reassembled: the trace of pushed samples is
what it was at the start, `log0`, followed by the decoding of the whole frames of `P`, and
the pending bytes are what follows the last whole frame. -/
def Reassembled (log0 : List Int) (inst : Instance) (w : World) (P : List Nat) : Prop :=
  w.pushed = log0 ++ le16 (P.take (4 * (P.length / 4))) ∧
  inst.pending_len = P.length % 4 ∧
  inst.pending_bytes.take inst.pending_len = P.drop (4 * (P.length / 4)) ∧
  0 ≤ inst.fifo_fd

/-- The ring has only been written by the pump since it was cleared, and nothing was
dropped: `P` being the bytes delivered, two samples were pushed per whole frame. -/
def RingLinear (RING_SAMPLES : Nat) (inst : Instance) (P : List Nat) : Prop :=
  inst.play_abs = 0 ∧ inst.write_abs = 2 * (P.length / 4) ∧
  inst.write_pos = inst.write_abs % RING_SAMPLES

/-! ## Parameters -/

/-- Value of a `double` as `atof` returns it: NaN, an infinity, or the finite value
`m * 2 ^ e`. -/
inductive F64 where
  | nan : F64
  | inf (negative : Bool) : F64
  | val (m : Int) (e : Int) : F64
  deriving DecidableEq

/-- The conversion `(float)d` of a finite `double` `m * 2 ^ e`: rounding to 24 significant
bits, ties to even, with no exponent below `-149`.  A value beyond the binary32 range
becomes an infinity in C; it is kept here as the large value, which the two comparisons
of the gain clamp treat alike. -/
def f32_of_double (m e : Int) : Int × Int :=
  let k := (max ((bitlen 64 m.natAbs : Int) - 24) (-149 - e)).toNat
  (round_shift m k, e + k)

/-- The gain stored by `v2_set_param` for the parsed value `d`:
`g = (float)d; if (g < 0.0f) g = 0.0f; if (g > 2.0f) g = 2.0f`.  A NaN stays NaN and fails
both comparisons; the infinities are caught by them. -/
def gain_of_double (d : F64) : F32 :=
  match d with
  | .nan => .nan
  | .inf negative => if negative then .val 0 0 else .val 2 0
  | .val m e =>
    let g := f32_of_double m e
    let g := if f32_lt g.1 g.2 0 then (0, 0) else g
    let g := if f32_gt g.1 g.2 2 then (2, 0) else g
    .val g.1 g.2

/-- Function `v2_set_param` on a non-`NULL` instance, key and value.  Library `atof` is a
parameter. -/
def v2_set_param (atof : String → F64) (inst : Instance) (w : World) (key val : String) :
    Instance × World :=
  if key = "gain" then ({ inst with gain := gain_of_double (atof val) }, w)
  else if key = "device_name" then
    if val = "" then (inst, w)
    else
      let device_name := snprintf_s 128 val
      let log_msg := snprintf_s 256 ("device name changed to: " ++ device_name)
      let w := ap_log w log_msg
      let d := start_daemon (clear_ring { inst with device_name := device_name }) w
      (d.2.1, d.2.2)
  else if key = "restart" then
    let w := ap_log w "manual restart requested"
    let i := clear_error (clear_ring inst)
    let d := start_daemon { i with receiving_audio := false } w
    (d.2.1, d.2.2)
  else (inst, w)

/-- Library `snprintf(buf, buf_len, "%s", text)` with `buf_len > 0`: the return value is
the length of `text`, the buffer holds at most `buf_len - 1` characters of it.  A
character stands for one byte, as in `snprintf_s`: for a text with multi-byte characters
the C function returns the byte count. -/
def snprintf_ret (buf_len : Int) (text : String) : Int × String :=
  ((text.length : Int), snprintf_s buf_len.toNat text)

/-- Function `v2_get_param` with a non-`NULL` key and buffer: the return value and the
contents of `buf` afterwards; `inst = none` is a `NULL` instance.  The `"%.2f"` formatting
of the library is a parameter. -/
def v2_get_param (printf_2f : F32 → String) (inst : Option Instance) (key : String)
    (buf : String) (buf_len : Int) : Int × String :=
  if buf_len ≤ 0 then (-1, buf)
  else if key = "gain" then
    snprintf_ret buf_len (printf_2f (match inst with | some i => i.gain | none => .val 1 0))
  else if key = "preset_name" ∨ key = "name" then snprintf_ret buf_len "AirPlay"
  else if key = "device_name" then
    snprintf_ret buf_len (match inst with | some i => i.device_name | none => "Move")
  else if key = "status" then
    match inst with
    | none => snprintf_ret buf_len "error"
    | some i =>
      if i.error_msg ≠ "" then snprintf_ret buf_len "error"
      else if !i.daemon_running then snprintf_ret buf_len "stopped"
      else if i.receiving_audio then snprintf_ret buf_len "playing"
      else snprintf_ret buf_len "waiting"
  else (-1, buf)

/-- Successive calls of `v2_render_block` on one instance, each with its own buffer and
frame count. -/
def render_ticks (RING_SAMPLES : Nat) : List (List Int × Int) → Instance → World →
    Instance × World
  | [], inst, w => (inst, w)
  | (out, frames) :: rest, inst, w =>
    let r := v2_render_block RING_SAMPLES (some inst) out frames w
    render_ticks RING_SAMPLES rest (r.1.getD inst) r.2.2

/-- The state of `v2_render_block` right after its `ring_pop`: the instance, the buffer
and the count `got`. -/
def render_popped (RING_SAMPLES : Nat) (inst : Instance) (out : List Int) (frames : Int)
    (w : World) : Instance × List Int × Nat :=
  ring_pop RING_SAMPLES
    (pump_pipe RING_SAMPLES (check_daemon_alive inst w).1 (check_daemon_alive inst w).2).1
    (memset_zero out (frames.toNat * 2)) (frames.toNat * 2)

/-- The gain step of `v2_render_block` on the buffer `out` whose first `got` samples were
popped. -/
def gain_stage (gain : F32) (out : List Int) (got : Nat) : List Int :=
  if gain.ne_one ∧ got > 0 then
    (List.range got).foldl (fun o i => o.set i (gain_sample gain (o.getD i 0))) out
  else out

/-- The keep-alive step of `v2_render_block` on the buffer `out` of `needed` samples. -/
def keep_alive (running : Bool) (out : List Int) (needed : Nat) : List Int :=
  if running then out.set (needed - 1) (toInt16 (toUInt16 (out.getD (needed - 1) 0) ||| 5))
  else out

/-- Clamping to the `int16_t` range and truncating toward zero, in the words of the spec,
on the exact rational value. -/
def clip_truncate (p : ℚ) : Int :=
  let c := max (-32768) (min 32767 p)
  if 0 ≤ c then ⌊c⌋ else ⌈c⌉

/-- The rational denoted by the pair `(m, e)`: `m * 2 ^ e`. -/
def dyadic (m e : Int) : ℚ := (m : ℚ) * (2 : ℚ) ^ e

/-- Two instance states agree on every field that is not part of the audio path (the
ring, its cursors, the pending bytes and the activity fields). -/
def SameOutsideAudio (a b : Instance) : Prop :=
  a.module_dir = b.module_dir ∧ a.fifo_path = b.fifo_path ∧ a.config_path = b.config_path ∧
  a.device_name = b.device_name ∧ a.error_msg = b.error_msg ∧ a.slot = b.slot ∧
  a.fifo_fd = b.fifo_fd ∧ a.daemon_pid = b.daemon_pid ∧
  a.daemon_running = b.daemon_running ∧ a.gain = b.gain

/-- Two worlds agree on everything but the FIFO reads, the clock and the trace of pushed
samples. -/
def SameOutsidePipe (v w : World) : Prop :=
  v.waitpids = w.waitpids ∧ v.callocs = w.callocs ∧ v.mkfifos = w.mkfifos ∧
  v.opens = w.opens ∧ v.fopens = w.fopens ∧ v.forks = w.forks ∧ v.execs = w.execs ∧
  v.files = w.files ∧ v.configs = w.configs ∧ v.open_fds = w.open_fds ∧
  v.signals = w.signals ∧ v.children = w.children ∧ v.log = w.log

/-- A call the host makes on a live instance that can change it: `v2_set_param` or
`v2_render_block`.  The other entry points (`v2_get_param`, `v2_get_error`, `v2_on_midi`)
write nothing. -/
inductive ApiCall where
  | set_param (key val : String)
  | render_block (out : List Int) (frames : Int)
  deriving DecidableEq

/-- Executes one host call in the environment `cw.2` it meets. -/
def ApiCall.run (RING_SAMPLES : Nat) (atof : String → F64) (inst : Instance)
    (cw : ApiCall × World) : Instance :=
  match cw.1 with
  | .set_param key val => (v2_set_param atof inst cw.2 key val).1
  | .render_block out frames =>
    (v2_render_block RING_SAMPLES (some inst) out frames cw.2).1.getD inst

/-- Executes a sequence of host calls on an instance, each call in its own environment. -/
def api_run (RING_SAMPLES : Nat) (atof : String → F64) (inst : Instance)
    (calls : List (ApiCall × World)) : Instance :=
  calls.foldl (ApiCall.run RING_SAMPLES atof) inst

/-- What the drain relies on: the ring is not full, the write counter is a 64-bit value,
and at most three bytes are pending in the four-byte array. -/
def Drainable (RING_SAMPLES : Nat) (inst : Instance) : Prop :=
  ring_available RING_SAMPLES inst + 1 ≤ RING_SAMPLES ∧ inst.write_abs < 2 ^ 64 ∧
  inst.pending_len ≤ 3 ∧ inst.pending_bytes.length = 4

/-! ## Ring buffer: loop lemmas -/

theorem mod_ne_of_lt_of_lt_add {C j m : Nat} (h1 : j < m) (h2 : m < j + C) :
    j % C ≠ m % C := by
  intro h
  have hd : C ∣ m - j := (Nat.modEq_iff_dvd' (le_of_lt h1)).mp h
  have h0 : m - j = 0 := Nat.eq_zero_of_dvd_of_lt hd (by omega)
  omega

/-- What the copy loop of `ring_push` computes: the two write cursors advance by `n`, the
slots of the `n` newest positions hold the pushed samples, every slot still inside the window
of the last `RING_SAMPLES` positions is kept, and no other field changes. -/
theorem push_loop_spec (C : Nat) (hC : 0 < C) (samples : List Int) (n : Nat) (inst : Instance)
    (hpos : inst.write_pos = inst.write_abs % C)
    (hlen : inst.ring.length = C)
    (h : inst.write_abs + n < 2 ^ 64) :
    ∃ R : List Int,
      (List.range n).foldl (ring_push_iter C samples) inst
        = { inst with ring := R, write_pos := (inst.write_abs + n) % C,
                      write_abs := inst.write_abs + n } ∧
      R.length = C ∧
      (∀ j, j < inst.write_abs → inst.write_abs + n ≤ j + C →
        R.getD (j % C) 0 = inst.ring.getD (j % C) 0) ∧
      (∀ j, inst.write_abs ≤ j → j < inst.write_abs + n → inst.write_abs + n ≤ j + C →
        R.getD (j % C) 0 = samples.getD (j - inst.write_abs) 0) := by
  induction n with
  | zero =>
    refine ⟨inst.ring, ?_, hlen, fun _ _ _ => rfl, fun j h1 h2 _ => by omega⟩
    simp [← hpos]
  | succ k ih =>
    obtain ⟨R, hR, hRlen, hold, hnew⟩ := ih (by omega)
    refine ⟨R.set ((inst.write_abs + k) % C) (samples.getD k 0), ?_, ?_, ?_, ?_⟩
    · rw [List.range_succ, List.foldl_append, hR]
      simp only [List.foldl_cons, List.foldl_nil, ring_push_iter]
      rw [Nat.mod_add_mod, Nat.mod_eq_of_lt (by omega : inst.write_abs + k + 1 < 2 ^ 64)]
      rfl
    · simpa using hRlen
    · intro j h1 h2
      have hne : (inst.write_abs + k) % C ≠ j % C :=
        (mod_ne_of_lt_of_lt_add (by omega) (by omega)).symm
      rw [List.getD_eq_getElem?_getD, List.getElem?_set_ne hne, ← List.getD_eq_getElem?_getD]
      exact hold j h1 (by omega)
    · intro j h1 h2 h3
      by_cases hj : j = inst.write_abs + k
      · subst hj
        have hlt : (inst.write_abs + k) % C < R.length := by
          rw [hRlen]; exact Nat.mod_lt _ hC
        rw [List.getD_eq_getElem?_getD, List.getElem?_set_self hlt]
        simp
      · have hne : (inst.write_abs + k) % C ≠ j % C :=
          (mod_ne_of_lt_of_lt_add (by omega) (by omega)).symm
        rw [List.getD_eq_getElem?_getD, List.getElem?_set_ne hne, ← List.getD_eq_getElem?_getD]
        exact hnew j h1 (by omega) (by omega)

/-- The cursor part of `push_loop_spec`, with no assumption on the ring array. -/
theorem push_loop_cursors (C : Nat) (samples : List Int) (n : Nat) (inst : Instance)
    (hpos : inst.write_pos = inst.write_abs % C)
    (h : inst.write_abs + n < 2 ^ 64) :
    ∃ R : List Int,
      (List.range n).foldl (ring_push_iter C samples) inst
        = { inst with ring := R, write_pos := (inst.write_abs + n) % C,
                      write_abs := inst.write_abs + n } := by
  induction n with
  | zero => exact ⟨inst.ring, by simp [← hpos]⟩
  | succ k ih =>
    obtain ⟨R, hR⟩ := ih (by omega)
    refine ⟨R.set ((inst.write_abs + k) % C) (samples.getD k 0), ?_⟩
    rw [List.range_succ, List.foldl_append, hR]
    simp only [List.foldl_cons, List.foldl_nil, ring_push_iter]
    rw [Nat.mod_add_mod, Nat.mod_eq_of_lt (by omega : inst.write_abs + k + 1 < 2 ^ 64)]
    rfl

/-- The read cursor computed by the loop of `ring_pop`. -/
theorem pop_loop_cursor (C : Nat) (inst : Instance) (got : Nat) (out : List Int) (p : Nat)
    (h : p + got < 2 ^ 64) :
    ((List.range got).foldl (ring_pop_iter C inst) (out, p)).2 = p + got := by
  induction got with
  | zero => simp
  | succ k ih =>
    rw [List.range_succ, List.foldl_append]
    simp only [List.foldl_cons, List.foldl_nil, ring_pop_iter]
    rw [ih (by omega), Nat.mod_eq_of_lt (by omega)]
    rfl

/-- The caller's buffer after the loop of `ring_pop`: the first `got` entries are the ring
slots of positions `p .. p+got-1`, the rest is what the caller had. -/
theorem pop_loop_out (C : Nat) (inst : Instance) (got : Nat) (out : List Int) (p : Nat)
    (h : p + got < 2 ^ 64) (hout : got ≤ out.length) :
    ((List.range got).foldl (ring_pop_iter C inst) (out, p)).1
      = (List.range got).map (fun i => inst.ring.getD ((p + i) % C) 0) ++ out.drop got := by
  induction got with
  | zero => simp
  | succ k ih =>
    have hc := pop_loop_cursor C inst k out p (by omega)
    rw [List.range_succ, List.foldl_append]
    simp only [List.foldl_cons, List.foldl_nil, ring_pop_iter]
    rw [ih (by omega) (by omega), hc]
    have hk : k < out.length := by omega
    rw [List.map_append, List.append_assoc]
    have hl : ((List.range k).map (fun i => inst.ring.getD ((p + i) % C) 0)).length = k := by
      simp
    rw [List.set_append_right _ _ (by omega), hl, Nat.sub_self, List.drop_eq_getElem_cons hk]
    simp [List.set]

/-- Function `ring_push` on a state whose write cursors agree: the loop result of
`push_loop_spec`, with `play_abs` raised to `write_abs - RING_SAMPLES` when it was below. -/
theorem ring_push_spec (C : Nat) (hC : 0 < C) (samples : List Int) (n : Nat) (inst : Instance)
    (hpos : inst.write_pos = inst.write_abs % C)
    (hlen : inst.ring.length = C)
    (h : inst.write_abs + n < 2 ^ 64) :
    ∃ R : List Int,
      ring_push C inst samples n
        = { inst with ring := R, write_pos := (inst.write_abs + n) % C,
                      write_abs := inst.write_abs + n,
                      play_abs := max inst.play_abs (inst.write_abs + n - C) } ∧
      R.length = C ∧
      (∀ j, j < inst.write_abs → inst.write_abs + n ≤ j + C →
        R.getD (j % C) 0 = inst.ring.getD (j % C) 0) ∧
      (∀ j, inst.write_abs ≤ j → j < inst.write_abs + n → inst.write_abs + n ≤ j + C →
        R.getD (j % C) 0 = samples.getD (j - inst.write_abs) 0) := by
  obtain ⟨R, hR, hRlen, hold, hnew⟩ := push_loop_spec C hC samples n inst hpos hlen h
  refine ⟨R, ?_, hRlen, hold, hnew⟩
  unfold ring_push
  simp only [hR]
  by_cases hgt : inst.write_abs + n > C
  · by_cases hp : inst.play_abs < inst.write_abs + n - C
    · simp only [hgt, hp, if_true]
      rw [max_eq_right (le_of_lt hp)]
    · simp only [hgt, hp, if_true, if_false]
      rw [max_eq_left (by omega)]
  · have hp : ¬ inst.play_abs < 0 := by omega
    simp only [hgt, hp, if_false]
    rw [max_eq_left (by omega)]

/-- The cursor part of `ring_push_spec`, with no assumption on the ring array. -/
theorem ring_push_cursors (C : Nat) (samples : List Int) (n : Nat) (inst : Instance)
    (hpos : inst.write_pos = inst.write_abs % C)
    (h : inst.write_abs + n < 2 ^ 64) :
    ∃ R : List Int,
      ring_push C inst samples n
        = { inst with ring := R, write_pos := (inst.write_abs + n) % C,
                      write_abs := inst.write_abs + n,
                      play_abs := max inst.play_abs (inst.write_abs + n - C) } := by
  obtain ⟨R, hR⟩ := push_loop_cursors C samples n inst hpos h
  refine ⟨R, ?_⟩
  unfold ring_push
  simp only [hR]
  by_cases hgt : inst.write_abs + n > C
  · by_cases hp : inst.play_abs < inst.write_abs + n - C
    · simp only [hgt, hp, if_true]
      rw [max_eq_right (le_of_lt hp)]
    · simp only [hgt, hp, if_true, if_false]
      rw [max_eq_left (by omega)]
  · have hp : ¬ inst.play_abs < 0 := by omega
    simp only [hgt, hp, if_false]
    rw [max_eq_left (by omega)]

/-- Under the cursor invariant `ring_available` is the plain difference of the counters. -/
theorem ring_available_eq (C : Nat) (inst : Instance) (hinv : RingInv C inst) :
    ring_available C inst = inst.write_abs - inst.play_abs := by
  obtain ⟨h1, h2, _⟩ := hinv
  unfold ring_available
  by_cases hle : inst.write_abs ≤ inst.play_abs
  · simp only [hle, if_true]; omega
  · have : ¬ inst.write_abs - inst.play_abs > C := by omega
    simp only [hle, this, if_false]

/-- Function `ring_pop` on a state satisfying the cursor invariant. -/
theorem ring_pop_spec (C : Nat) (inst : Instance) (out : List Int) (n : Nat)
    (hinv : RingInv C inst) (hw : inst.write_abs < 2 ^ 64) :
    (ring_pop C inst out n).1
        = { inst with play_abs := inst.play_abs + min (inst.write_abs - inst.play_abs) n } ∧
    (ring_pop C inst out n).2.2 = min (inst.write_abs - inst.play_abs) n ∧
    (n ≤ out.length → (ring_pop C inst out n).2.1
        = (List.range (min (inst.write_abs - inst.play_abs) n)).map
            (fun i => inst.ring.getD ((inst.play_abs + i) % C) 0)
          ++ out.drop (min (inst.write_abs - inst.play_abs) n)) := by
  have hav := ring_available_eq C inst hinv
  obtain ⟨h1, h2, _⟩ := hinv
  unfold ring_pop
  by_cases hn : n = 0
  · subst hn
    simp
  · simp only [hn, if_false, hav]
    have hgot : (if inst.write_abs - inst.play_abs > n then n
        else inst.write_abs - inst.play_abs) = min (inst.write_abs - inst.play_abs) n := by
      by_cases hg : inst.write_abs - inst.play_abs > n
      · simp only [hg, if_true]; omega
      · simp only [hg, if_false]; omega
    rw [hgot]
    have hb : inst.play_abs + min (inst.write_abs - inst.play_abs) n < 2 ^ 64 := by omega
    refine ⟨?_, rfl, ?_⟩
    · rw [pop_loop_cursor C inst _ out inst.play_abs hb]
    · intro hlen
      exact pop_loop_out C inst _ out inst.play_abs hb (by omega)

theorem RingOp.run_inv (C : Nat) (inst : Instance) (op : RingOp)
    (hinv : RingInv64 C inst)
    (hnw : op.below inst) :
    RingInv64 C (op.run C inst) := by
  obtain ⟨⟨h1, h2, h3⟩, h4⟩ := hinv
  cases op with
  | push samples =>
    obtain ⟨R, hR⟩ := ring_push_cursors C samples samples.length inst h3 hnw
    simp only [RingOp.run, hR, RingInv64, RingInv]
    refine ⟨⟨?_, ?_, trivial⟩, hnw⟩
    · exact max_le (by omega) (by omega)
    · have := le_max_right inst.play_abs (inst.write_abs + samples.length - C)
      omega
  | pop out n =>
    have hs := (ring_pop_spec C inst out n ⟨h1, h2, h3⟩ h4).1
    simp only [RingOp.run, hs, RingInv64, RingInv]
    refine ⟨⟨by omega, by omega, h3⟩, h4⟩
  | clear =>
    simp [RingOp.run, clear_ring, RingInv64, RingInv]

theorem runOps_inv (C : Nat) (ops : List RingOp) :
    ∀ (inst : Instance), RingInv64 C inst → CountersBelow C inst ops →
      ∀ k, RingInv64 C (runOps C inst (ops.take k)) := by
  induction ops with
  | nil => intro inst hinv _ k; simpa [runOps] using hinv
  | cons op rest ih =>
    intro inst hinv hnw k
    cases k with
    | zero => simpa [runOps] using hinv
    | succ k =>
      obtain ⟨hop, hrest⟩ := hnw
      have := ih (op.run C inst) (RingOp.run_inv C inst op hinv hop) hrest k
      simpa [runOps] using this

theorem Holds.push (C : Nat) (hC : 0 < C) (inst : Instance) (S xs : List Int)
    (hS : Holds C inst S) (hnw : inst.write_abs + xs.length < 2 ^ 64) :
    Holds C (ring_push C inst xs xs.length) (S ++ xs) ∧
    (ring_push C inst xs xs.length).play_abs
      = max inst.play_abs (inst.write_abs + xs.length - C) := by
  obtain ⟨hlen, hw, hlt, ⟨h1, h2, h3⟩, hcont⟩ := hS
  obtain ⟨R, hR, hRlen, hold, hnew⟩ := ring_push_spec C hC xs xs.length inst h3 hlen hnw
  rw [hR]
  refine ⟨⟨hRlen, by simp [hw], by simp; omega, ⟨?_, ?_, rfl⟩, ?_⟩, rfl⟩
  · dsimp only
    exact max_le (by omega) (by omega)
  · have := le_max_right inst.play_abs (inst.write_abs + xs.length - C)
    dsimp only
    omega
  · intro j hj1 hj2
    simp only [List.length_append] at hj1 hj2
    show R.getD (j % C) 0 = (S ++ xs).getD j 0
    by_cases hjS : j < S.length
    · rw [hold j (by omega) (by omega), hcont j hjS (by omega)]
      simp [List.getD_eq_getElem?_getD, List.getElem?_append_left hjS]
    · rw [hnew j (by omega) (by omega) (by omega), hw]
      simp [List.getD_eq_getElem?_getD, List.getElem?_append_right (by omega : S.length ≤ j)]

theorem Holds.pop (C : Nat) (inst : Instance) (S : List Int) (out : List Int) (n : Nat)
    (hS : Holds C inst S) :
    Holds C (ring_pop C inst out n).1 S := by
  obtain ⟨hlen, hw, hlt, hinv, hcont⟩ := hS
  have hs := (ring_pop_spec C inst out n hinv (by omega)).1
  obtain ⟨h1, h2, h3⟩ := hinv
  rw [hs]
  exact ⟨hlen, hw, hlt, ⟨by dsimp only; omega, by dsimp only; omega, h3⟩, hcont⟩

theorem Holds.clear (C : Nat) (inst : Instance) (hlen : inst.ring.length = C) :
    Holds C (clear_ring inst) [] := by
  refine ⟨hlen, rfl, by simp, ⟨le_refl _, by simp [clear_ring], by simp [clear_ring]⟩, ?_⟩
  intro j hj
  simp at hj

/-- What `ring_pop` hands to the caller when the ring holds the stream `S`: the `got` stream
entries from position `play_abs` on, followed by the untouched rest of the caller's buffer. -/
theorem Holds.pop_out (C : Nat) (inst : Instance) (S : List Int) (out : List Int) (n : Nat)
    (hS : Holds C inst S) (hn : n ≤ out.length) :
    (ring_pop C inst out n).2.1
      = ((S.drop inst.play_abs).take (min (S.length - inst.play_abs) n))
        ++ out.drop (min (S.length - inst.play_abs) n) := by
  obtain ⟨hlen, hw, hlt, hinv, hcont⟩ := hS
  have hs := (ring_pop_spec C inst out n hinv (by omega)).2.2 hn
  obtain ⟨h1, h2, h3⟩ := hinv
  rw [hs, hw]
  congr 1
  apply List.ext_getElem
  · simp
  · intro i hi1 hi2
    simp only [List.length_map, List.length_range] at hi1
    have hi3 : i < S.length - inst.play_abs := by
      have := Nat.min_le_left (S.length - inst.play_abs) n
      omega
    simp only [List.getElem_map, List.getElem_range, List.getElem_take, List.getElem_drop]
    rw [hcont (inst.play_abs + i) (by omega) (by omega)]
    simp [List.getD_eq_getElem?_getD, List.getElem?_eq_getElem (by omega : inst.play_abs + i < S.length)]

theorem runOps_holds (C : Nat) (hC : 0 < C) (ops : List RingOp) :
    ∀ (inst : Instance) (S : List Int), Holds C inst S → CountersBelow C inst ops →
      Holds C (runOps C inst ops)
        (ops.foldl (fun S op =>
          match op with
          | .push samples => S ++ samples
          | .pop _ _ => S
          | .clear => []) S) := by
  induction ops with
  | nil => intro inst S hS _; simpa [runOps] using hS
  | cons op rest ih =>
    intro inst S hS hnw
    obtain ⟨hop, hrest⟩ := hnw
    simp only [runOps, List.foldl_cons]
    cases op with
    | push xs => exact ih _ _ (Holds.push C hC inst S xs hS hop).1 hrest
    | pop out n => exact ih _ _ (Holds.pop C inst S out n hS) hrest
    | clear => exact ih _ _ (Holds.clear C inst hS.1) hrest

theorem pushes_play_abs (C : Nat) (hC : 0 < C) (chunks : List (List Int)) :
    ∀ (inst : Instance) (S : List Int), Holds C inst S →
      inst.play_abs = inst.write_abs - C →
      S.length + chunks.flatten.length < 2 ^ 64 →
      Holds C (runOps C inst (chunks.map RingOp.push)) (S ++ chunks.flatten) ∧
      (runOps C inst (chunks.map RingOp.push)).play_abs = (S ++ chunks.flatten).length - C := by
  induction chunks with
  | nil =>
    intro inst S hS hp _
    simp only [List.map_nil, runOps, List.foldl_nil, List.flatten_nil, List.append_nil]
    exact ⟨hS, by rw [hp, hS.2.1]⟩
  | cons xs rest ih =>
    intro inst S hS hp hlt
    simp only [List.flatten_cons, List.length_append] at hlt
    have hw := hS.2.1
    obtain ⟨hS1, hp1⟩ := Holds.push C hC inst S xs hS (by omega)
    have hp2 : (ring_push C inst xs xs.length).play_abs
        = (ring_push C inst xs xs.length).write_abs - C := by
      rw [hp1, hS1.2.1, hp, hw]
      simp only [List.length_append]
      omega
    have := ih _ _ hS1 hp2 (by simp only [List.length_append]; omega)
    simpa [runOps, RingOp.run, List.append_assoc] using this

/-! ## Ring buffer: claims -/

/-- C1: from a cleared instance (all three cursors zero), after every prefix of every finite
sequence of `ring_push`, `ring_pop` and `clear_ring` calls in which the 64-bit counters do
not wrap, `play_abs ≤ write_abs`, `write_abs - play_abs ≤ RING_SAMPLES` and
`write_pos = write_abs mod RING_SAMPLES`; hence `ring_available` is exactly
`write_abs - play_abs` and is at most `RING_SAMPLES`. -/
theorem ring_invariant_reachable (RING_SAMPLES : Nat) (inst : Instance) (ops : List RingOp)
    (hclear : inst.write_pos = 0 ∧ inst.write_abs = 0 ∧ inst.play_abs = 0)
    (hnw : CountersBelow RING_SAMPLES inst ops) (k : Nat) :
    (runOps RING_SAMPLES inst (ops.take k)).play_abs
        ≤ (runOps RING_SAMPLES inst (ops.take k)).write_abs ∧
    (runOps RING_SAMPLES inst (ops.take k)).write_abs
        - (runOps RING_SAMPLES inst (ops.take k)).play_abs ≤ RING_SAMPLES ∧
    (runOps RING_SAMPLES inst (ops.take k)).write_pos
        = (runOps RING_SAMPLES inst (ops.take k)).write_abs % RING_SAMPLES ∧
    ring_available RING_SAMPLES (runOps RING_SAMPLES inst (ops.take k))
        = (runOps RING_SAMPLES inst (ops.take k)).write_abs
          - (runOps RING_SAMPLES inst (ops.take k)).play_abs ∧
    ring_available RING_SAMPLES (runOps RING_SAMPLES inst (ops.take k)) ≤ RING_SAMPLES := by
  obtain ⟨h1, h2, h3⟩ := hclear
  have h0 : RingInv64 RING_SAMPLES inst := by
    refine ⟨⟨by omega, by omega, ?_⟩, by omega⟩
    rw [h1, h2]; simp
  have hk := (runOps_inv RING_SAMPLES ops inst h0 hnw k).1
  have hav := ring_available_eq RING_SAMPLES _ hk
  obtain ⟨a, b, c⟩ := hk
  exact ⟨a, b, c, hav, by omega⟩

/-- C1 at a concrete run: capacity 8, push of 12 samples, pop of 8, clear, push of 3; the
state after the first two calls is inspected. -/
theorem ring_invariant_reachable_witness :
    ((zeroed 8).write_pos = 0 ∧ (zeroed 8).write_abs = 0 ∧ (zeroed 8).play_abs = 0) ∧
    CountersBelow 8 (zeroed 8)
      [.push [1, 2, 3, 4, 5, 6, 7, 8, 9, 10, 11, 12], .pop (List.replicate 8 0) 5, .clear,
        .push [1, 2, 3]] ∧
    ring_available 8 (runOps 8 (zeroed 8)
      ([RingOp.push [1, 2, 3, 4, 5, 6, 7, 8, 9, 10, 11, 12], .pop (List.replicate 8 0) 5,
        .clear, .push [1, 2, 3]].take 2)) ≤ 8 :=
  ⟨by decide, by decide,
    (ring_invariant_reachable 8 (zeroed 8)
      [.push [1, 2, 3, 4, 5, 6, 7, 8, 9, 10, 11, 12], .pop (List.replicate 8 0) 5, .clear,
        .push [1, 2, 3]] (by decide) (by decide) 2).2.2.2.2⟩

theorem holds_of_cleared (C : Nat) (inst : Instance)
    (hclear : inst.write_pos = 0 ∧ inst.write_abs = 0 ∧ inst.play_abs = 0)
    (hlen : inst.ring.length = C) : Holds C inst [] := by
  obtain ⟨h1, h2, h3⟩ := hclear
  refine ⟨hlen, by simp [h2], by simp, ⟨by omega, by omega, by rw [h1, h2]; simp⟩, ?_⟩
  intro j hj
  simp at hj

/-- C2: for every capacity and every `k`, after `RING_SAMPLES + k` samples are pushed into
a cleared ring, in one `ring_push` call or split over several, `ring_pop` of `RING_SAMPLES`
samples returns `RING_SAMPLES` and writes the last `RING_SAMPLES` samples pushed, in push
order, leaving the rest of the caller's buffer as it was. -/
theorem drop_oldest (RING_SAMPLES : Nat) (hC : 0 < RING_SAMPLES) (inst : Instance)
    (hclear : inst.write_pos = 0 ∧ inst.write_abs = 0 ∧ inst.play_abs = 0)
    (hlen : inst.ring.length = RING_SAMPLES)
    (chunks : List (List Int)) (k : Nat)
    (hk : chunks.flatten.length = RING_SAMPLES + k) (hnw : RING_SAMPLES + k < 2 ^ 64)
    (out : List Int) (hout : RING_SAMPLES ≤ out.length) :
    (ring_pop RING_SAMPLES (runOps RING_SAMPLES inst (chunks.map RingOp.push))
        out RING_SAMPLES).2.2 = RING_SAMPLES ∧
    (ring_pop RING_SAMPLES (runOps RING_SAMPLES inst (chunks.map RingOp.push))
        out RING_SAMPLES).2.1 = chunks.flatten.drop k ++ out.drop RING_SAMPLES := by
  have h0 := holds_of_cleared RING_SAMPLES inst hclear hlen
  obtain ⟨hS, hp⟩ := pushes_play_abs RING_SAMPLES hC chunks inst [] h0
    (by obtain ⟨_, h2, h3⟩ := hclear; omega) (by simp only [List.length_nil]; omega)
  simp only [List.nil_append] at hS hp
  have hw := hS.2.1
  have hgot := (ring_pop_spec RING_SAMPLES _ out RING_SAMPLES hS.2.2.2.1 (by omega)).2.1
  have hout2 := Holds.pop_out RING_SAMPLES _ chunks.flatten out RING_SAMPLES hS hout
  rw [hp, hk] at hout2
  rw [hw, hp, hk] at hgot
  have e1 : RING_SAMPLES + k - RING_SAMPLES = k := by omega
  have e2 : min (RING_SAMPLES + k - k) RING_SAMPLES = RING_SAMPLES := by
    rw [Nat.add_sub_cancel]; exact Nat.min_self _
  rw [e1, e2] at hout2 hgot
  refine ⟨hgot, ?_⟩
  rw [hout2, List.take_of_length_le]
  simp only [List.length_drop]
  omega

/-- C2 at the spec's example: capacity 8, push `[1..12]`, pop 8 gives `[5..12]`. -/
theorem drop_oldest_witness :
    (0 < 8 ∧ (zeroed 8).ring.length = 8 ∧ 8 ≤ (List.replicate 8 (0 : Int)).length) ∧
    (ring_pop 8 (runOps 8 (zeroed 8) [.push [1, 2, 3, 4, 5, 6, 7, 8, 9, 10, 11, 12]])
        (List.replicate 8 0) 8).2.2 = 8 ∧
    (ring_pop 8 (runOps 8 (zeroed 8) [.push [1, 2, 3, 4, 5, 6, 7, 8, 9, 10, 11, 12]])
        (List.replicate 8 0) 8).2.1 = [5, 6, 7, 8, 9, 10, 11, 12] :=
  ⟨by decide,
    drop_oldest 8 (by decide) (zeroed 8) (by decide) (by decide)
      [[1, 2, 3, 4, 5, 6, 7, 8, 9, 10, 11, 12]] 4 (by decide) (by decide)
      (List.replicate 8 0) (by decide)⟩

/-- C3: in every state reached from a cleared ring by pushes and pops (and clears), with `S`
the samples pushed since the last clear, `ring_pop(out, n)` returns
`got = min(ring_available, n)`, the caller's buffer becomes `S[play_abs .. play_abs+got)`
followed by its own previous entries from index `got` on, and the instance changes in
`play_abs` only, which advances by `got`. -/
theorem pop_semantics (RING_SAMPLES : Nat) (hC : 0 < RING_SAMPLES) (inst : Instance)
    (hclear : inst.write_pos = 0 ∧ inst.write_abs = 0 ∧ inst.play_abs = 0)
    (hlen : inst.ring.length = RING_SAMPLES)
    (ops : List RingOp) (hnw : CountersBelow RING_SAMPLES inst ops)
    (out : List Int) (n : Nat) (hout : n ≤ out.length) :
    (ring_pop RING_SAMPLES (runOps RING_SAMPLES inst ops) out n).2.2
      = min (ring_available RING_SAMPLES (runOps RING_SAMPLES inst ops)) n ∧
    (runOps RING_SAMPLES inst ops).play_abs
      + min (ring_available RING_SAMPLES (runOps RING_SAMPLES inst ops)) n
      ≤ (pushedSince ops).length ∧
    (ring_pop RING_SAMPLES (runOps RING_SAMPLES inst ops) out n).2.1
      = ((pushedSince ops).drop (runOps RING_SAMPLES inst ops).play_abs).take
          (min (ring_available RING_SAMPLES (runOps RING_SAMPLES inst ops)) n)
        ++ out.drop (min (ring_available RING_SAMPLES (runOps RING_SAMPLES inst ops)) n) ∧
    (ring_pop RING_SAMPLES (runOps RING_SAMPLES inst ops) out n).1
      = { runOps RING_SAMPLES inst ops with
          play_abs := (runOps RING_SAMPLES inst ops).play_abs
            + min (ring_available RING_SAMPLES (runOps RING_SAMPLES inst ops)) n } := by
  have h0 := holds_of_cleared RING_SAMPLES inst hclear hlen
  have hS := runOps_holds RING_SAMPLES hC ops inst [] h0 hnw
  change Holds RING_SAMPLES (runOps RING_SAMPLES inst ops) (pushedSince ops) at hS
  have hav := ring_available_eq RING_SAMPLES _ hS.2.2.2.1
  have hw := hS.2.1
  have hspec := ring_pop_spec RING_SAMPLES _ out n hS.2.2.2.1 (by rw [hw]; exact hS.2.2.1)
  have hpo := Holds.pop_out RING_SAMPLES _ (pushedSince ops) out n hS hout
  have h1 := hS.2.2.2.1.1
  rw [hav]
  rw [← hw] at hpo
  refine ⟨hspec.2.1, ?_, hpo, hspec.1⟩
  have := Nat.min_le_left
    ((runOps RING_SAMPLES inst ops).write_abs - (runOps RING_SAMPLES inst ops).play_abs) n
  omega

/-- C3 at the spec's example: push `[1,2,3]`, pop request of 5 into `[9,9,9,7,8]` returns 3
and leaves `[1,2,3,7,8]`. -/
theorem pop_semantics_witness :
    (0 < 8 ∧ CountersBelow 8 (zeroed 8) [.push [1, 2, 3]] ∧
      5 ≤ ([9, 9, 9, 7, 8] : List Int).length) ∧
    (ring_pop 8 (runOps 8 (zeroed 8) [.push [1, 2, 3]]) [9, 9, 9, 7, 8] 5).2.2 = 3 ∧
    (ring_pop 8 (runOps 8 (zeroed 8) [.push [1, 2, 3]]) [9, 9, 9, 7, 8] 5).2.1
      = [1, 2, 3, 7, 8] :=
  ⟨by decide,
    (pop_semantics 8 (by decide) (zeroed 8) (by decide) (by decide) [.push [1, 2, 3]]
      (by decide) [9, 9, 9, 7, 8] 5 (by decide)).1,
    (pop_semantics 8 (by decide) (zeroed 8) (by decide) (by decide) [.push [1, 2, 3]]
      (by decide) [9, 9, 9, 7, 8] 5 (by decide)).2.2.1⟩

/-! ## Pipe pump: lemmas -/

/-- Masking with `~3` rounds down to a multiple of four. -/
theorem land_not_three (x : Nat) (hx : x < 2 ^ 64) : x &&& (2 ^ 64 - 4) = 4 * (x / 4) := by
  have h1 : (x &&& (2 ^ 64 - 4)) % 2 = 0 := by
    have := @Nat.and_mod_two_eq_one x (2 ^ 64 - 4)
    have h2 : (2 ^ 64 - 4) % 2 = 0 := by norm_num
    omega
  have h3 : (x &&& (2 ^ 64 - 4)) / 2 = x / 2 &&& (2 ^ 63 - 2) := by
    rw [Nat.and_div_two]; norm_num
  have h4 : ((x &&& (2 ^ 64 - 4)) / 2) % 2 = 0 := by
    rw [h3]
    have := @Nat.and_mod_two_eq_one (x / 2) (2 ^ 63 - 2)
    have h2 : (2 ^ 63 - 2) % 2 = 0 := by norm_num
    omega
  have h5 : (x &&& (2 ^ 64 - 4)) / 2 / 2 = x / 2 / 2 := by
    rw [h3, Nat.and_div_two]
    have : (2 ^ 63 - 2) / 2 = 2 ^ 62 - 1 := by norm_num
    rw [this, Nat.and_pow_two_sub_one_eq_mod]
    apply Nat.mod_eq_of_lt
    omega
  omega

/-- Function `ring_push` writes the ring and the three cursors and nothing else. -/
theorem ring_push_frame (C : Nat) (samples : List Int) (n : Nat) (inst : Instance) :
    ∃ (R : List Int) (a b c : Nat),
      ring_push C inst samples n
        = { inst with ring := R, write_pos := a, write_abs := b, play_abs := c } := by
  have hloop : ∀ n, ∃ (R : List Int) (a b : Nat),
      (List.range n).foldl (ring_push_iter C samples) inst
        = { inst with ring := R, write_pos := a, write_abs := b } := by
    intro n
    induction n with
    | zero => exact ⟨inst.ring, inst.write_pos, inst.write_abs, rfl⟩
    | succ k ih =>
      obtain ⟨R, a, b, h⟩ := ih
      rw [List.range_succ, List.foldl_append, h]
      exact ⟨_, _, _, rfl⟩
  obtain ⟨R, a, b, h⟩ := hloop n
  unfold ring_push
  simp only [h]
  split_ifs <;> exact ⟨_, _, _, _, rfl⟩

theorem le16_length (l : List Nat) : (le16 l).length = l.length / 2 := by
  induction l using le16.induct with
  | case1 lo hi rest ih => simp [le16, ih]; omega
  | case2 l h =>
    match l, h with
    | [], _ => simp [le16]
    | [_], _ => simp [le16]
    | lo :: hi :: rest, h => exact absurd rfl (h lo hi rest)

theorem le16_append (a b : List Nat) (ha : a.length % 2 = 0) :
    le16 (a ++ b) = le16 a ++ le16 b := by
  induction a using le16.induct with
  | case1 lo hi rest ih =>
    simp only [List.length_cons] at ha
    simp [le16, ih (by omega)]
  | case2 l h =>
    match l, h with
    | [], _ => simp [le16]
    | [_], _ => simp at ha
    | lo :: hi :: rest, h => exact absurd rfl (h lo hi rest)

/-- The scratch array holds the pending bytes followed by the bytes read. -/
theorem merge_pending_eq (inst : Instance) (buf : List Nat)
    (hp : (inst.pending_bytes.take inst.pending_len).length = inst.pending_len) :
    ∃ tail, merge_pending inst buf
      = (inst.pending_bytes.take inst.pending_len ++ buf) ++ tail := by
  unfold merge_pending memcpy
  by_cases h0 : inst.pending_len > 0
  · simp only [h0, if_true, List.take_zero, List.nil_append, Nat.zero_add]
    rw [List.take_append_of_le_length (by omega), List.take_of_length_le (by omega),
      List.take_length]
    exact ⟨_, rfl⟩
  · have hz : inst.pending_len = 0 := by omega
    simp only [hz, gt_iff_lt, lt_self_iff_false, if_false, List.take_zero, List.nil_append,
      Nat.zero_add, List.take_length]
    exact ⟨_, rfl⟩

@[simp] theorem ring_push_module_dir (C : Nat) (samples : List Int) (n : Nat) (inst : Instance) :
    (ring_push C inst samples n).module_dir = inst.module_dir := by
  obtain ⟨R, a, b, c, h⟩ := ring_push_frame C samples n inst
  rw [h]

@[simp] theorem ring_push_fifo_path (C : Nat) (samples : List Int) (n : Nat) (inst : Instance) :
    (ring_push C inst samples n).fifo_path = inst.fifo_path := by
  obtain ⟨R, a, b, c, h⟩ := ring_push_frame C samples n inst
  rw [h]

@[simp] theorem ring_push_config_path (C : Nat) (samples : List Int) (n : Nat) (inst : Instance) :
    (ring_push C inst samples n).config_path = inst.config_path := by
  obtain ⟨R, a, b, c, h⟩ := ring_push_frame C samples n inst
  rw [h]

@[simp] theorem ring_push_device_name (C : Nat) (samples : List Int) (n : Nat) (inst : Instance) :
    (ring_push C inst samples n).device_name = inst.device_name := by
  obtain ⟨R, a, b, c, h⟩ := ring_push_frame C samples n inst
  rw [h]

@[simp] theorem ring_push_error_msg (C : Nat) (samples : List Int) (n : Nat) (inst : Instance) :
    (ring_push C inst samples n).error_msg = inst.error_msg := by
  obtain ⟨R, a, b, c, h⟩ := ring_push_frame C samples n inst
  rw [h]

@[simp] theorem ring_push_slot (C : Nat) (samples : List Int) (n : Nat) (inst : Instance) :
    (ring_push C inst samples n).slot = inst.slot := by
  obtain ⟨R, a, b, c, h⟩ := ring_push_frame C samples n inst
  rw [h]

@[simp] theorem ring_push_fifo_fd (C : Nat) (samples : List Int) (n : Nat) (inst : Instance) :
    (ring_push C inst samples n).fifo_fd = inst.fifo_fd := by
  obtain ⟨R, a, b, c, h⟩ := ring_push_frame C samples n inst
  rw [h]

@[simp] theorem ring_push_daemon_pid (C : Nat) (samples : List Int) (n : Nat) (inst : Instance) :
    (ring_push C inst samples n).daemon_pid = inst.daemon_pid := by
  obtain ⟨R, a, b, c, h⟩ := ring_push_frame C samples n inst
  rw [h]

@[simp] theorem ring_push_daemon_running (C : Nat) (samples : List Int) (n : Nat) (inst : Instance) :
    (ring_push C inst samples n).daemon_running = inst.daemon_running := by
  obtain ⟨R, a, b, c, h⟩ := ring_push_frame C samples n inst
  rw [h]

@[simp] theorem ring_push_pending_bytes (C : Nat) (samples : List Int) (n : Nat) (inst : Instance) :
    (ring_push C inst samples n).pending_bytes = inst.pending_bytes := by
  obtain ⟨R, a, b, c, h⟩ := ring_push_frame C samples n inst
  rw [h]

@[simp] theorem ring_push_pending_len (C : Nat) (samples : List Int) (n : Nat) (inst : Instance) :
    (ring_push C inst samples n).pending_len = inst.pending_len := by
  obtain ⟨R, a, b, c, h⟩ := ring_push_frame C samples n inst
  rw [h]

@[simp] theorem ring_push_gain (C : Nat) (samples : List Int) (n : Nat) (inst : Instance) :
    (ring_push C inst samples n).gain = inst.gain := by
  obtain ⟨R, a, b, c, h⟩ := ring_push_frame C samples n inst
  rw [h]

@[simp] theorem ring_push_receiving_audio (C : Nat) (samples : List Int) (n : Nat) (inst : Instance) :
    (ring_push C inst samples n).receiving_audio = inst.receiving_audio := by
  obtain ⟨R, a, b, c, h⟩ := ring_push_frame C samples n inst
  rw [h]

@[simp] theorem ring_push_last_audio_ms (C : Nat) (samples : List Int) (n : Nat) (inst : Instance) :
    (ring_push C inst samples n).last_audio_ms = inst.last_audio_ms := by
  obtain ⟨R, a, b, c, h⟩ := ring_push_frame C samples n inst
  rw [h]

@[simp] theorem now_ms_pushed (v : World) : (now_ms v).2.pushed = v.pushed := by
  unfold now_ms; split <;> rfl

@[simp] theorem now_ms_reads (v : World) : (now_ms v).2.reads = v.reads := by
  unfold now_ms; split <;> rfl

/-- What `pump_block` does to the pending bytes and to the trace of pushed samples, with `Q`
the pending bytes followed by the bytes read: the whole frames of `Q` are pushed, decoded,
and the bytes after the last whole frame become the pending bytes. -/
theorem pump_block_spec (C : Nat) (inst : Instance) (w : World) (buf : List Nat)
    (hp : (inst.pending_bytes.take inst.pending_len).length = inst.pending_len)
    (hlen : inst.pending_len + buf.length < 2 ^ 64) :
    (pump_block C inst w buf).1.pending_len = (inst.pending_len + buf.length) % 4 ∧
    (pump_block C inst w buf).1.pending_bytes.take ((inst.pending_len + buf.length) % 4)
      = (inst.pending_bytes.take inst.pending_len ++ buf).drop
          (4 * ((inst.pending_len + buf.length) / 4)) ∧
    (pump_block C inst w buf).2.pushed
      = w.pushed ++ le16 ((inst.pending_bytes.take inst.pending_len ++ buf).take
          (4 * ((inst.pending_len + buf.length) / 4))) ∧
    (pump_block C inst w buf).2.reads = w.reads ∧
    (pump_block C inst w buf).1.fifo_fd = inst.fifo_fd := by
  obtain ⟨tail, hm⟩ := merge_pending_eq inst buf hp
  have hQ : (inst.pending_bytes.take inst.pending_len ++ buf).length
      = inst.pending_len + buf.length := by
    rw [List.length_append, hp]
  generalize hQd : inst.pending_bytes.take inst.pending_len ++ buf = Q at hm hQ ⊢
  generalize hmd : inst.pending_len + buf.length = m at hlen hQ ⊢
  have hal := land_not_three m hlen
  have hrem : m - 4 * (m / 4) = m % 4 := by omega
  have hsc : 4 * (m / 4) / 2 = 2 * (m / 4) := by omega
  have hmod : m % 4 % 256 = m % 4 := by omega
  have hdrop : ((Q ++ tail).drop (4 * (m / 4))).take (m % 4) = Q.drop (4 * (m / 4)) := by
    rw [List.drop_append_of_le_length (by omega), List.take_append_of_le_length
      (by rw [List.length_drop]; omega), List.take_of_length_le (by rw [List.length_drop]; omega)]
  have htake : (Q ++ tail).take (2 * (m / 4) * 2) = Q.take (4 * (m / 4)) := by
    rw [show 2 * (m / 4) * 2 = 4 * (m / 4) by omega, List.take_append_of_le_length (by omega)]
  have hl16 : (le16 (Q.take (4 * (m / 4)))).length = 2 * (m / 4) := by
    rw [le16_length, List.length_take]; omega
  unfold pump_block
  simp only [hmd, hal, hrem, hsc, hm, htake]
  generalize List.replicate 2048 (0 : Int) = scratch
  have hpb : (if m % 4 > 0 then memcpy inst.pending_bytes 0 ((Q ++ tail).drop (4 * (m / 4)))
      (m % 4) else inst.pending_bytes).take (m % 4) = Q.drop (4 * (m / 4)) := by
    split_ifs with h2
    · unfold memcpy
      rw [List.take_zero, List.nil_append, hdrop,
        List.take_append_of_le_length (by rw [List.length_drop]; omega),
        List.take_of_length_le (by rw [List.length_drop]; omega)]
    · have h0 : m % 4 = 0 := by omega
      rw [h0, List.take_zero, List.drop_of_length_le (by omega)]
  have hps : (memcpy scratch 0 (le16 (Q.take (4 * (m / 4)))) (2 * (m / 4))).take (2 * (m / 4))
      = le16 (Q.take (4 * (m / 4))) := by
    have e1 : (le16 (Q.take (4 * (m / 4)))).take (2 * (m / 4)) = le16 (Q.take (4 * (m / 4))) :=
      List.take_of_length_le (by omega)
    unfold memcpy
    rw [List.take_zero, List.nil_append, e1, List.take_append_of_le_length (by omega), e1]
  refine ⟨?_, ?_, ?_, ?_, ?_⟩
  · split_ifs <;> simp [hmod]
  · by_cases h1 : 2 * (m / 4) > 0
    · simp only [h1, if_true, ring_push_pending_bytes]
      exact hpb
    · simp only [h1, if_false]
      exact hpb
  · by_cases h1 : 2 * (m / 4) > 0
    · simp only [h1, if_true, now_ms_pushed, hps]
    · have h0 : m / 4 = 0 := by omega
      simp [h0, le16]
  · split_ifs <;> simp
  · split_ifs <;> simp

/-- The cursors after `pump_block`, with `m` the pending bytes plus the bytes read: two
samples per whole frame are pushed. -/
theorem pump_block_cursors (C : Nat) (inst : Instance) (w : World) (buf : List Nat)
    (hinv : RingInv C inst)
    (hlen : inst.pending_len + buf.length < 2 ^ 64)
    (hnw : inst.write_abs + 2 * ((inst.pending_len + buf.length) / 4) < 2 ^ 64) :
    (pump_block C inst w buf).1.write_abs
      = inst.write_abs + 2 * ((inst.pending_len + buf.length) / 4) ∧
    (pump_block C inst w buf).1.play_abs
      = max inst.play_abs (inst.write_abs + 2 * ((inst.pending_len + buf.length) / 4) - C) ∧
    (pump_block C inst w buf).1.write_pos
      = (inst.write_abs + 2 * ((inst.pending_len + buf.length) / 4)) % C := by
  obtain ⟨h1, h2, h3⟩ := hinv
  generalize hmd : inst.pending_len + buf.length = m at hlen hnw ⊢
  have hal := land_not_three m hlen
  have hsc : 4 * (m / 4) / 2 = 2 * (m / 4) := by omega
  unfold pump_block
  simp only [hmd, hal, hsc]
  generalize List.replicate 2048 (0 : Int) = scratch
  by_cases hs : 2 * (m / 4) > 0
  · simp only [hs, if_true]
    generalize hi : ({ inst with
        pending_bytes :=
          if m - 4 * (m / 4) > 0 then
            memcpy inst.pending_bytes 0 ((merge_pending inst buf).drop (4 * (m / 4)))
              (m - 4 * (m / 4))
          else inst.pending_bytes
        pending_len := (m - 4 * (m / 4)) % 256 } : Instance) = inst2
    have ha : inst2.write_abs = inst.write_abs := by rw [← hi]
    have hb : inst2.write_pos = inst.write_pos := by rw [← hi]
    have hc : inst2.play_abs = inst.play_abs := by rw [← hi]
    obtain ⟨R, hR⟩ := ring_push_cursors C
      (memcpy scratch 0 (le16 ((merge_pending inst buf).take (2 * (m / 4) * 2))) (2 * (m / 4)))
      (2 * (m / 4)) inst2 (by rw [ha, hb]; exact h3) (by rw [ha]; exact hnw)
    rw [hR]
    simp only [ha, hc]
    exact ⟨trivial, trivial, trivial⟩
  · have h0 : m / 4 = 0 := by omega
    simp only [h0, Nat.mul_zero, gt_iff_lt, lt_self_iff_false, if_false, Nat.add_zero]
    refine ⟨trivial, ?_, h3⟩
    show inst.play_abs = max inst.play_abs (inst.write_abs - C)
    rw [max_eq_left (by omega)]

/-- Splitting the delivered bytes at the last whole frame before a new chunk `c`. -/
theorem frames_append (P c : List Nat) :
    (P ++ c).take (4 * ((P.length + c.length) / 4))
      = P.take (4 * (P.length / 4))
        ++ (P.drop (4 * (P.length / 4)) ++ c).take (4 * ((P.length % 4 + c.length) / 4)) ∧
    (P ++ c).drop (4 * ((P.length + c.length) / 4))
      = (P.drop (4 * (P.length / 4)) ++ c).drop (4 * ((P.length % 4 + c.length) / 4)) := by
  have hsplit : P ++ c = P.take (4 * (P.length / 4)) ++ (P.drop (4 * (P.length / 4)) ++ c) := by
    rw [← List.append_assoc, List.take_append_drop]
  have hl : (P.take (4 * (P.length / 4))).length = 4 * (P.length / 4) := by
    rw [List.length_take]; omega
  have hx : 4 * ((P.length + c.length) / 4)
      = (P.take (4 * (P.length / 4))).length + 4 * ((P.length % 4 + c.length) / 4) := by
    rw [hl]; omega
  constructor
  · conv_lhs => rw [hsplit, hx]
    exact List.take_append _
  · conv_lhs => rw [hsplit, hx]
    exact List.drop_append _

/-- One successful read keeps the reassembly invariant, for the bytes extended by the
chunk read. -/
theorem Reassembled.block (C : Nat) (log0 : List Int) (inst : Instance) (w : World) (P c : List Nat)
    (hR : Reassembled log0 inst w P) (hc : c.length ≤ 4096) :
    Reassembled log0 (pump_block C inst w c).1 (pump_block C inst w c).2 (P ++ c) := by
  obtain ⟨hpush, hpl, hpb, hfd⟩ := hR
  have hplen : (inst.pending_bytes.take inst.pending_len).length = inst.pending_len := by
    rw [hpb, List.length_drop, hpl]; omega
  have hlt : inst.pending_len + c.length < 2 ^ 64 := by rw [hpl]; omega
  obtain ⟨s1, s2, s3, _, s5⟩ := pump_block_spec C inst w c hplen hlt
  obtain ⟨f1, f2⟩ := frames_append P c
  rw [hpb, hpl] at s2 s3
  rw [hpl] at s1
  have hmod : (P.length % 4 + c.length) % 4 = (P ++ c).length % 4 := by
    rw [List.length_append]; omega
  refine ⟨?_, ?_, ?_, ?_⟩
  · rw [s3, hpush, List.length_append, f1, le16_append, List.append_assoc]
    rw [List.length_take]; omega
  · rw [s1, hmod]
  · rw [s1, s2, List.length_append, f2]
  · rw [s5]; exact hfd

/-- The drain loop keeps the reassembly invariant: it consumes some of the scripted chunks
`d`, leaves the others `r`, and the delivered bytes grow by the bytes of `d`.  When the ring
was only written by the pump, it stays so: the guard leaves room for every push. -/
theorem pump_loop_reassembled (C : Nat) (log0 : List Int) (rest : List (List Nat)) :
    ∀ (P : List Nat) (inst : Instance) (w : World),
      (∀ c ∈ rest, 1 ≤ c.length ∧ c.length ≤ 4096) →
      Reassembled log0 inst w P →
      ∃ d r, rest = d ++ r ∧
        (pump_loop C (rest.map ReadResult.data) inst w).2.reads
          = (if d = [] then w.reads else r.map ReadResult.data) ∧
        Reassembled log0 (pump_loop C (rest.map ReadResult.data) inst w).1
          (pump_loop C (rest.map ReadResult.data) inst w).2 (P ++ d.flatten) ∧
        (C ≤ 2 ^ 64 → RingLinear C inst P →
          RingLinear C (pump_loop C (rest.map ReadResult.data) inst w).1 (P ++ d.flatten)) := by
  induction rest with
  | nil =>
    intro P inst w _ hR
    exact ⟨[], [], rfl, by simp [pump_loop], by simpa [pump_loop] using hR,
      fun _ h => by simpa [pump_loop] using h⟩
  | cons c rest ih =>
    intro P inst w hsz hR
    have hc := hsz c (List.mem_cons_self _ _)
    have hrest : ∀ c ∈ rest, 1 ≤ c.length ∧ c.length ≤ 4096 :=
      fun x hx => hsz x (List.mem_cons_of_mem _ hx)
    simp only [List.map_cons, pump_loop]
    by_cases hg : ring_available C inst + 2048 ≥ C
    · simp only [hg, if_true]
      exact ⟨[], c :: rest, rfl, by simp, by simpa using hR, fun _ h => by simpa using h⟩
    · simp only [hg, if_false]
      have htake : c.take 4096 = c := List.take_of_length_le hc.2
      have hpos : c.length > 0 := by omega
      simp only [htake, hpos, if_true]
      have hR1 : Reassembled log0 inst { w with reads := rest.map ReadResult.data } P := hR
      have hB := Reassembled.block C log0 inst { w with reads := rest.map ReadResult.data } P c
        hR1 hc.2
      have hplen : (inst.pending_bytes.take inst.pending_len).length = inst.pending_len := by
        rw [hR.2.2.1, List.length_drop, hR.2.1]; omega
      have hlt : inst.pending_len + c.length < 2 ^ 64 := by rw [hR.2.1]; omega
      have hreads := (pump_block_spec C inst { w with reads := rest.map ReadResult.data } c
        hplen hlt).2.2.2.1
      have hlin : C ≤ 2 ^ 64 → RingLinear C inst P →
          RingLinear C (pump_block C inst { w with reads := rest.map ReadResult.data } c).1
            (P ++ c) := by
        intro hC ⟨l1, l2, l3⟩
        have hav : inst.write_abs + 2048 < C := by
          simp only [ring_available, l1] at hg
          split_ifs at hg <;> omega
        have hinv : RingInv C inst := ⟨by omega, by omega, l3⟩
        have hpl := hR.2.1
        obtain ⟨c1, c2, c3⟩ := pump_block_cursors C inst
          { w with reads := rest.map ReadResult.data } c hinv hlt (by omega)
        have hw : inst.write_abs + 2 * ((inst.pending_len + c.length) / 4)
            = 2 * ((P ++ c).length / 4) := by
          rw [List.length_append, l2, hpl]; omega
        rw [hw] at c1 c2 c3
        refine ⟨?_, c1, ?_⟩
        · rw [c2, l1]
          have : 2 * ((P ++ c).length / 4) - C = 0 := by
            rw [← hw, hpl]; omega
          rw [this]; rfl
        · rw [c3, c1]
      by_cases hshort : c.length < 4096
      · simp only [hshort, if_true]
        refine ⟨[c], rest, rfl, ?_, ?_, ?_⟩
        · simpa using hreads
        · simpa using hB
        · simpa using hlin
      · simp only [hshort, if_false]
        obtain ⟨d, r, hdr, hrd, hRe, hLi⟩ := ih (P ++ c) _ _ hrest hB
        refine ⟨c :: d, r, by rw [hdr]; rfl, ?_, ?_, ?_⟩
        · rw [hrd, hreads]
          by_cases hd : d = []
          · subst hd
            simp at hdr
            simp [hdr]
          · simp [hd]
        · simpa [List.append_assoc] using hRe
        · intro hC hl
          simpa [List.append_assoc] using hLi hC (hlin hC hl)

/-- Around its loop `pump_pipe` touches only `receiving_audio` and the clock. -/
theorem pump_pipe_eq (C : Nat) (inst : Instance) (w : World) (hfd : 0 ≤ inst.fifo_fd) :
    ∃ (ra : Bool) (clk : List Nat),
      pump_pipe C inst w
        = ({ (pump_loop C w.reads inst w).1 with receiving_audio := ra },
           { (pump_loop C w.reads inst w).2 with clock := clk }) := by
  have hnow : ∀ v : World, ∃ clk, (now_ms v).2 = { v with clock := clk } := by
    intro v
    unfold now_ms
    split
    · exact ⟨v.clock, rfl⟩
    · exact ⟨_, rfl⟩
  unfold pump_pipe
  have hfd2 : ¬ inst.fifo_fd < 0 := by omega
  simp only [hfd2, if_false]
  obtain ⟨clk, hclk⟩ := hnow (pump_loop C w.reads inst w).2
  split_ifs
  · exact ⟨false, clk, by rw [hclk]⟩
  · exact ⟨_, clk, by rw [hclk]⟩
  · exact ⟨_, _, rfl⟩

/-- One `pump_pipe` call keeps the reassembly invariant. -/
theorem pump_pipe_reassembled (C : Nat) (log0 : List Int) (rest : List (List Nat))
    (P : List Nat)
    (inst : Instance) (w : World)
    (hsz : ∀ c ∈ rest, 1 ≤ c.length ∧ c.length ≤ 4096)
    (hreads : w.reads = rest.map ReadResult.data)
    (hR : Reassembled log0 inst w P) :
    ∃ d r, rest = d ++ r ∧
      (pump_pipe C inst w).2.reads = r.map ReadResult.data ∧
      Reassembled log0 (pump_pipe C inst w).1 (pump_pipe C inst w).2 (P ++ d.flatten) ∧
      (C ≤ 2 ^ 64 → RingLinear C inst P →
        RingLinear C (pump_pipe C inst w).1 (P ++ d.flatten)) := by
  obtain ⟨ra, clk, he⟩ := pump_pipe_eq C inst w hR.2.2.2
  obtain ⟨d, r, hdr, hrd, hRe, hLi⟩ := pump_loop_reassembled C log0 rest P inst w hsz hR
  rw [he, hreads]
  refine ⟨d, r, hdr, ?_, hRe, hLi⟩
  show (pump_loop C (rest.map ReadResult.data) inst w).2.reads = _
  rw [hrd]
  by_cases hd : d = []
  · subst hd
    simp only [List.nil_append] at hdr
    simp [hreads, hdr]
  · simp [hd]

/-- Any number of `pump_pipe` calls keeps the reassembly invariant. -/
theorem pump_calls_reassembled (C : Nat) (log0 : List Int) (k : Nat) :
    ∀ (rest : List (List Nat)) (P : List Nat) (inst : Instance) (w : World),
      (∀ c ∈ rest, 1 ≤ c.length ∧ c.length ≤ 4096) →
      w.reads = rest.map ReadResult.data →
      Reassembled log0 inst w P →
      ∃ d r, rest = d ++ r ∧
        (pump_calls C k inst w).2.reads = r.map ReadResult.data ∧
        Reassembled log0 (pump_calls C k inst w).1 (pump_calls C k inst w).2 (P ++ d.flatten) ∧
        (C ≤ 2 ^ 64 → RingLinear C inst P →
          RingLinear C (pump_calls C k inst w).1 (P ++ d.flatten)) := by
  induction k with
  | zero =>
    intro rest P inst w _ hreads hR
    exact ⟨[], rest, rfl, by simpa [pump_calls] using hreads, by simpa [pump_calls] using hR,
      fun _ h => by simpa [pump_calls] using h⟩
  | succ k ih =>
    intro rest P inst w hsz hreads hR
    obtain ⟨d1, r1, hdr1, hrd1, hRe1, hLi1⟩ := pump_pipe_reassembled C log0 rest P inst w hsz hreads hR
    have hsz1 : ∀ c ∈ r1, 1 ≤ c.length ∧ c.length ≤ 4096 := by
      intro c hc
      exact hsz c (by rw [hdr1]; exact List.mem_append_right _ hc)
    obtain ⟨d2, r2, hdr2, hrd2, hRe2, hLi2⟩ := ih r1 (P ++ d1.flatten) _ _ hsz1 hrd1 hRe1
    refine ⟨d1 ++ d2, r2, by rw [hdr1, hdr2, List.append_assoc], ?_, ?_, ?_⟩
    · simpa [pump_calls] using hrd2
    · simpa [pump_calls, List.append_assoc] using hRe2
    · intro hC hl
      simpa [pump_calls, List.append_assoc] using hLi2 hC (hLi1 hC hl)

theorem flatten_singletons (bs : List Nat) : (bs.map (fun b => [b])).flatten = bs := by
  induction bs with
  | nil => rfl
  | cons b t ih => simp [ih]

/-! ## Pipe pump: claims -/

/-- C4: however a byte string `B` is delivered to `pump_pipe` as successful reads of 1 to
4096 bytes each, over any number of calls, starting with no pending bytes and an empty
trace, once every read has been delivered the samples handed to `ring_push` are the
little-endian decoding of the first `4 * (|B| / 4)` bytes of `B`, and the pending bytes are
the remaining `|B| mod 4` bytes of `B`: the outcome depends on `B` only, not on the split. -/
theorem reassembly_chunk_invariance (RING_SAMPLES : Nat) (inst : Instance) (w : World)
    (chunks : List (List Nat)) (k : Nat)
    (hfd : 0 ≤ inst.fifo_fd) (hpl : inst.pending_len = 0) (hlog : w.pushed = [])
    (hreads : w.reads = chunks.map ReadResult.data)
    (hsz : ∀ c ∈ chunks, 1 ≤ c.length ∧ c.length ≤ 4096)
    (hall : (pump_calls RING_SAMPLES k inst w).2.reads = []) :
    (pump_calls RING_SAMPLES k inst w).2.pushed
      = le16 (chunks.flatten.take (4 * (chunks.flatten.length / 4))) ∧
    (pump_calls RING_SAMPLES k inst w).1.pending_len = chunks.flatten.length % 4 ∧
    (pump_calls RING_SAMPLES k inst w).1.pending_bytes.take
        (pump_calls RING_SAMPLES k inst w).1.pending_len
      = chunks.flatten.drop (4 * (chunks.flatten.length / 4)) := by
  have h0 : Reassembled [] inst w [] := ⟨by simp [hlog, le16], by simp [hpl], by simp [hpl], hfd⟩
  obtain ⟨d, r, hdr, hrd, hRe, _⟩ :=
    pump_calls_reassembled RING_SAMPLES [] k chunks [] inst w hsz hreads h0
  rw [hall] at hrd
  have hr : r = [] := by
    cases r with
    | nil => rfl
    | cons a t => simp at hrd
  subst hr
  simp only [List.append_nil] at hdr
  subst hdr
  simp only [List.nil_append] at hRe
  exact ⟨by simpa using hRe.1, hRe.2.1, hRe.2.2.1⟩

/-- C4 at a concrete delivery: ten bytes arrive as chunks of 3, 2 and 5 bytes over three
calls; the four samples of the first eight bytes are pushed and bytes 9 and 10 stay
pending. -/
theorem reassembly_chunk_invariance_witness :
    (pump_calls 4096 3 (zeroed 4096)
      { World.idle with
        reads := [.data [1, 2, 3], .data [4, 5], .data [6, 7, 8, 9, 10]] }).2.reads = [] ∧
    (pump_calls 4096 3 (zeroed 4096)
      { World.idle with
        reads := [.data [1, 2, 3], .data [4, 5], .data [6, 7, 8, 9, 10]] }).2.pushed
      = [513, 1027, 1541, 2055] ∧
    (pump_calls 4096 3 (zeroed 4096)
      { World.idle with
        reads := [.data [1, 2, 3], .data [4, 5], .data [6, 7, 8, 9, 10]] }).1.pending_len
      = 2 :=
  ⟨by decide,
    (reassembly_chunk_invariance 4096 (zeroed 4096)
      { World.idle with reads := [.data [1, 2, 3], .data [4, 5], .data [6, 7, 8, 9, 10]] }
      [[1, 2, 3], [4, 5], [6, 7, 8, 9, 10]] 3 (by decide) (by decide) (by decide) (by decide)
      (by decide) (by decide)).1,
    (reassembly_chunk_invariance 4096 (zeroed 4096)
      { World.idle with reads := [.data [1, 2, 3], .data [4, 5], .data [6, 7, 8, 9, 10]] }
      [[1, 2, 3], [4, 5], [6, 7, 8, 9, 10]] 3 (by decide) (by decide) (by decide) (by decide)
      (by decide) (by decide)).2.1⟩

/-- C5 as stated fails: after four `pump_pipe` calls that each read one byte, every read
having been delivered, `write_abs` has advanced by two samples (one stereo frame), not by
`4 / 4 = 1`. -/
theorem one_byte_count_counterexample :
    (pump_calls 4096 4 (zeroed 4096)
      { World.idle with reads := [.data [1], .data [2], .data [3], .data [4]] }).2.reads = [] ∧
    (pump_calls 4096 4 (zeroed 4096)
      { World.idle with reads := [.data [1], .data [2], .data [3], .data [4]] }).1.pending_len
      = 4 % 4 ∧
    (pump_calls 4096 4 (zeroed 4096)
      { World.idle with reads := [.data [1], .data [2], .data [3], .data [4]] }).1.write_abs
      ≠ 4 / 4 := by
  decide

/-- C5, amended: from a cleared instance, after `N` calls of `pump_pipe` in each of which
the read returns exactly one byte, `2 * (N / 4)` samples (`N / 4` stereo frames of two
samples) have been pushed, `write_abs` has advanced to `2 * (N / 4)`, nothing was dropped,
and `pending_len = N mod 4`. -/
theorem one_byte_reassembly_count (RING_SAMPLES : Nat) (hC : RING_SAMPLES ≤ 2 ^ 64)
    (inst : Instance) (w : World) (bs : List Nat)
    (hclear : inst.write_pos = 0 ∧ inst.write_abs = 0 ∧ inst.play_abs = 0 ∧
      inst.pending_len = 0)
    (hfd : 0 ≤ inst.fifo_fd)
    (hreads : w.reads = bs.map (fun b => ReadResult.data [b]))
    (hall : (pump_calls RING_SAMPLES bs.length inst w).2.reads = []) :
    (pump_calls RING_SAMPLES bs.length inst w).1.write_abs = 2 * (bs.length / 4) ∧
    (pump_calls RING_SAMPLES bs.length inst w).1.play_abs = 0 ∧
    (pump_calls RING_SAMPLES bs.length inst w).2.pushed.length
      = w.pushed.length + 2 * (bs.length / 4) ∧
    (pump_calls RING_SAMPLES bs.length inst w).1.pending_len = bs.length % 4 := by
  obtain ⟨c1, c2, c3, c4⟩ := hclear
  have h0 : Reassembled w.pushed inst w [] :=
    ⟨by simp [le16], by simp [c4], by simp [c4], hfd⟩
  have hl0 : RingLinear RING_SAMPLES inst [] := ⟨c3, by simp [c2], by rw [c1, c2]; simp⟩
  have hsz : ∀ c ∈ bs.map (fun b => [b]), 1 ≤ c.length ∧ c.length ≤ 4096 := by
    intro c hc
    obtain ⟨b, _, rfl⟩ := List.mem_map.mp hc
    simp
  have hreads2 : w.reads = (bs.map (fun b => [b])).map ReadResult.data := by
    rw [hreads, List.map_map]; rfl
  obtain ⟨d, r, hdr, hrd, hRe, hLi⟩ :=
    pump_calls_reassembled RING_SAMPLES w.pushed bs.length (bs.map (fun b => [b])) [] inst w
      hsz hreads2 h0
  rw [hall] at hrd
  have hr : r = [] := by
    cases r with
    | nil => rfl
    | cons a t => simp at hrd
  subst hr
  simp only [List.append_nil] at hdr
  subst hdr
  have hfl := flatten_singletons bs
  simp only [List.nil_append, hfl] at hRe hLi
  obtain ⟨l1, l2, _⟩ := hLi hC hl0
  refine ⟨l2, l1, ?_, hRe.2.1⟩
  rw [hRe.1, List.length_append, le16_length, List.length_take]
  omega

/-- C5, amended, at `N = 6`: six one-byte reads push two samples and leave two bytes. -/
theorem one_byte_reassembly_count_witness :
    (pump_calls 4096 6 (zeroed 4096)
      { World.idle with
        reads := [.data [1], .data [2], .data [3], .data [4], .data [5], .data [6]] }).2.reads
      = [] ∧
    (pump_calls 4096 6 (zeroed 4096)
      { World.idle with
        reads := [.data [1], .data [2], .data [3], .data [4], .data [5], .data [6]] }).1.write_abs
      = 2 :=
  ⟨by decide,
    (one_byte_reassembly_count 4096 (by decide) (zeroed 4096)
      { World.idle with
        reads := [.data [1], .data [2], .data [3], .data [4], .data [5], .data [6]] }
      [1, 2, 3, 4, 5, 6] (by decide) (by decide) (by decide) (by decide)).1⟩

/-! ## Daemon supervision: lemmas -/

/-- Function `stop_daemon` writes `daemon_pid` and `daemon_running` and nothing else. -/
theorem stop_daemon_eq (inst : Instance) (w : World) :
    (stop_daemon inst w).1
      = { inst with
          daemon_pid := if inst.daemon_pid > 0 then -1 else inst.daemon_pid
          daemon_running := false } := by
  unfold stop_daemon
  by_cases h : inst.daemon_pid > 0
  · simp only [h, if_true]
  · simp only [h, if_false]

theorem take_config_msg :
    snprintf_s 256 "failed to write shairport-sync config"
      = "failed to write shairport-sync config" := by decide

theorem take_fork_msg :
    snprintf_s 256 "fork failed for shairport-sync" = "fork failed for shairport-sync" := by
  decide

theorem fifo_path_ne_empty (s : String) : snprintf_s 512 ("/tmp/airplay-audio-" ++ s) ≠ "" := by
  intro h
  have := congrArg String.data h
  simp [snprintf_s, String.data_append] at this

/-- Function `write_config` leaves the instance alone on success and records the error on
failure. -/
theorem write_config_eq (inst : Instance) (w : World) :
    ((write_config inst w).1 = 0 ∧ (write_config inst w).2.1 = inst) ∨
    ((write_config inst w).1 = -1 ∧
      (write_config inst w).2.1
        = { inst with error_msg := "failed to write shairport-sync config" }) := by
  unfold write_config
  split
  · exact Or.inl ⟨rfl, rfl⟩
  · refine Or.inr ⟨rfl, ?_⟩
    simp only [set_error, take_config_msg]

/-- Library `fork` returns a positive pid or `-1`. -/
theorem sys_fork_pid (w : World) (child : Bool → ChildImage) :
    0 < (sys_fork w child).1 ∨ (sys_fork w child).1 = -1 := by
  unfold sys_fork
  split
  · exact Or.inr rfl
  · split_ifs with h
    · exact Or.inl h
    · exact Or.inr rfl

/-- The two outcomes of `start_daemon`: a running child is tracked, or the call fails with
an error recorded on the state `stop_daemon` left. -/
theorem start_daemon_eq (inst : Instance) (w : World) :
    (∃ pid : Int, 0 < pid ∧ (start_daemon inst w).1 = 0 ∧
      (start_daemon inst w).2.1
        = { (stop_daemon inst w).1 with
            daemon_pid := pid, daemon_running := true, error_msg := "" }) ∨
    ((start_daemon inst w).1 = -1 ∧
      ((start_daemon inst w).2.1
          = { (stop_daemon inst w).1 with
              error_msg := "failed to write shairport-sync config" } ∨
        (start_daemon inst w).2.1
          = { (stop_daemon inst w).1 with error_msg := "fork failed for shairport-sync" })) := by
  unfold start_daemon
  generalize stop_daemon inst w = s
  have hw := write_config_eq s.1 s.2
  dsimp only
  generalize write_config s.1 s.2 = c at hw ⊢
  obtain ⟨rc, ci, cw⟩ := c
  simp only at hw ⊢
  rcases hw with ⟨h0, h1⟩ | ⟨h0, h1⟩
  · subst h0 h1
    simp only [ne_eq, not_true_eq_false, if_false]
    have hf := sys_fork_pid cw
      (daemon_child s.1 (snprintf_s 1024 (s.1.module_dir ++ "/bin/shairport-sync")))
    generalize sys_fork cw
      (daemon_child s.1 (snprintf_s 1024 (s.1.module_dir ++ "/bin/shairport-sync"))) = f at hf
    obtain ⟨pid, fw⟩ := f
    simp only at hf ⊢
    rcases hf with hp | hp
    · have hlt : ¬ pid < 0 := by omega
      rw [if_neg hlt]
      exact Or.inl ⟨pid, hp, rfl, rfl⟩
    · subst hp
      rw [if_pos (by decide)]
      simp only [set_error, take_fork_msg]
      exact Or.inr ⟨trivial, Or.inr trivial⟩
  · subst h0 h1
    rw [if_pos (by decide)]
    exact Or.inr ⟨rfl, Or.inl rfl⟩

/-- On an instance that tracks no pid and is not running, `stop_daemon` does nothing. -/
theorem stop_daemon_of_stopped (inst : Instance) (w : World)
    (h1 : ¬ inst.daemon_pid > 0) (h2 : inst.daemon_running = false) :
    stop_daemon inst w = (inst, w) := by
  unfold stop_daemon
  simp only [h1, if_false]
  cases inst
  simp only at h2
  simp only [h2]

theorem sys_unlink_files (w : World) (path : String) : path ∉ (sys_unlink w path).files := by
  simp [sys_unlink]

/-- Function `create_fifo` sets the slot's FIFO path, and on failure leaves no file at it;
it consumes none of the scripts `start_daemon` reads. -/
theorem create_fifo_spec (inst : Instance) (w : World) :
    (∃ (fd : Int) (e : String), (create_fifo inst w).2.1
      = { inst with
          fifo_path := snprintf_s 512 ("/tmp/airplay-audio-" ++ toString inst.slot)
          fifo_fd := fd, error_msg := e }) ∧
    ((create_fifo inst w).1 ≠ 0 →
      snprintf_s 512 ("/tmp/airplay-audio-" ++ toString inst.slot)
        ∉ (create_fifo inst w).2.2.files) ∧
    (create_fifo inst w).2.2.fopens = w.fopens ∧
    (create_fifo inst w).2.2.forks = w.forks := by
  unfold create_fifo
  dsimp only
  split
  · split_ifs with hfd
    · refine ⟨⟨_, _, rfl⟩, fun _ => ?_, rfl, rfl⟩
      simp [sys_unlink, set_error, ap_log]
    · refine ⟨⟨_, _, rfl⟩, fun h => absurd rfl h, rfl, rfl⟩
  · refine ⟨⟨_, _, rfl⟩, fun _ => ?_, rfl, rfl⟩
    simp [sys_unlink, set_error, ap_log]

theorem write_config_script (inst : Instance) (w : World) :
    ((write_config inst w).1 = 0 → w.fopens.head? = some true) ∧
    (write_config inst w).2.2.forks = w.forks := by
  unfold write_config
  cases hfo : w.fopens with
  | nil => simp [set_error, ap_log]
  | cons b rest =>
    cases b
    · simp [set_error, ap_log]
    · simp

theorem sys_fork_fail (w : World) (child : Bool → ChildImage)
    (h : w.forks.headD (-1) ≤ 0) : (sys_fork w child).1 = -1 := by
  unfold sys_fork
  cases hfk : w.forks with
  | nil => rfl
  | cons p rest =>
    rw [hfk] at h
    simp only [List.headD_cons] at h
    simp only
    rw [if_neg (by omega)]

/-- When the config file cannot be opened or `fork` fails, `start_daemon` fails. -/
theorem start_daemon_fails (inst : Instance) (w : World) (hpid : ¬ inst.daemon_pid > 0)
    (hfail : w.fopens.head? ≠ some true ∨ w.forks.headD (-1) ≤ 0) :
    (start_daemon inst w).1 ≠ 0 := by
  have hs : stop_daemon inst w = ({ inst with daemon_running := false }, w) := by
    unfold stop_daemon
    simp only [hpid, if_false]
  unfold start_daemon
  rw [hs]
  dsimp only
  generalize hi : ({ inst with daemon_running := false } : Instance) = i
  obtain ⟨hok, hforks⟩ := write_config_script i w
  by_cases hc : (write_config i w).1 ≠ 0
  · rw [if_pos hc]
    show (-1 : Int) ≠ 0
    decide
  · rw [if_neg hc]
    have hfk : w.forks.headD (-1) ≤ 0 := by
      rcases hfail with h | h
      · exact absurd (hok (by omega)) h
      · exact h
    rw [sys_fork_fail _ _ (by rw [hforks]; exact hfk), if_pos (by decide)]
    show (-1 : Int) ≠ 0
    decide

/-- After a failed `start_daemon` the FIFO path and descriptor are what they were. -/
theorem start_daemon_fifo_path (inst : Instance) (w : World) :
    (start_daemon inst w).2.1.fifo_path = inst.fifo_path := by
  rcases start_daemon_eq inst w with ⟨pid, _, _, h⟩ | ⟨_, h | h⟩ <;>
    rw [h, stop_daemon_eq]

theorem close_fifo_files (inst : Instance) (w : World) (h : inst.fifo_path ≠ "") :
    inst.fifo_path ∉ (close_fifo inst w).2.files := by
  unfold close_fifo
  by_cases h1 : inst.fifo_fd ≥ 0
  · simp only [h1, if_true]
    rw [if_pos h]
    exact sys_unlink_files _ _
  · simp only [h1, if_false]
    rw [if_pos h]
    exact sys_unlink_files _ _

/-- The instance `v2_create_instance` has set up before it calls `create_fifo`. -/
theorem v2_create_instance_eq (C : Nat) (g : Int) (w : World) (md : Option String)
    (rest : List Bool) (h : w.callocs = true :: rest) :
    ∃ inst0 : Instance,
      inst0 = { zeroed C with
        slot := g + 1
        module_dir := snprintf_s 512 (md.getD ".")
        device_name := snprintf_s 128 ("Move - Slot " ++ toString (g + 1))
        config_path := snprintf_s 512 ("/tmp/airplay-config-" ++ toString (g + 1) ++ ".conf")
        gain := F32.val 1 0, fifo_fd := -1, daemon_pid := -1 } ∧
      v2_create_instance C g w md
        = (if (create_fifo inst0 { w with callocs := rest }).1 ≠ 0 then
            { inst := none, counter := g + 1,
              world := (create_fifo inst0 { w with callocs := rest }).2.2 }
          else if (start_daemon (create_fifo inst0 { w with callocs := rest }).2.1
              (create_fifo inst0 { w with callocs := rest }).2.2).1 ≠ 0 then
            { inst := none, counter := g + 1,
              world := (close_fifo
                (start_daemon (create_fifo inst0 { w with callocs := rest }).2.1
                  (create_fifo inst0 { w with callocs := rest }).2.2).2.1
                (start_daemon (create_fifo inst0 { w with callocs := rest }).2.1
                  (create_fifo inst0 { w with callocs := rest }).2.2).2.2).2 }
          else
            { inst := some (start_daemon (create_fifo inst0 { w with callocs := rest }).2.1
                (create_fifo inst0 { w with callocs := rest }).2.2).2.1
              counter := g + 1
              world := ap_log (start_daemon (create_fifo inst0 { w with callocs := rest }).2.1
                (create_fifo inst0 { w with callocs := rest }).2.2).2.2
                "airplay plugin instance created" }) := by
  refine ⟨_, rfl, ?_⟩
  unfold v2_create_instance
  rw [h]

/-- A successful `v2_create_instance` returns an instance with an empty ring, unit gain,
no audio seen yet, and a running receiver with a positive pid. -/
theorem created_fresh (C : Nat) (g : Int) (w : World) (md : Option String) (inst : Instance)
    (hc : (v2_create_instance C g w md).inst = some inst) :
    inst.write_pos = 0 ∧ inst.write_abs = 0 ∧ inst.play_abs = 0 ∧
    inst.daemon_running = true ∧ 0 < inst.daemon_pid ∧
    inst.receiving_audio = false ∧ inst.gain = F32.val 1 0 := by
  obtain ⟨rest, hrest⟩ : ∃ rest, w.callocs = true :: rest := by
    cases hcal : w.callocs with
    | nil =>
      unfold v2_create_instance at hc
      rw [hcal] at hc
      simp at hc
    | cons b t =>
      cases b
      · unfold v2_create_instance at hc
        rw [hcal] at hc
        simp at hc
      · exact ⟨t, rfl⟩
  obtain ⟨inst0, hinst0, hcreate⟩ := v2_create_instance_eq C g w md rest hrest
  obtain ⟨⟨fd, e, hfi⟩, _, _, _⟩ := create_fifo_spec inst0 { w with callocs := rest }
  rw [hcreate] at hc
  by_cases hf : (create_fifo inst0 { w with callocs := rest }).1 ≠ 0
  · rw [if_pos hf] at hc
    simp at hc
  · rw [if_neg hf] at hc
    by_cases hd : (start_daemon (create_fifo inst0 { w with callocs := rest }).2.1
        (create_fifo inst0 { w with callocs := rest }).2.2).1 ≠ 0
    · rw [if_pos hd] at hc
      simp at hc
    · rw [if_neg hd] at hc
      simp only [Option.some.injEq] at hc
      rcases start_daemon_eq (create_fifo inst0 { w with callocs := rest }).2.1
        (create_fifo inst0 { w with callocs := rest }).2.2 with ⟨pid, hpid, _, h⟩ | ⟨h1, _⟩
      · rw [h, stop_daemon_eq, hfi, hinst0] at hc
        rw [← hc]
        exact ⟨rfl, rfl, rfl, rfl, hpid, rfl, rfl⟩
      · rw [h1] at hd
        exact absurd (by decide) hd

/-- The health check changes the instance in the supervisor fields and the error only,
and consumes no read. -/
theorem check_daemon_alive_eq (inst : Instance) (w : World) :
    (check_daemon_alive inst w).2.reads = w.reads ∧
    ∃ (pid : Int) (e : String),
      (check_daemon_alive inst w).1
        = { inst with
            daemon_pid := pid
            daemon_running :=
              if 0 < inst.daemon_pid ∧ (sys_waitpid w).1 = inst.daemon_pid then false
              else inst.daemon_running
            error_msg := e } := by
  have hwr : (sys_waitpid w).2.reads = w.reads := by
    unfold sys_waitpid; split <;> rfl
  unfold check_daemon_alive
  by_cases h0 : inst.daemon_pid ≤ 0
  · rw [if_pos h0]
    have : ¬ (0 < inst.daemon_pid ∧ (sys_waitpid w).1 = inst.daemon_pid) := by omega
    rw [if_neg this]
    exact ⟨rfl, inst.daemon_pid, inst.error_msg, rfl⟩
  · rw [if_neg h0]
    dsimp only
    by_cases h1 : (sys_waitpid w).1 = inst.daemon_pid
    · rw [if_pos h1, if_pos ⟨by omega, h1⟩]
      exact ⟨by simp [set_error, ap_log, hwr], _, _, rfl⟩
    · rw [if_neg h1, if_neg (fun h => h1 h.2)]
      exact ⟨hwr, inst.daemon_pid, inst.error_msg, rfl⟩

/-- With no data on the pipe the drain loop leaves the instance as it is. -/
theorem pump_loop_nodata (C : Nat) (reads : List ReadResult) (inst : Instance) (w : World)
    (hnodata : ∀ r ∈ reads, ∀ bs, r = ReadResult.data bs → bs = []) :
    (pump_loop C reads inst w).1 = inst := by
  cases reads with
  | nil => rfl
  | cons r rest =>
    unfold pump_loop
    split_ifs with hg
    · rfl
    · cases r with
      | data bytes =>
        have := hnodata (ReadResult.data bytes) (List.mem_cons_self _ _) bytes rfl
        subst this
        rfl
      | error e => rfl

/-- With no data on the pipe `pump_pipe` can only lower `receiving_audio`. -/
theorem pump_pipe_nodata (C : Nat) (inst : Instance) (w : World)
    (hnodata : ∀ r ∈ w.reads, ∀ bs, r = ReadResult.data bs → bs = []) :
    ∃ ra : Bool, (pump_pipe C inst w).1 = { inst with receiving_audio := ra } := by
  by_cases hfd : 0 ≤ inst.fifo_fd
  · obtain ⟨ra, clk, he⟩ := pump_pipe_eq C inst w hfd
    rw [he, pump_loop_nodata C w.reads inst w hnodata]
    exact ⟨ra, rfl⟩
  · unfold pump_pipe
    rw [if_pos (by omega)]
    exact ⟨inst.receiving_audio, rfl⟩

/-! ## Daemon supervision: claims -/

/-- C10: whatever `waitpid` returns, after `stop_daemon` the running flag is false and no
pid is tracked (`daemon_pid` is `-1` when a positive pid was tracked, unchanged and not
positive otherwise); no other field of the instance changes; a second call changes nothing
and makes no system call. -/
theorem stop_daemon_stopped (inst : Instance) (w w2 : World) :
    (stop_daemon inst w).1.daemon_running = false ∧
    (stop_daemon inst w).1.daemon_pid = (if inst.daemon_pid > 0 then -1 else inst.daemon_pid) ∧
    (stop_daemon inst w).1.daemon_pid ≤ 0 ∧
    (stop_daemon inst w).1
      = { inst with
          daemon_pid := (stop_daemon inst w).1.daemon_pid
          daemon_running := false } ∧
    stop_daemon (stop_daemon inst w).1 w2 = ((stop_daemon inst w).1, w2) := by
  have h := stop_daemon_eq inst w
  have hpid : (stop_daemon inst w).1.daemon_pid
      = (if inst.daemon_pid > 0 then -1 else inst.daemon_pid) := by rw [h]
  have hle : (stop_daemon inst w).1.daemon_pid ≤ 0 := by
    rw [hpid]; split_ifs <;> omega
  refine ⟨by rw [h], hpid, hle, ?_, ?_⟩
  · rw [hpid]; exact h
  · exact stop_daemon_of_stopped _ w2 (by omega) (by rw [h])

/-- C8 as stated fails for a failed `execl`: the parent has already got a pid from `fork`,
so creation returns an instance and the FIFO stays; the child has exited with code 127. -/
theorem create_exec_failure_counterexample :
    (v2_create_instance 4096 0
      { World.idle with
        callocs := [true], mkfifos := [true], opens := [3], fopens := [true],
        forks := [1234], execs := [false] } none).inst.isSome = true ∧
    "/tmp/airplay-audio-1" ∈ (v2_create_instance 4096 0
      { World.idle with
        callocs := [true], mkfifos := [true], opens := [3], fopens := [true],
        forks := [1234], execs := [false] } none).world.files ∧
    (v2_create_instance 4096 0
      { World.idle with
        callocs := [true], mkfifos := [true], opens := [3], fopens := [true],
        forks := [1234], execs := [false] } none).world.children
      = [(1234, ChildImage.exited 127)] := by
  decide

/-- C8, amended: in every run of `v2_create_instance` in which the config file cannot be
written or `fork` fails, the call returns `NULL` and no file is left at the FIFO path of the
slot. -/
theorem create_fails_cleanly (RING_SAMPLES : Nat) (g : Int) (w : World)
    (module_dir : Option String)
    (hcalloc : w.callocs.head? = some true)
    (hfail : w.fopens.head? ≠ some true ∨ w.forks.headD (-1) ≤ 0) :
    (v2_create_instance RING_SAMPLES g w module_dir).inst = none ∧
    snprintf_s 512 ("/tmp/airplay-audio-" ++ toString (g + 1))
      ∉ (v2_create_instance RING_SAMPLES g w module_dir).world.files := by
  obtain ⟨rest, hrest⟩ : ∃ rest, w.callocs = true :: rest := by
    cases hc : w.callocs with
    | nil => rw [hc] at hcalloc; simp at hcalloc
    | cons b t =>
      rw [hc] at hcalloc
      simp only [List.head?_cons, Option.some.injEq] at hcalloc
      exact ⟨t, by rw [hcalloc]⟩
  obtain ⟨inst0, hinst0, hcreate⟩ := v2_create_instance_eq RING_SAMPLES g w module_dir rest hrest
  have hslot : inst0.slot = g + 1 := by rw [hinst0]
  have hpid0 : inst0.daemon_pid = -1 := by rw [hinst0]
  obtain ⟨⟨fd, e, hfi⟩, hffail, hfo, hfk⟩ := create_fifo_spec inst0 { w with callocs := rest }
  rw [hslot] at hfi hffail
  rw [hcreate]
  by_cases hf : (create_fifo inst0 { w with callocs := rest }).1 ≠ 0
  · rw [if_pos hf]
    exact ⟨rfl, hffail hf⟩
  · rw [if_neg hf]
    have hpid : ¬ (create_fifo inst0 { w with callocs := rest }).2.1.daemon_pid > 0 := by
      rw [hfi]
      show ¬ inst0.daemon_pid > 0
      omega
    have hd := start_daemon_fails _ (create_fifo inst0 { w with callocs := rest }).2.2 hpid
      (by rw [hfo, hfk]; exact hfail)
    rw [if_pos hd]
    refine ⟨rfl, ?_⟩
    have hp := start_daemon_fifo_path (create_fifo inst0 { w with callocs := rest }).2.1
      (create_fifo inst0 { w with callocs := rest }).2.2
    have hp2 : (create_fifo inst0 { w with callocs := rest }).2.1.fifo_path
        = snprintf_s 512 ("/tmp/airplay-audio-" ++ toString (g + 1)) := by rw [hfi]
    rw [hp2] at hp
    have := close_fifo_files _
      (start_daemon (create_fifo inst0 { w with callocs := rest }).2.1
        (create_fifo inst0 { w with callocs := rest }).2.2).2.2
      (by rw [hp]; exact fifo_path_ne_empty _)
    rw [hp] at this
    exact this

/-- C8, amended, at a run in which `fopen` of the config file fails. -/
theorem create_fails_cleanly_witness :
    (v2_create_instance 4096 0
      { World.idle with
        callocs := [true], mkfifos := [true], opens := [3], fopens := [false],
        files := ["/tmp/airplay-audio-1"] } none).inst = none ∧
    "/tmp/airplay-audio-1" ∉ (v2_create_instance 4096 0
      { World.idle with
        callocs := [true], mkfifos := [true], opens := [3], fopens := [false],
        files := ["/tmp/airplay-audio-1"] } none).world.files :=
  create_fails_cleanly 4096 0
    { World.idle with
      callocs := [true], mkfifos := [true], opens := [3], fopens := [false],
      files := ["/tmp/airplay-audio-1"] } none (by decide) (by decide)

/-- The signals `stop_daemon` sends: none unless a positive pid is tracked and the first
`waitpid` poll returns 0; then `SIGTERM`, and `SIGKILL` as well when the second poll
returns 0 too.  It forks nothing. -/
theorem stop_daemon_world (inst : Instance) (w : World) :
    (stop_daemon inst w).2.signals
      = w.signals ++
        (if 0 < inst.daemon_pid ∧ w.waitpids.head? = some 0 then
          (inst.daemon_pid, SIGTERM) ::
            (if w.waitpids.tail.head? = some 0 then [(inst.daemon_pid, SIGKILL)] else [])
         else []) ∧
    (stop_daemon inst w).2.children = w.children := by
  unfold stop_daemon
  by_cases hp : inst.daemon_pid > 0
  · have hp2 : 0 < inst.daemon_pid := hp
    simp only [hp, hp2, if_true, true_and]
    rcases hw : w.waitpids with _ | ⟨a, rest⟩
    · simp [sys_waitpid, hw]
    · by_cases ha : a = 0
      · subst ha
        rcases rest with _ | ⟨b, rest2⟩
        · simp [sys_waitpid, hw, sys_kill]
        · by_cases hb : b = 0
          · subst hb
            rcases rest2 with _ | ⟨c, rest3⟩ <;> simp [sys_waitpid, hw, sys_kill]
          · simp [sys_waitpid, hw, sys_kill, hb]
      · simp [sys_waitpid, hw, ha]
  · have hp2 : ¬ 0 < inst.daemon_pid := hp
    simp only [hp, hp2, if_false, false_and, List.append_nil, and_self]

/-- Function `write_config` sends no signal and forks nothing. -/
theorem write_config_world (inst : Instance) (w : World) :
    (write_config inst w).2.2.signals = w.signals ∧
    (write_config inst w).2.2.children = w.children := by
  unfold write_config
  split <;> exact ⟨rfl, rfl⟩

/-- Library `fork` sends no signal, and a failed `fork` leaves no child. -/
theorem sys_fork_world (w : World) (child : Bool → ChildImage) :
    (sys_fork w child).2.signals = w.signals ∧
    ((sys_fork w child).1 < 0 → (sys_fork w child).2.children = w.children) := by
  unfold sys_fork
  split
  · exact ⟨rfl, fun _ => rfl⟩
  · split_ifs with hp
    · exact ⟨rfl, fun h => absurd h (by dsimp only; omega)⟩
    · exact ⟨rfl, fun _ => rfl⟩

/-- A failed `start_daemon` has sent the signals of its `stop_daemon` call and no other,
and has left no child. -/
theorem start_daemon_fail_world (inst : Instance) (w : World)
    (hfail : (start_daemon inst w).1 ≠ 0) :
    (start_daemon inst w).2.2.signals = (stop_daemon inst w).2.signals ∧
    (start_daemon inst w).2.2.children = (stop_daemon inst w).2.children := by
  unfold start_daemon at hfail ⊢
  generalize stop_daemon inst w = s at hfail ⊢
  dsimp only at hfail ⊢
  obtain ⟨c1, c2⟩ := write_config_world s.1 s.2
  by_cases hc : (write_config s.1 s.2).1 ≠ 0
  · rw [if_pos hc]
    exact ⟨c1, c2⟩
  · rw [if_neg hc] at hfail ⊢
    obtain ⟨f1, f2⟩ := sys_fork_world (write_config s.1 s.2).2.2
      (daemon_child (write_config s.1 s.2).2.1
        (snprintf_s 1024 ((write_config s.1 s.2).2.1.module_dir ++ "/bin/shairport-sync")))
    by_cases hp : (sys_fork (write_config s.1 s.2).2.2
      (daemon_child (write_config s.1 s.2).2.1
        (snprintf_s 1024
          ((write_config s.1 s.2).2.1.module_dir ++ "/bin/shairport-sync")))).1 < 0
    · rw [if_pos hp]
      exact ⟨f1.trans c1, (f2 hp).trans c2⟩
    · rw [if_neg hp] at hfail
      exact absurd rfl hfail

/-- C9 as stated fails: on an instance that tracks the running receiver 42, a `start_daemon`
that fails at the config file returns `-1` with an error recorded, but it has first sent
`SIGTERM` to the receiver and cleared `daemon_pid` and `daemon_running`. -/
theorem start_failure_counterexample :
    (start_daemon { zeroed 8 with daemon_pid := 42, daemon_running := true }
      { World.idle with waitpids := [0, 42], fopens := [false] }).1 = -1 ∧
    (start_daemon { zeroed 8 with daemon_pid := 42, daemon_running := true }
      { World.idle with waitpids := [0, 42], fopens := [false] }).2.1.daemon_pid ≠ 42 ∧
    (start_daemon { zeroed 8 with daemon_pid := 42, daemon_running := true }
      { World.idle with waitpids := [0, 42], fopens := [false] }).2.1.daemon_running ≠ true ∧
    (start_daemon { zeroed 8 with daemon_pid := 42, daemon_running := true }
      { World.idle with waitpids := [0, 42], fopens := [false] }).2.2.signals
      = [(42, SIGTERM)] := by
  decide

/-- C9, amended: if `start_daemon` fails then it returns `-1`, `error_msg` holds one of the
two non-empty failure messages, and the supervisor state is the stopped state that
`stop_daemon` produced first: `daemon_running` is false and `daemon_pid` is `-1` when a
positive pid was tracked (unchanged otherwise); no other field changes.  The signals sent
are exactly those of that `stop_daemon` call: none when no positive pid was tracked or the
first `waitpid` poll did not return 0; otherwise `SIGTERM` to the tracked pid, followed by
`SIGKILL` when the second poll returned 0 as well.  No child process is left. -/
theorem start_failure_stopped (inst : Instance) (w : World)
    (hfail : (start_daemon inst w).1 ≠ 0) :
    (start_daemon inst w).1 = -1 ∧
    (start_daemon inst w).2.1.error_msg ≠ "" ∧
    ((start_daemon inst w).2.1.error_msg = "failed to write shairport-sync config" ∨
      (start_daemon inst w).2.1.error_msg = "fork failed for shairport-sync") ∧
    (start_daemon inst w).2.1
      = { inst with
          daemon_pid := if inst.daemon_pid > 0 then -1 else inst.daemon_pid
          daemon_running := false
          error_msg := (start_daemon inst w).2.1.error_msg } ∧
    (start_daemon inst w).2.1.daemon_pid = (stop_daemon inst w).1.daemon_pid ∧
    (start_daemon inst w).2.1.daemon_running = (stop_daemon inst w).1.daemon_running ∧
    (start_daemon inst w).2.2.signals = (stop_daemon inst w).2.signals ∧
    (start_daemon inst w).2.2.signals
      = w.signals ++
        (if 0 < inst.daemon_pid ∧ w.waitpids.head? = some 0 then
          (inst.daemon_pid, SIGTERM) ::
            (if w.waitpids.tail.head? = some 0 then [(inst.daemon_pid, SIGKILL)] else [])
         else []) ∧
    (start_daemon inst w).2.2.children = w.children := by
  obtain ⟨w1, w2⟩ := start_daemon_fail_world inst w hfail
  obtain ⟨s1, s2⟩ := stop_daemon_world inst w
  rcases start_daemon_eq inst w with ⟨pid, _, h0, _⟩ | ⟨h1, h | h⟩
  · exact absurd h0 hfail
  · have he : (start_daemon inst w).2.1.error_msg = "failed to write shairport-sync config" := by
      rw [h]
    refine ⟨h1, by rw [he]; decide, Or.inl he, ?_, by rw [h], by rw [h], w1, w1.trans s1,
      w2.trans s2⟩
    rw [he, h, stop_daemon_eq]
  · have he : (start_daemon inst w).2.1.error_msg = "fork failed for shairport-sync" := by
      rw [h]
    refine ⟨h1, by rw [he]; decide, Or.inr he, ?_, by rw [h], by rw [h], w1, w1.trans s1,
      w2.trans s2⟩
    rw [he, h, stop_daemon_eq]

/-- C9, amended, at the run of the counterexample: the receiver 42 is no longer tracked;
and at a run where the first poll finds that 42 has already exited: no signal is sent. -/
theorem start_failure_stopped_witness :
    (start_daemon { zeroed 8 with daemon_pid := 42, daemon_running := true }
      { World.idle with waitpids := [0, 42], fopens := [false] }).1 ≠ 0 ∧
    (start_daemon { zeroed 8 with daemon_pid := 42, daemon_running := true }
      { World.idle with waitpids := [0, 42], fopens := [false] }).2.1.error_msg ≠ "" ∧
    (start_daemon { zeroed 8 with daemon_pid := 42, daemon_running := true }
      { World.idle with waitpids := [42], fopens := [false] }).1 ≠ 0 ∧
    (start_daemon { zeroed 8 with daemon_pid := 42, daemon_running := true }
      { World.idle with waitpids := [42], fopens := [false] }).2.2.signals = [] :=
  ⟨by decide,
    (start_failure_stopped { zeroed 8 with daemon_pid := 42, daemon_running := true }
      { World.idle with waitpids := [0, 42], fopens := [false] } (by decide)).2.1,
    by decide,
    (start_failure_stopped { zeroed 8 with daemon_pid := 42, daemon_running := true }
      { World.idle with waitpids := [42], fopens := [false] } (by decide)).2.2.2.2.2.2.2.1⟩

/-- C7 as stated fails: on a freshly created instance whose receiver is still running and
whose pipe delivers nothing, a render of 100 frames leaves the keep-alive sample 5, not
zero, in the last of the 200 output samples (index 199). -/
theorem render_silence_counterexample :
    (v2_render_block 4096
      (v2_create_instance 4096 0
        { World.idle with
          callocs := [true], mkfifos := [true], opens := [3], fopens := [true],
          forks := [1234], execs := [true] } none).inst
      (List.replicate 200 7) 100 { World.idle with waitpids := [0] }).2.1.getD 199 0
      = 5 := by
  decide

/-- C7, amended: for a freshly and successfully created instance whose pipe delivers no
bytes, `v2_render_block` with `frames > 0` leaves the first `2 * frames - 1` output samples
zero; the last one is the keep-alive sample 5, unless the health check of this very call
finds that the receiver has exited, in which case it is zero too.  The buffer beyond
`2 * frames` samples is not written. -/
theorem render_underrun (RING_SAMPLES : Nat) (g : Int) (w0 : World)
    (module_dir : Option String) (inst : Instance)
    (hcreate : (v2_create_instance RING_SAMPLES g w0 module_dir).inst = some inst)
    (w : World) (hnodata : ∀ r ∈ w.reads, ∀ bs, r = ReadResult.data bs → bs = [])
    (frames : Int) (hf : 0 < frames) (out : List Int)
    (_hout : frames.toNat * 2 ≤ out.length) :
    (v2_render_block RING_SAMPLES (some inst) out frames w).2.1
      = List.replicate (frames.toNat * 2 - 1) 0
        ++ [if (sys_waitpid w).1 = inst.daemon_pid then 0 else 5]
        ++ out.drop (frames.toNat * 2) := by
  obtain ⟨f1, f2, f3, f4, f5, f6, f7⟩ :=
    created_fresh RING_SAMPLES g w0 module_dir inst hcreate
  obtain ⟨hreads, pid, e, ha⟩ := check_daemon_alive_eq inst w
  obtain ⟨ra, hp⟩ := pump_pipe_nodata RING_SAMPLES (check_daemon_alive inst w).1
    (check_daemon_alive inst w).2 (by rw [hreads]; exact hnodata)
  have hfn : 1 ≤ frames.toNat := by omega
  generalize hN : frames.toNat * 2 = needed
  have hmlen : needed ≤ (memset_zero out needed).length := by
    simp [memset_zero]
  have hinv : RingInv RING_SAMPLES (pump_pipe RING_SAMPLES (check_daemon_alive inst w).1
      (check_daemon_alive inst w).2).1 := by
    rw [hp, ha]
    exact ⟨by show inst.play_abs ≤ inst.write_abs; omega,
      by show inst.write_abs - inst.play_abs ≤ RING_SAMPLES; omega,
      by show inst.write_pos = inst.write_abs % RING_SAMPLES; rw [f1, f2, Nat.zero_mod]⟩
  have hw0 : (pump_pipe RING_SAMPLES (check_daemon_alive inst w).1
      (check_daemon_alive inst w).2).1.write_abs = 0 := by rw [hp, ha]; exact f2
  have hp0 : (pump_pipe RING_SAMPLES (check_daemon_alive inst w).1
      (check_daemon_alive inst w).2).1.play_abs = 0 := by rw [hp, ha]; exact f3
  obtain ⟨s1, s2, s3⟩ := ring_pop_spec RING_SAMPLES _ (memset_zero out needed) needed hinv
    (by rw [hw0]; decide)
  have s3 := s3 hmlen
  rw [hw0, hp0] at s1 s2 s3
  simp only [Nat.sub_self, Nat.zero_min, List.range_zero, List.map_nil, List.nil_append,
    List.drop_zero, Nat.add_zero] at s1 s2 s3
  have hrun : (ring_pop RING_SAMPLES (pump_pipe RING_SAMPLES (check_daemon_alive inst w).1
      (check_daemon_alive inst w).2).1 (memset_zero out needed) needed).1.daemon_running
      = (if (sys_waitpid w).1 = inst.daemon_pid then false else true) := by
    rw [s1, hp, ha]
    show (if 0 < inst.daemon_pid ∧ (sys_waitpid w).1 = inst.daemon_pid then false
      else inst.daemon_running) = _
    rw [f4]
    by_cases hx : (sys_waitpid w).1 = inst.daemon_pid
    · rw [if_pos ⟨f5, hx⟩, if_pos hx]
    · rw [if_neg (fun h => hx h.2), if_neg hx]
  unfold v2_render_block
  rw [if_neg (by omega)]
  simp only [hN, s2, s3, hrun, gt_iff_lt, lt_self_iff_false, and_false, if_false]
  have hlast : (memset_zero out needed).getD (needed - 1) 0 = 0 := by
    unfold memset_zero
    rw [List.getD_eq_getElem?_getD, List.getElem?_append_left (by simp; omega)]
    simp
  by_cases hx : (sys_waitpid w).1 = inst.daemon_pid
  · simp only [hx, if_true]
    unfold memset_zero
    have hsplit : List.replicate needed (0 : Int)
        = List.replicate (needed - 1) 0 ++ [0] := by
      rw [← List.replicate_succ']
      congr 1
      omega
    simp [hsplit]
  · simp only [hx, if_false, if_true, hlast]
    have h5 : toInt16 (toUInt16 0 ||| 5) = 5 := by decide
    rw [h5]
    unfold memset_zero
    have hsplit : List.replicate needed (0 : Int)
        = List.replicate (needed - 1) 0 ++ [0] := by
      rw [← List.replicate_succ']
      congr 1
      omega
    rw [hsplit, List.append_assoc, List.set_append_right _ _ (by simp)]
    simp

/-- C7, amended, at a run of four frames with the receiver still running: the instance
created in slot 1 renders seven zeros and the keep-alive sample; the two entries of the
caller's buffer beyond the eight samples keep their value. -/
theorem render_underrun_witness :
    (v2_create_instance 8 0
      { World.idle with
        callocs := [true], mkfifos := [true], opens := [3], fopens := [true],
        forks := [1234], execs := [true] } none).inst
      = some { zeroed 8 with
          slot := 1, module_dir := ".", device_name := "Move - Slot 1"
          config_path := "/tmp/airplay-config-1.conf", fifo_path := "/tmp/airplay-audio-1"
          gain := F32.val 1 0, fifo_fd := 3, daemon_pid := 1234, daemon_running := true } ∧
    (v2_render_block 8
      (some { zeroed 8 with
          slot := 1, module_dir := ".", device_name := "Move - Slot 1"
          config_path := "/tmp/airplay-config-1.conf", fifo_path := "/tmp/airplay-audio-1"
          gain := F32.val 1 0, fifo_fd := 3, daemon_pid := 1234, daemon_running := true })
      [7, 7, 7, 7, 7, 7, 7, 7, 7, 7] 4 { World.idle with waitpids := [0] }).2.1
      = [0, 0, 0, 0, 0, 0, 0, 5, 7, 7] :=
  ⟨by decide,
    render_underrun 8 0
      { World.idle with
        callocs := [true], mkfifos := [true], opens := [3], fopens := [true],
        forks := [1234], execs := [true] } none _ (by decide)
      { World.idle with waitpids := [0] }
      (fun r hr => absurd hr (List.not_mem_nil r)) 4
      (by decide) [7, 7, 7, 7, 7, 7, 7, 7, 7, 7] (by decide)⟩

/-- C6 fails on the code: the host creates two instances, destroys the first and creates a
third.  `v2_destroy_instance` has decremented `g_instance_counter` to 1, so the third
instance gets slot 2 while the second, still live, holds slot 2: both use the same FIFO
path, config path and ports. -/
theorem slot_collision :
    ((Host.run 4096
      { World.idle with
        callocs := [true, true, true], mkfifos := [true, true, true], opens := [3, 4, 5],
        fopens := [true, true, true], forks := [100, 101, 102], execs := [true, true, true],
        waitpids := [0, 100] }
      [.create none, .create none, .destroy 0, .create none]).live.map
        (fun i => (i.slot, i.daemon_pid, i.fifo_path, i.config_path, rtsp_port i.slot,
          udp_port_base i.slot)))
      = [(2, 101, "/tmp/airplay-audio-2", "/tmp/airplay-config-2.conf", 5001, 6011),
         (2, 102, "/tmp/airplay-audio-2", "/tmp/airplay-config-2.conf", 5001, 6011)] := by
  decide

/-! ## Parameters and render tick: lemmas -/

theorem sameOutsideAudio_refl (a : Instance) : SameOutsideAudio a a :=
  ⟨rfl, rfl, rfl, rfl, rfl, rfl, rfl, rfl, rfl, rfl⟩

theorem sameOutsideAudio_trans {a b c : Instance} (h1 : SameOutsideAudio a b)
    (h2 : SameOutsideAudio b c) : SameOutsideAudio a c := by
  obtain ⟨a1, a2, a3, a4, a5, a6, a7, a8, a9, a10⟩ := h1
  obtain ⟨b1, b2, b3, b4, b5, b6, b7, b8, b9, b10⟩ := h2
  exact ⟨a1.trans b1, a2.trans b2, a3.trans b3, a4.trans b4, a5.trans b5, a6.trans b6,
    a7.trans b7, a8.trans b8, a9.trans b9, a10.trans b10⟩

theorem sameOutsidePipe_refl (w : World) : SameOutsidePipe w w :=
  ⟨rfl, rfl, rfl, rfl, rfl, rfl, rfl, rfl, rfl, rfl, rfl, rfl, rfl⟩

theorem sameOutsidePipe_trans {u v w : World} (h1 : SameOutsidePipe u v)
    (h2 : SameOutsidePipe v w) : SameOutsidePipe u w := by
  obtain ⟨a1, a2, a3, a4, a5, a6, a7, a8, a9, a10, a11, a12, a13⟩ := h1
  obtain ⟨b1, b2, b3, b4, b5, b6, b7, b8, b9, b10, b11, b12, b13⟩ := h2
  exact ⟨a1.trans b1, a2.trans b2, a3.trans b3, a4.trans b4, a5.trans b5, a6.trans b6,
    a7.trans b7, a8.trans b8, a9.trans b9, a10.trans b10, a11.trans b11, a12.trans b12,
    a13.trans b13⟩

theorem now_ms_frame (v : World) : SameOutsidePipe (now_ms v).2 v := by
  unfold now_ms
  split
  · exact sameOutsidePipe_refl _
  · exact ⟨rfl, rfl, rfl, rfl, rfl, rfl, rfl, rfl, rfl, rfl, rfl, rfl, rfl⟩

/-- One read changes the audio path only. -/
theorem pump_block_frame (C : Nat) (inst : Instance) (w : World) (buf : List Nat) :
    SameOutsideAudio (pump_block C inst w buf).1 inst ∧
    SameOutsidePipe (pump_block C inst w buf).2 w := by
  unfold pump_block
  dsimp only
  generalize List.replicate 2048 (0 : Int) = scratch
  split_ifs <;> refine ⟨?_, ?_⟩ <;> first
    | exact now_ms_frame _
    | exact sameOutsidePipe_trans (now_ms_frame _)
        ⟨rfl, rfl, rfl, rfl, rfl, rfl, rfl, rfl, rfl, rfl, rfl, rfl, rfl⟩
    | (unfold SameOutsideAudio; simp)

/-- The drain loop changes the audio path only. -/
theorem pump_loop_frame (C : Nat) (reads : List ReadResult) :
    ∀ (inst : Instance) (w : World),
      SameOutsideAudio (pump_loop C reads inst w).1 inst ∧
      SameOutsidePipe (pump_loop C reads inst w).2 w := by
  induction reads with
  | nil => intro inst w; exact ⟨sameOutsideAudio_refl _, sameOutsidePipe_refl _⟩
  | cons r rest ih =>
    intro inst w
    unfold pump_loop
    have hw : SameOutsidePipe { w with reads := rest } w :=
      ⟨rfl, rfl, rfl, rfl, rfl, rfl, rfl, rfl, rfl, rfl, rfl, rfl, rfl⟩
    split_ifs with hg
    · exact ⟨sameOutsideAudio_refl _, sameOutsidePipe_refl _⟩
    · cases r with
      | error e => exact ⟨sameOutsideAudio_refl _, hw⟩
      | data bytes =>
        dsimp only
        obtain ⟨b1, b2⟩ := pump_block_frame C inst { w with reads := rest } (bytes.take 4096)
        split_ifs
        · exact ⟨b1, sameOutsidePipe_trans b2 hw⟩
        · obtain ⟨i1, i2⟩ := ih (pump_block C inst { w with reads := rest } (bytes.take 4096)).1
            (pump_block C inst { w with reads := rest } (bytes.take 4096)).2
          exact ⟨sameOutsideAudio_trans i1 b1,
            sameOutsidePipe_trans i2 (sameOutsidePipe_trans b2 hw)⟩
        · exact ⟨sameOutsideAudio_refl _, hw⟩

/-- Function `pump_pipe` changes the audio path only. -/
theorem pump_pipe_frame (C : Nat) (inst : Instance) (w : World) :
    SameOutsideAudio (pump_pipe C inst w).1 inst ∧
    SameOutsidePipe (pump_pipe C inst w).2 w := by
  obtain ⟨l1, l2⟩ := pump_loop_frame C w.reads inst w
  unfold pump_pipe
  dsimp only
  split_ifs
  · exact ⟨sameOutsideAudio_refl _, sameOutsidePipe_refl _⟩
  · exact ⟨l1, sameOutsidePipe_trans (now_ms_frame _) l2⟩
  · exact ⟨l1, sameOutsidePipe_trans (now_ms_frame _) l2⟩
  · exact ⟨l1, l2⟩

/-- Function `ring_pop` changes `play_abs` only. -/
theorem ring_pop_frame (C : Nat) (inst : Instance) (out : List Int) (n : Nat) :
    ∃ p, (ring_pop C inst out n).1 = { inst with play_abs := p } := by
  unfold ring_pop
  split_ifs
  · exact ⟨inst.play_abs, rfl⟩
  · exact ⟨_, rfl⟩


/-- A text that fits in the buffer is stored whole. -/
theorem snprintf_s_fits (size : Nat) (text : String) (h : text.length + 1 ≤ size) :
    snprintf_s size text = text := by
  have hl : text.data.length = text.length := rfl
  unfold snprintf_s
  rw [List.take_of_length_le (by omega)]

/-- The status text for the three facts, in the priority of `v2_get_param`. -/
theorem v2_get_param_status (pf : F32 → String) (inst : Instance) (buf : String)
    (buf_len : Int) (hlen : 0 < buf_len) :
    v2_get_param pf (some inst) "status" buf buf_len
      = snprintf_ret buf_len
          (if inst.error_msg ≠ "" then "error"
           else if inst.daemon_running = false then "stopped"
           else if inst.receiving_audio = true then "playing" else "waiting") := by
  unfold v2_get_param
  rw [if_neg (by omega), if_neg (by decide), if_neg (by decide), if_neg (by decide),
    if_pos rfl]
  simp only
  by_cases h1 : inst.error_msg ≠ ""
  · rw [if_pos h1, if_pos h1]
  · rw [if_neg h1, if_neg h1]
    cases h2 : inst.daemon_running
    · simp
    · cases h3 : inst.receiving_audio <;> simp

/-- Function `v2_render_block` with `frames > 0` on an instance, as its four steps: health
check and drain, pop, gain, keep-alive. -/
theorem v2_render_block_eq (C : Nat) (inst : Instance) (out : List Int) (frames : Int)
    (w : World) (hf : 0 < frames) :
    v2_render_block C (some inst) out frames w
      = (some (render_popped C inst out frames w).1,
         keep_alive (render_popped C inst out frames w).1.daemon_running
           (gain_stage (render_popped C inst out frames w).1.gain
             (render_popped C inst out frames w).2.1 (render_popped C inst out frames w).2.2)
           (frames.toNat * 2),
         (pump_pipe C (check_daemon_alive inst w).1 (check_daemon_alive inst w).2).2) := by
  unfold v2_render_block
  rw [if_neg (by omega)]
  rfl

/-- The health check sends no signal and forks nothing. -/
theorem check_daemon_alive_world (inst : Instance) (w : World) :
    (check_daemon_alive inst w).2.children = w.children ∧
    (check_daemon_alive inst w).2.forks = w.forks ∧
    (check_daemon_alive inst w).2.execs = w.execs ∧
    (check_daemon_alive inst w).2.signals = w.signals ∧
    (check_daemon_alive inst w).2.files = w.files := by
  have hw : (sys_waitpid w).2.children = w.children ∧ (sys_waitpid w).2.forks = w.forks ∧
      (sys_waitpid w).2.execs = w.execs ∧ (sys_waitpid w).2.signals = w.signals ∧
      (sys_waitpid w).2.files = w.files := by
    unfold sys_waitpid
    split <;> exact ⟨rfl, rfl, rfl, rfl, rfl⟩
  unfold check_daemon_alive
  dsimp only
  split_ifs
  · exact ⟨rfl, rfl, rfl, rfl, rfl⟩
  · exact hw
  · exact hw

/-- The instance after the pop of a render tick: outside the audio path it is the
instance after the health check. -/
theorem render_popped_frame (C : Nat) (inst : Instance) (out : List Int) (frames : Int)
    (w : World) :
    SameOutsideAudio (render_popped C inst out frames w).1 (check_daemon_alive inst w).1 := by
  obtain ⟨p1, _⟩ := pump_pipe_frame C (check_daemon_alive inst w).1 (check_daemon_alive inst w).2
  obtain ⟨q, hq⟩ := ring_pop_frame C
    (pump_pipe C (check_daemon_alive inst w).1 (check_daemon_alive inst w).2).1
    (memset_zero out (frames.toNat * 2)) (frames.toNat * 2)
  unfold render_popped
  rw [hq]
  exact p1

/-- One render tick: the receiver is running afterwards only if it was before, and no
process is forked or signalled. -/
theorem render_tick_no_start (C : Nat) (inst : Instance) (out : List Int) (frames : Int)
    (w : World) :
    (((v2_render_block C (some inst) out frames w).1.getD inst).daemon_running = true →
      inst.daemon_running = true) ∧
    (v2_render_block C (some inst) out frames w).2.2.children = w.children ∧
    (v2_render_block C (some inst) out frames w).2.2.forks = w.forks ∧
    (v2_render_block C (some inst) out frames w).2.2.signals = w.signals := by
  by_cases hf : 0 < frames
  · rw [v2_render_block_eq C inst out frames w hf]
    obtain ⟨_, pid, e, ha⟩ := check_daemon_alive_eq inst w
    obtain ⟨c1, c2, _, c4, _⟩ := check_daemon_alive_world inst w
    obtain ⟨_, hp⟩ := pump_pipe_frame C (check_daemon_alive inst w).1
      (check_daemon_alive inst w).2
    have hr := (render_popped_frame C inst out frames w).2.2.2.2.2.2.2.2.1
    refine ⟨?_, ?_, ?_, ?_⟩
    · intro h
      simp only [Option.getD_some] at h
      rw [hr, ha] at h
      simp only at h
      by_cases hx : 0 < inst.daemon_pid ∧ (sys_waitpid w).1 = inst.daemon_pid
      · rw [if_pos hx] at h
        exact absurd h (by decide)
      · rw [if_neg hx] at h
        exact h
    · exact hp.2.2.2.2.2.2.2.2.2.2.2.1.trans c1
    · exact hp.2.2.2.2.2.1.trans c2
    · exact hp.2.2.2.2.2.2.2.2.2.2.1.trans c4
  · unfold v2_render_block
    rw [if_pos (by omega)]
    exact ⟨fun h => h, rfl, rfl, rfl⟩

/-- Render ticks never start the receiver. -/
theorem render_ticks_no_start (C : Nat) (ticks : List (List Int × Int)) :
    ∀ (inst : Instance) (w : World),
      ((render_ticks C ticks inst w).1.daemon_running = true → inst.daemon_running = true) ∧
      (render_ticks C ticks inst w).2.children = w.children ∧
      (render_ticks C ticks inst w).2.forks = w.forks ∧
      (render_ticks C ticks inst w).2.signals = w.signals := by
  induction ticks with
  | nil => intro inst w; exact ⟨fun h => h, rfl, rfl, rfl⟩
  | cons t rest ih =>
    intro inst w
    obtain ⟨out, frames⟩ := t
    obtain ⟨t1, t2, t3, t4⟩ := render_tick_no_start C inst out frames w
    obtain ⟨i1, i2, i3, i4⟩ := ih ((v2_render_block C (some inst) out frames w).1.getD inst)
      (v2_render_block C (some inst) out frames w).2.2
    simp only [render_ticks]
    exact ⟨fun h => t1 (i1 h), i2.trans t2, i3.trans t3, i4.trans t4⟩

/-- With at most 4100 bytes to merge, every store into `merged[4100]` is in bounds: the
array keeps its length. -/
theorem merge_pending_length (inst : Instance) (buf : List Nat)
    (hpl : inst.pending_len ≤ inst.pending_bytes.length)
    (h : inst.pending_len + buf.length ≤ 4100) :
    (merge_pending inst buf).length = 4100 := by
  have hzl : (List.replicate 4100 (0 : Nat)).length = 4100 := List.length_replicate _ _
  unfold merge_pending memcpy
  dsimp only
  generalize List.replicate 4100 (0 : Nat) = z at hzl
  split_ifs
  · simp only [List.length_append, List.length_take, List.length_drop, List.take_zero,
      List.length_nil]
    omega
  · simp only [List.length_append, List.length_take, List.length_drop]
    omega

/-- One read keeps the pending bytes within their array: at most three are pending, and
`pending_bytes[4]` keeps its length. -/
theorem pump_block_pending (C : Nat) (inst : Instance) (w : World) (buf : List Nat)
    (hpl : inst.pending_len ≤ 3) (hpb : inst.pending_bytes.length = 4)
    (hn : buf.length ≤ 4096) :
    (pump_block C inst w buf).1.pending_len = (inst.pending_len + buf.length) % 4 ∧
    (pump_block C inst w buf).1.pending_bytes.length = 4 := by
  have hml := merge_pending_length inst buf (by omega) (by omega)
  have hal := land_not_three (inst.pending_len + buf.length) (by omega)
  unfold pump_block
  dsimp only
  rw [hal]
  generalize List.replicate 2048 (0 : Int) = scratch
  generalize hm : inst.pending_len + buf.length = m at *
  have hrem : m - 4 * (m / 4) = m % 4 := by omega
  rw [hrem]
  have hlen : (if m % 4 > 0 then
      memcpy inst.pending_bytes 0 ((merge_pending inst buf).drop (4 * (m / 4))) (m % 4)
      else inst.pending_bytes).length = 4 := by
    split_ifs
    · unfold memcpy
      simp only [List.length_append, List.length_take, List.length_drop, List.take_zero,
        List.length_nil]
      omega
    · exact hpb
  constructor
  · split_ifs <;> simp <;> omega
  · by_cases h1 : 4 * (m / 4) / 2 > 0
    · simp only [h1, if_true, ring_push_pending_bytes]
      exact hlen
    · simp only [h1, if_false]
      exact hlen

/-- The drain loop keeps the pending bytes within their array. -/
theorem pump_loop_pending (C : Nat) (reads : List ReadResult) :
    ∀ (inst : Instance) (w : World),
      inst.pending_len ≤ 3 → inst.pending_bytes.length = 4 →
      (pump_loop C reads inst w).1.pending_len ≤ 3 ∧
      (pump_loop C reads inst w).1.pending_bytes.length = 4 := by
  induction reads with
  | nil => intro inst w h1 h2; exact ⟨h1, h2⟩
  | cons r rest ih =>
    intro inst w h1 h2
    unfold pump_loop
    split_ifs with hg
    · exact ⟨h1, h2⟩
    · cases r with
      | error e => exact ⟨h1, h2⟩
      | data bytes =>
        dsimp only
        obtain ⟨b1, b2⟩ := pump_block_pending C inst { w with reads := rest } (bytes.take 4096)
          h1 h2 (by rw [List.length_take]; omega)
        have b3 : (pump_block C inst { w with reads := rest } (bytes.take 4096)).1.pending_len
            ≤ 3 := by rw [b1]; omega
        split_ifs
        · exact ⟨b3, b2⟩
        · exact ih _ _ b3 b2
        · exact ⟨h1, h2⟩

/-- Function `pump_pipe` keeps the pending bytes within their array. -/
theorem pump_pipe_pending (C : Nat) (inst : Instance) (w : World)
    (h1 : inst.pending_len ≤ 3) (h2 : inst.pending_bytes.length = 4) :
    (pump_pipe C inst w).1.pending_len ≤ 3 ∧
    (pump_pipe C inst w).1.pending_bytes.length = 4 := by
  have hl := pump_loop_pending C w.reads inst w h1 h2
  unfold pump_pipe
  dsimp only
  split_ifs
  · exact ⟨h1, h2⟩
  · exact hl
  · exact hl
  · exact hl

/-- Any number of `pump_pipe` calls keeps the pending bytes within their array. -/
theorem pump_calls_pending (C : Nat) (k : Nat) :
    ∀ (inst : Instance) (w : World),
      inst.pending_len ≤ 3 → inst.pending_bytes.length = 4 →
      (pump_calls C k inst w).1.pending_len ≤ 3 ∧
      (pump_calls C k inst w).1.pending_bytes.length = 4 := by
  induction k with
  | zero => intro inst w h1 h2; exact ⟨h1, h2⟩
  | succ k ih =>
    intro inst w h1 h2
    obtain ⟨p1, p2⟩ := pump_pipe_pending C inst w h1 h2
    simp only [pump_calls]
    exact ih _ _ p1 p2

/-- What a successful `v2_create_instance` returns, field by field: the zeroed block with
the slot, the three texts, unit gain, the FIFO and the running receiver filled in. -/
theorem created_shape (C : Nat) (g : Int) (w : World) (md : Option String) (inst : Instance)
    (hc : (v2_create_instance C g w md).inst = some inst) :
    ∃ (fd pid : Int), 0 < pid ∧
      inst = { zeroed C with
        slot := g + 1
        module_dir := snprintf_s 512 (md.getD ".")
        device_name := snprintf_s 128 ("Move - Slot " ++ toString (g + 1))
        config_path := snprintf_s 512 ("/tmp/airplay-config-" ++ toString (g + 1) ++ ".conf")
        fifo_path := snprintf_s 512 ("/tmp/airplay-audio-" ++ toString (g + 1))
        gain := F32.val 1 0, fifo_fd := fd, daemon_pid := pid, daemon_running := true
        error_msg := "" } := by
  obtain ⟨rest, hrest⟩ : ∃ rest, w.callocs = true :: rest := by
    cases hcal : w.callocs with
    | nil =>
      unfold v2_create_instance at hc
      rw [hcal] at hc
      simp at hc
    | cons b t =>
      cases b
      · unfold v2_create_instance at hc
        rw [hcal] at hc
        simp at hc
      · exact ⟨t, rfl⟩
  obtain ⟨inst0, hinst0, hcreate⟩ := v2_create_instance_eq C g w md rest hrest
  obtain ⟨⟨fd, e, hfi⟩, _, _, _⟩ := create_fifo_spec inst0 { w with callocs := rest }
  rw [hcreate] at hc
  by_cases hf : (create_fifo inst0 { w with callocs := rest }).1 ≠ 0
  · rw [if_pos hf] at hc
    simp at hc
  · rw [if_neg hf] at hc
    by_cases hd : (start_daemon (create_fifo inst0 { w with callocs := rest }).2.1
        (create_fifo inst0 { w with callocs := rest }).2.2).1 ≠ 0
    · rw [if_pos hd] at hc
      simp at hc
    · rw [if_neg hd] at hc
      simp only [Option.some.injEq] at hc
      rcases start_daemon_eq (create_fifo inst0 { w with callocs := rest }).2.1
        (create_fifo inst0 { w with callocs := rest }).2.2 with ⟨pid, hpid, _, h⟩ | ⟨h1, _⟩
      · rw [h, stop_daemon_eq, hfi, hinst0] at hc
        rw [← hc]
        exact ⟨fd, pid, hpid, rfl⟩
      · rw [h1] at hd
        exact absurd (by decide) hd

/-- Function `pump_pipe` either returns at once or runs its loop and then touches only
`receiving_audio` and the clock. -/
theorem pump_pipe_cases (C : Nat) (inst : Instance) (w : World) :
    pump_pipe C inst w = (inst, w) ∨
    ∃ (ra : Bool) (clk : List Nat),
      pump_pipe C inst w
        = ({ (pump_loop C w.reads inst w).1 with receiving_audio := ra },
           { (pump_loop C w.reads inst w).2 with clock := clk }) := by
  by_cases hfd : 0 ≤ inst.fifo_fd
  · exact Or.inr (pump_pipe_eq C inst w hfd)
  · left
    unfold pump_pipe
    rw [if_pos (by omega)]

/-- The loop of `ring_pop` writes only the first `got` entries of the caller's buffer. -/
theorem pop_loop_shape (C : Nat) (inst : Instance) (got : Nat) (out : List Int) (p : Nat)
    (hout : got ≤ out.length) :
    ((List.range got).foldl (ring_pop_iter C inst) (out, p)).1.length = out.length ∧
    ((List.range got).foldl (ring_pop_iter C inst) (out, p)).1.drop got = out.drop got := by
  induction got with
  | zero => simp
  | succ k ih =>
    obtain ⟨i1, i2⟩ := ih (by omega)
    rw [List.range_succ, List.foldl_append]
    simp only [List.foldl_cons, List.foldl_nil, ring_pop_iter]
    refine ⟨by rw [List.length_set, i1], ?_⟩
    rw [List.drop_set_of_lt _ _ (by omega), ← List.drop_drop, i2, List.drop_drop]

/-- Function `ring_pop` on a buffer of at least `n` entries: `got ≤ n`, the buffer keeps
its length and everything from index `got` on is untouched. -/
theorem ring_pop_shape (C : Nat) (inst : Instance) (out : List Int) (n : Nat)
    (hout : n ≤ out.length) :
    (ring_pop C inst out n).2.2 ≤ n ∧
    (ring_pop C inst out n).2.1.length = out.length ∧
    (ring_pop C inst out n).2.1.drop (ring_pop C inst out n).2.2
      = out.drop (ring_pop C inst out n).2.2 := by
  unfold ring_pop
  by_cases hn : n = 0
  · rw [if_pos hn]
    exact ⟨by dsimp only; omega, rfl, rfl⟩
  · rw [if_neg hn]
    dsimp only
    have hg : (if ring_available C inst > n then n else ring_available C inst) ≤ n := by
      split_ifs <;> omega
    generalize (if ring_available C inst > n then n else ring_available C inst) = got at hg ⊢
    obtain ⟨s1, s2⟩ := pop_loop_shape C inst got out inst.play_abs (by omega)
    exact ⟨hg, s1, s2⟩

/-- The gain loop maps the first `got` entries through `f` and leaves the rest. -/
theorem gain_loop_eq (f : Int → Int) (got : Nat) (o : List Int) (h : got ≤ o.length) :
    (List.range got).foldl (fun o i => o.set i (f (o.getD i 0))) o
      = (o.take got).map f ++ o.drop got := by
  induction got with
  | zero => simp
  | succ k ih =>
    have hk : k < o.length := by omega
    rw [List.range_succ, List.foldl_append]
    simp only [List.foldl_cons, List.foldl_nil]
    rw [ih (by omega)]
    have hl : ((o.take k).map f).length = k := by
      rw [List.length_map, List.length_take]; omega
    have hget : ((o.take k).map f ++ o.drop k).getD k 0 = o[k] := by
      rw [List.getD_eq_getElem?_getD, List.getElem?_append_right (by omega), hl,
        Nat.sub_self, List.drop_eq_getElem_cons hk]
      simp [List.getElem?_eq_getElem hk]
    rw [hget, List.set_append_right _ _ (by omega), hl, Nat.sub_self,
      List.drop_eq_getElem_cons hk, List.take_succ, List.getElem?_eq_getElem hk]
    simp only [List.set, List.map_append, List.map_cons, List.map_nil, Option.toList_some,
      List.append_assoc, List.singleton_append]

/-- The gain step, in closed form: when the gain differs from 1 and something was popped,
the first `got` samples go through `gain_sample`; otherwise the buffer is unchanged. -/
theorem gain_stage_eq (gain : F32) (o : List Int) (got : Nat) (h : got ≤ o.length) :
    gain_stage gain o got
      = (if gain.ne_one = true then (o.take got).map (gain_sample gain) else o.take got)
        ++ o.drop got := by
  unfold gain_stage
  by_cases hg : gain.ne_one = true
  · by_cases h0 : got > 0
    · rw [if_pos ⟨hg, h0⟩, if_pos hg, gain_loop_eq _ _ _ h]
    · have hz : got = 0 := by omega
      subst hz
      simp
  · rw [if_neg (fun hh => hg hh.1), if_neg hg, List.take_append_drop]

/-- The bit pattern `x | 5` is odd, hence a non-zero `int16_t`. -/
theorem or_five_ne_zero (x : Int) : toInt16 (toUInt16 x ||| 5) ≠ 0 := by
  have hlt : toUInt16 x < 2 ^ 16 := by
    unfold toUInt16
    omega
  have h5 : toUInt16 x ||| 5 < 2 ^ 16 := Nat.or_lt_two_pow hlt (by decide)
  have hodd : (toUInt16 x ||| 5) % 2 = 1 := by
    rw [Nat.or_mod_two_eq_one]
    right; rfl
  unfold toInt16
  split_ifs <;> omega

/-- The pop of a render tick reads `daemon_running` as the health check left it and the
gain of the instance; it pops at most `needed` samples into a buffer that is zero from
index `got` to `needed` and the caller's beyond. -/
theorem render_popped_shape (C : Nat) (inst : Instance) (out : List Int) (frames : Int)
    (w : World) (hout : frames.toNat * 2 ≤ out.length) :
    (render_popped C inst out frames w).1.daemon_running
      = (check_daemon_alive inst w).1.daemon_running ∧
    (render_popped C inst out frames w).1.gain = inst.gain ∧
    (render_popped C inst out frames w).2.2 ≤ frames.toNat * 2 ∧
    (render_popped C inst out frames w).2.1.length = out.length ∧
    (render_popped C inst out frames w).2.1.drop (render_popped C inst out frames w).2.2
      = List.replicate (frames.toNat * 2 - (render_popped C inst out frames w).2.2) 0
        ++ out.drop (frames.toNat * 2) := by
  obtain ⟨_, _, _, _, _, _, _, _, f9, f10⟩ := render_popped_frame C inst out frames w
  obtain ⟨_, pid, e, hc⟩ := check_daemon_alive_eq inst w
  have hgain : (check_daemon_alive inst w).1.gain = inst.gain := by rw [hc]
  have hml : (memset_zero out (frames.toNat * 2)).length = out.length := by
    unfold memset_zero
    rw [List.length_append, List.length_replicate, List.length_drop]
    omega
  obtain ⟨s1, s2, s3⟩ := ring_pop_shape C
    (pump_pipe C (check_daemon_alive inst w).1 (check_daemon_alive inst w).2).1
    (memset_zero out (frames.toNat * 2)) (frames.toNat * 2) (by omega)
  refine ⟨f9, f10.trans hgain, s1, s2.trans hml, ?_⟩
  unfold render_popped
  rw [s3]
  unfold memset_zero
  rw [List.drop_append_of_le_length (by rw [List.length_replicate]; exact s1),
    List.drop_replicate]

/-! ## Gain arithmetic: lemmas -/

/-- Truncation toward zero of `a / 2 ^ n` is `Int.tdiv`. -/
theorem trunc_div_pow (a : Int) (n : Nat) :
    (if 0 ≤ (a : ℚ) / 2 ^ n then ⌊(a : ℚ) / 2 ^ n⌋ else ⌈(a : ℚ) / 2 ^ n⌉)
      = Int.tdiv a (2 ^ n) := by
  have hpos : (0 : ℚ) < 2 ^ n := by positivity
  have hcast : ((2 ^ n : ℕ) : ℚ) = 2 ^ n := by push_cast; rfl
  have hcastz : ((2 ^ n : ℕ) : ℤ) = 2 ^ n := by push_cast; rfl
  have hfl : ∀ b : Int, ⌊(b : ℚ) / 2 ^ n⌋ = b / 2 ^ n := by
    intro b
    rw [← hcast, Rat.floor_intCast_div_natCast, hcastz]
  by_cases ha : 0 ≤ a
  · have h0 : 0 ≤ (a : ℚ) / 2 ^ n := div_nonneg (by exact_mod_cast ha) hpos.le
    rw [if_pos h0, hfl, Int.tdiv_eq_ediv ha (by positivity)]
  · have ha2 : a < 0 := by omega
    have h0 : ¬ 0 ≤ (a : ℚ) / 2 ^ n := by
      rw [not_le]
      exact div_neg_of_neg_of_pos (by exact_mod_cast ha2) hpos
    rw [if_neg h0]
    have hneg : (a : ℚ) / 2 ^ n = -(((-a : Int) : ℚ) / 2 ^ n) := by push_cast; ring
    rw [hneg, Int.ceil_neg, hfl]
    have : a = -(-a) := by omega
    conv_rhs => rw [this, Int.neg_tdiv, Int.tdiv_eq_ediv (by omega) (by positivity)]

/-- The two comparisons and the cast of the gain loop are clamping to the `int16_t` range
and truncating toward zero. -/
theorem clamp_cast_eq (a b : Int) :
    (if f32_gt a b 32767 then 32767
     else if f32_lt a b (-32768) then -32768
     else f32_to_int16 a b) = clip_truncate (dyadic a b) := by
  unfold f32_gt f32_lt f32_to_int16 clip_truncate dyadic
  by_cases hb : b ≥ 0
  · simp only [hb, if_true]
    have hv : (a : ℚ) * (2 : ℚ) ^ b = ((a * 2 ^ b.toNat : Int) : ℚ) := by
      have : b = (b.toNat : Int) := by omega
      conv_lhs => rw [this]
      push_cast
      rw [zpow_natCast]
    rw [hv]
    generalize a * 2 ^ b.toNat = v
    have hc : max (-32768 : ℚ) (min 32767 (v : ℚ))
        = ((max (-32768) (min 32767 v) : Int) : ℚ) := by push_cast; rfl
    rw [hc]
    have h0 : (0 : ℚ) ≤ ((max (-32768) (min 32767 v) : Int) : ℚ)
        ↔ 0 ≤ max (-32768) (min 32767 v) := by exact_mod_cast Iff.rfl
    simp only [h0, Int.floor_intCast, Int.ceil_intCast, ite_self, decide_eq_true_eq]
    split_ifs <;> omega
  · simp only [hb, if_false]
    have hn : b = -((-b).toNat : Int) := by omega
    have hv : (a : ℚ) * (2 : ℚ) ^ b = (a : ℚ) / 2 ^ (-b).toNat := by
      conv_lhs => rw [hn]
      rw [zpow_neg, zpow_natCast, div_eq_mul_inv]
    rw [hv]
    generalize (-b).toNat = n
    have hpos : (0 : ℚ) < 2 ^ n := by positivity
    have hposz : (0 : Int) < 2 ^ n := by positivity
    simp only [decide_eq_true_eq]
    have hgt : a > 32767 * 2 ^ n ↔ (32767 : ℚ) < (a : ℚ) / 2 ^ n := by
      rw [lt_div_iff₀ hpos]; exact_mod_cast Iff.rfl
    have hlt : a < -32768 * 2 ^ n ↔ (a : ℚ) / 2 ^ n < -32768 := by
      rw [div_lt_iff₀ hpos]; exact_mod_cast Iff.rfl
    by_cases h1 : a > 32767 * 2 ^ n
    · have h1q := hgt.1 h1
      rw [if_pos h1, min_eq_left h1q.le, max_eq_right (by norm_num)]
      norm_num
    · have h1q : (a : ℚ) / 2 ^ n ≤ 32767 := not_lt.1 (fun h => h1 (hgt.2 h))
      rw [if_neg h1, min_eq_right h1q]
      by_cases h2 : a < -32768 * 2 ^ n
      · have h2q := hlt.1 h2
        have e : ⌈(-32768 : ℚ)⌉ = -32768 := by
          exact_mod_cast Int.ceil_intCast (-32768 : Int)
        rw [if_pos h2, max_eq_left h2q.le, if_neg (by norm_num), e]
      · have h2q : -32768 ≤ (a : ℚ) / 2 ^ n := not_lt.1 (fun h => h2 (hlt.2 h))
        rw [if_neg h2, max_eq_right h2q]
        exact (trunc_div_pow a n).symm

/-- The clamped and truncated value is an `int16_t`. -/
theorem clip_truncate_range (p : ℚ) : -32768 ≤ clip_truncate p ∧ clip_truncate p ≤ 32767 := by
  unfold clip_truncate
  dsimp only
  have h1 : (-32768 : ℚ) ≤ max (-32768) (min 32767 p) := le_max_left _ _
  have h2 : max (-32768) (min 32767 p) ≤ (32767 : ℚ) := max_le (by norm_num) (min_le_left _ _)
  generalize max (-32768) (min 32767 p) = c at h1 h2
  split_ifs with h
  · refine ⟨?_, ?_⟩
    · have : (0 : Int) ≤ ⌊c⌋ := Int.floor_nonneg.2 h
      omega
    · have : ⌊c⌋ ≤ ⌊(32767 : ℚ)⌋ := Int.floor_le_floor h2
      have e : ⌊(32767 : ℚ)⌋ = 32767 := by exact_mod_cast Int.floor_intCast (32767 : Int)
      omega
  · refine ⟨?_, ?_⟩
    · have : ⌈(-32768 : ℚ)⌉ ≤ ⌈c⌉ := Int.ceil_le_ceil h1
      have e : ⌈(-32768 : ℚ)⌉ = -32768 := by exact_mod_cast Int.ceil_intCast (-32768 : Int)
      omega
    · have : ⌈c⌉ ≤ 0 := Int.ceil_le.2 (by push_cast; linarith)
      omega

/-- The bit length of a number below `2 ^ k` is at most `k`. -/
theorem bitlen_le (fuel : Nat) : ∀ (n k : Nat), n < 2 ^ k → bitlen fuel n ≤ k := by
  induction fuel with
  | zero => intro n k _; simp [bitlen]
  | succ f ih =>
    intro n k h
    unfold bitlen
    by_cases hn : n = 0
    · rw [if_pos hn]; omega
    · rw [if_neg hn]
      cases k with
      | zero => simp at h; omega
      | succ j =>
        have := ih (n / 2) j (by rw [Nat.pow_succ] at h; omega)
        omega

/-- Rounding is off by at most half a unit of the last kept place. -/
theorem round_shift_error (p : Int) (k : Nat) :
    2 * |round_shift p k * 2 ^ k - p| ≤ 2 ^ k := by
  have hP : (0 : Int) < 2 ^ k := by positivity
  have hdiv := Int.emod_add_ediv p (2 ^ k)
  have hr0 := Int.emod_nonneg p hP.ne'
  have hr1 := Int.emod_lt_of_pos p hP
  unfold round_shift
  dsimp only
  generalize p / 2 ^ k = q at hdiv ⊢
  generalize p % 2 ^ k = r at hdiv hr0 hr1 ⊢
  generalize (2 : Int) ^ k = P at hP hdiv hr0 hr1 ⊢
  have e1 : (q + 1) * P = q * P + P := by ring
  have e2 : P * q = q * P := by ring
  rw [e2] at hdiv
  have key : ∀ z : Int, -P ≤ 2 * z → 2 * z ≤ P → 2 * |z| ≤ P := by
    intro z h1 h2
    rcases abs_cases z with ⟨h, _⟩ | ⟨h, _⟩ <;> rw [h] <;> omega
  split_ifs <;> (try rw [e1]) <;> apply key <;> omega

/-- A product of fewer than 25 bits is exact. -/
theorem f32_mul_exact (x m e : Int) (h : (x * m).natAbs < 2 ^ 24) :
    f32_mul_int16 x m e = (x * m, e) := by
  have hb := bitlen_le 64 (x * m).natAbs 24 h
  unfold f32_mul_int16
  dsimp only
  have hk : bitlen 64 (x * m).natAbs - 24 = 0 := by omega
  rw [hk]
  unfold round_shift
  simp

/-- The `float` product is the exact product rounded to within half a unit of its last
place. -/
theorem f32_mul_error (x m e : Int) :
    2 * |dyadic (f32_mul_int16 x m e).1 (f32_mul_int16 x m e).2 - (x : ℚ) * dyadic m e|
      ≤ (2 : ℚ) ^ (f32_mul_int16 x m e).2 := by
  unfold f32_mul_int16 dyadic
  dsimp only
  generalize bitlen 64 (x * m).natAbs - 24 = k
  have hr := round_shift_error (x * m) k
  have hq : (2 : ℚ) * |((round_shift (x * m) k * 2 ^ k - x * m : Int) : ℚ)| ≤ 2 ^ k := by
    exact_mod_cast hr
  have h2 : (0 : ℚ) < 2 ^ e := by positivity
  have hsplit : (2 : ℚ) ^ (e + (k : Int)) = 2 ^ k * 2 ^ e := by
    rw [zpow_add₀ (by norm_num), zpow_natCast, mul_comm]
  have hdiff : (round_shift (x * m) k : ℚ) * 2 ^ (e + (k : Int)) - (x : ℚ) * ((m : ℚ) * 2 ^ e)
      = ((round_shift (x * m) k * 2 ^ k - x * m : Int) : ℚ) * 2 ^ e := by
    rw [hsplit]; push_cast; ring
  rw [hdiff, hsplit, abs_mul, abs_of_pos h2, ← mul_assoc]
  exact mul_le_mul_of_nonneg_right hq h2.le

/-- Comparison `gain != 1.0f` on a finite gain is the comparison of its value with 1. -/
theorem ne_one_iff (m e : Int) : F32.ne_one (.val m e) = true ↔ dyadic m e ≠ 1 := by
  unfold F32.ne_one dyadic
  by_cases he : e ≥ 0
  · have hv : (m : ℚ) * (2 : ℚ) ^ e = ((m * 2 ^ e.toNat : Int) : ℚ) := by
      have : e = (e.toNat : Int) := by omega
      conv_lhs => rw [this]
      push_cast
      rw [zpow_natCast]
    simp only [he, if_true, hv, Bool.not_eq_true', decide_eq_false_iff_not, ne_eq]
    exact_mod_cast Iff.rfl
  · have hn : e = -((-e).toNat : Int) := by omega
    have hv : (m : ℚ) * (2 : ℚ) ^ e = (m : ℚ) / 2 ^ (-e).toNat := by
      conv_lhs => rw [hn]
      rw [zpow_neg, zpow_natCast, div_eq_mul_inv]
    simp only [he, if_false, hv, Bool.not_eq_true', decide_eq_false_iff_not, ne_eq]
    have hpos : (2 : ℚ) ^ (-e).toNat ≠ 0 := by positivity
    rw [div_eq_one_iff_eq hpos]
    exact_mod_cast Iff.rfl

/-- The gain loop body on a finite gain: clamp and truncate the `float` product; the result
is an `int16_t`. -/
theorem gain_sample_eq (m e x : Int) :
    gain_sample (.val m e) x
      = clip_truncate (dyadic (f32_mul_int16 x m e).1 (f32_mul_int16 x m e).2) := by
  rw [← clamp_cast_eq]
  rfl

/-- An `int` value inside the 32-bit range is itself. -/
theorem toInt32_of_range (x : Int) (h : -2147483648 ≤ x ∧ x ≤ 2147483647) :
    toInt32 x = x := by
  unfold toInt32
  omega

/-- The RTSP port expression does not overflow for the slots up to 214747765. -/
theorem rtsp_port_eq (s : Int) (h : 1 ≤ s ∧ s ≤ 214747765) : rtsp_port s = 5000 + s - 1 := by
  unfold rtsp_port
  rw [toInt32_of_range (5000 + s) (by omega), toInt32_of_range _ (by omega)]

/-- The UDP base expression does not overflow for the slots up to 214747765. -/
theorem udp_port_base_eq (s : Int) (h : 1 ≤ s ∧ s ≤ 214747765) :
    udp_port_base s = 6001 + (s - 1) * 10 := by
  unfold udp_port_base
  rw [toInt32_of_range (s - 1) (by omega), toInt32_of_range ((s - 1) * 10) (by omega),
    toInt32_of_range _ (by omega)]

/-- A number that fits the fuel is below two to its bit length. -/
theorem lt_two_pow_bitlen (fuel : Nat) : ∀ n : Nat, n < 2 ^ fuel → n < 2 ^ bitlen fuel n := by
  induction fuel with
  | zero => intro n h; simp at h; subst h; simp [bitlen]
  | succ f ih =>
    intro n h
    unfold bitlen
    by_cases hn : n = 0
    · rw [if_pos hn]; subst hn; simp
    · rw [if_neg hn]
      have := ih (n / 2) (by rw [Nat.pow_succ] at h; omega)
      rw [Nat.add_comm, Nat.pow_succ]
      omega

/-- The `float` product has at most 24 significant bits. -/
theorem f32_mul_bits (x m e : Int) (h : (x * m).natAbs < 2 ^ 64) :
    (f32_mul_int16 x m e).1.natAbs ≤ 2 ^ 24 := by
  have hb := lt_two_pow_bitlen 64 (x * m).natAbs h
  unfold f32_mul_int16
  dsimp only
  generalize x * m = p at hb ⊢
  generalize hbl : bitlen 64 p.natAbs = bl at hb ⊢
  by_cases hle : bl ≤ 24
  · have hk : bl - 24 = 0 := by omega
    have hp : p.natAbs < 2 ^ 24 := lt_of_lt_of_le hb (Nat.pow_le_pow_right (by decide) hle)
    rw [hk]
    have : round_shift p 0 = p := by unfold round_shift; simp
    rw [this]
    omega
  · have hk : bl = (bl - 24) + 24 := by omega
    generalize bl - 24 = k at hk ⊢
    subst hk
    have hP : (0 : Int) < 2 ^ k := by positivity
    have hpb : (p.natAbs : Int) < 2 ^ 24 * 2 ^ k := by
      have : ((2 ^ (k + 24) : Nat) : Int) = 2 ^ 24 * 2 ^ k := by push_cast; ring
      rw [← this]
      exact_mod_cast hb
    have hq1 : p / 2 ^ k < 2 ^ 24 := Int.ediv_lt_of_lt_mul hP (by omega)
    have hq2 : -(2 ^ 24) ≤ p / 2 ^ k := Int.le_ediv_of_mul_le hP (by omega)
    unfold round_shift
    dsimp only
    generalize p / 2 ^ k = q at hq1 hq2 ⊢
    norm_num at hq1 hq2 ⊢
    split_ifs <;> omega

/-- The counters after the copy loop of `ring_push`, wrap-around included. -/
theorem push_loop_counters (C : Nat) (samples : List Int) (n : Nat) (inst : Instance)
    (hw : inst.write_abs < 2 ^ 64) :
    ((List.range n).foldl (ring_push_iter C samples) inst).write_abs
      = (inst.write_abs + n) % 2 ^ 64 ∧
    ((List.range n).foldl (ring_push_iter C samples) inst).play_abs = inst.play_abs := by
  induction n with
  | zero => exact ⟨(Nat.mod_eq_of_lt hw).symm, rfl⟩
  | succ k ih =>
    obtain ⟨i1, i2⟩ := ih
    rw [List.range_succ, List.foldl_append]
    simp only [List.foldl_cons, List.foldl_nil, ring_push_iter]
    exact ⟨by rw [i1]; omega, i2⟩

/-- The counters after `ring_push`, wrap-around included. -/
theorem ring_push_counters (C : Nat) (samples : List Int) (n : Nat) (inst : Instance)
    (hw : inst.write_abs < 2 ^ 64) :
    (ring_push C inst samples n).write_abs = (inst.write_abs + n) % 2 ^ 64 ∧
    (ring_push C inst samples n).play_abs
      = max inst.play_abs ((inst.write_abs + n) % 2 ^ 64 - C) := by
  obtain ⟨l1, l2⟩ := push_loop_counters C samples n inst hw
  unfold ring_push
  dsimp only
  generalize (List.range n).foldl (ring_push_iter C samples) inst = i1 at l1 l2 ⊢
  by_cases hgt : i1.write_abs > C
  · by_cases hp : i1.play_abs < i1.write_abs - C
    · simp only [hgt, hp, if_true]
      exact ⟨l1, by rw [← l1, ← l2, max_eq_right (le_of_lt hp)]⟩
    · simp only [hgt, hp, if_true, if_false]
      exact ⟨l1, by rw [← l1, ← l2, max_eq_left (by omega)]⟩
  · have hp : ¬ i1.play_abs < 0 := by omega
    simp only [hgt, hp, if_false]
    exact ⟨l1, by rw [← l1, ← l2, max_eq_left (by omega)]⟩

/-- The counters after one block of the drain loop, wrap-around included. -/
theorem pump_block_counters (C : Nat) (inst : Instance) (w : World) (buf : List Nat)
    (hw : inst.write_abs < 2 ^ 64) (hlen : inst.pending_len + buf.length < 2 ^ 64) :
    (pump_block C inst w buf).1.write_abs
      = (inst.write_abs + 2 * ((inst.pending_len + buf.length) / 4)) % 2 ^ 64 ∧
    (pump_block C inst w buf).1.play_abs
      = if 2 * ((inst.pending_len + buf.length) / 4) > 0 then
          max inst.play_abs
            ((inst.write_abs + 2 * ((inst.pending_len + buf.length) / 4)) % 2 ^ 64 - C)
        else inst.play_abs := by
  generalize hmd : inst.pending_len + buf.length = m at hlen ⊢
  have hal := land_not_three m hlen
  have hsc : 4 * (m / 4) / 2 = 2 * (m / 4) := by omega
  unfold pump_block
  simp only [hmd, hal, hsc]
  generalize List.replicate 2048 (0 : Int) = scratch
  by_cases hs : 2 * (m / 4) > 0
  · simp only [hs, if_true]
    generalize hi : ({ inst with
        pending_bytes :=
          if m - 4 * (m / 4) > 0 then
            memcpy inst.pending_bytes 0 ((merge_pending inst buf).drop (4 * (m / 4)))
              (m - 4 * (m / 4))
          else inst.pending_bytes
        pending_len := (m - 4 * (m / 4)) % 256 } : Instance) = inst2
    have ha : inst2.write_abs = inst.write_abs := by rw [← hi]
    have hc : inst2.play_abs = inst.play_abs := by rw [← hi]
    obtain ⟨r1, r2⟩ := ring_push_counters C
      (memcpy scratch 0 (le16 ((merge_pending inst buf).take (2 * (m / 4) * 2))) (2 * (m / 4)))
      (2 * (m / 4)) inst2 (by rw [ha]; exact hw)
    rw [ha] at r1 r2
    rw [hc] at r2
    exact ⟨r1, r2⟩
  · simp only [hs, if_false]
    refine ⟨?_, trivial⟩
    show inst.write_abs = (inst.write_abs + 2 * (m / 4)) % 2 ^ 64
    omega

/-- One read made under the guard of the drain loop, in any state whatever: `play_abs` does
not move (not even when the 64-bit write counter wraps), at most 2048 samples are pushed,
and the ring is not full afterwards. -/
theorem pump_block_guarded (C : Nat) (inst : Instance) (w : World) (buf : List Nat)
    (hw : inst.write_abs < 2 ^ 64) (hpl : inst.pending_len ≤ 3)
    (hpb : inst.pending_bytes.length = 4) (hn : buf.length ≤ 4096)
    (hg : ring_available C inst + 2048 < C) :
    (pump_block C inst w buf).1.play_abs = inst.play_abs ∧
    (pump_block C inst w buf).1.write_abs < 2 ^ 64 ∧
    ring_available C (pump_block C inst w buf).1 + 1 ≤ C ∧
    (pump_block C inst w buf).2.pushed.length
      = w.pushed.length + 2 * ((inst.pending_len + buf.length) / 4) ∧
    2 * ((inst.pending_len + buf.length) / 4) ≤ 2048 := by
  have hsc : 2 * ((inst.pending_len + buf.length) / 4) ≤ 2048 := by omega
  obtain ⟨c1, c2⟩ := pump_block_counters C inst w buf hw (by omega)
  have hplen : (inst.pending_bytes.take inst.pending_len).length = inst.pending_len := by
    rw [List.length_take]; omega
  have hpush : (pump_block C inst w buf).2.pushed.length
      = w.pushed.length + 2 * ((inst.pending_len + buf.length) / 4) := by
    rw [(pump_block_spec C inst w buf hplen (by omega)).2.2.1, List.length_append,
      le16_length, List.length_take, List.length_append, hplen]
    omega
  generalize 2 * ((inst.pending_len + buf.length) / 4) = sc at hsc c1 c2 hpush ⊢
  have hg2 := hg
  unfold ring_available at hg2
  dsimp only at hg2
  have key : (inst.write_abs + sc) % 2 ^ 64 - C ≤ inst.play_abs := by
    split_ifs at hg2 <;> omega
  have hplay : (pump_block C inst w buf).1.play_abs = inst.play_abs := by
    rw [c2]
    split_ifs
    · exact max_eq_left key
    · rfl
  refine ⟨hplay, by rw [c1]; omega, ?_, hpush, hsc⟩
  unfold ring_available
  rw [hplay, c1]
  dsimp only
  split_ifs at hg2 ⊢ <;> omega

/-- The drain loop does not start a read when less than 2048 free samples are left. -/
theorem pump_loop_blocked (C : Nat) (reads : List ReadResult) (inst : Instance) (w : World)
    (hg : ring_available C inst + 2048 ≥ C) : pump_loop C reads inst w = (inst, w) := by
  cases reads with
  | nil => rfl
  | cons r rest =>
    unfold pump_loop
    rw [if_pos hg]

/-- The drain loop, in any state whose write counter is a 64-bit value and whose pending
remainder is at most 3 bytes: `play_abs` does not move, each read result pushes at most
2048 samples, and the ring is full afterwards only if it was full before. -/
theorem pump_loop_guarded (C : Nat) (reads : List ReadResult) :
    ∀ (inst : Instance) (w : World),
      inst.write_abs < 2 ^ 64 → inst.pending_len ≤ 3 → inst.pending_bytes.length = 4 →
      (pump_loop C reads inst w).1.play_abs = inst.play_abs ∧
      (pump_loop C reads inst w).1.write_abs < 2 ^ 64 ∧
      (pump_loop C reads inst w).2.pushed.length ≤ w.pushed.length + 2048 * reads.length ∧
      ring_available C (pump_loop C reads inst w).1
        ≤ max (ring_available C inst) (C - 1) := by
  induction reads with
  | nil =>
    intro inst w hw _ _
    exact ⟨rfl, hw, by simp [pump_loop], le_max_left _ _⟩
  | cons r rest ih =>
    intro inst w hw hpl hpb
    unfold pump_loop
    by_cases hg : ring_available C inst + 2048 ≥ C
    · rw [if_pos hg]
      exact ⟨rfl, hw, by dsimp only; omega, le_max_left _ _⟩
    · rw [if_neg hg]
      cases r with
      | error e =>
        exact ⟨rfl, hw, by dsimp only; omega, le_max_left _ _⟩
      | data bytes =>
        dsimp only
        have hlen : (bytes.take 4096).length ≤ 4096 := by rw [List.length_take]; omega
        obtain ⟨b1, b2, b3, b4, b5⟩ := pump_block_guarded C inst { w with reads := rest }
          (bytes.take 4096) hw hpl hpb hlen (by omega)
        obtain ⟨p1, p2⟩ := pump_block_pending C inst { w with reads := rest }
          (bytes.take 4096) hpl hpb hlen
        have hwp : ({ w with reads := rest } : World).pushed = w.pushed := rfl
        rw [hwp] at b4
        by_cases hpos : (bytes.take 4096).length > 0
        · rw [if_pos hpos]
          by_cases hshort : (bytes.take 4096).length < 4096
          · rw [if_pos hshort]
            refine ⟨b1, b2, by rw [b4]; simp only [List.length_cons]; omega, ?_⟩
            exact le_trans (by omega) (le_max_right _ _)
          · rw [if_neg hshort]
            obtain ⟨i1, i2, i3, i4⟩ := ih
              (pump_block C inst { w with reads := rest } (bytes.take 4096)).1
              (pump_block C inst { w with reads := rest } (bytes.take 4096)).2
              b2 (by rw [p1]; omega) p2
            refine ⟨i1.trans b1, i2, ?_, ?_⟩
            · simp only [List.length_cons]; omega
            · refine le_trans i4 (max_le ?_ (le_max_right _ _))
              exact le_trans (by omega) (le_max_right _ _)
        · rw [if_neg hpos]
          exact ⟨rfl, hw, by dsimp only; omega, le_max_left _ _⟩

/-- Function `pump_pipe` keeps a drainable state drainable and never moves `play_abs`. -/
theorem pump_pipe_drainable (C : Nat) (inst : Instance) (w : World)
    (h : Drainable C inst) :
    Drainable C (pump_pipe C inst w).1 ∧
    (pump_pipe C inst w).1.play_abs = inst.play_abs ∧
    (pump_pipe C inst w).2.pushed.length ≤ w.pushed.length + 2048 * w.reads.length := by
  obtain ⟨h1, h2, h3, h4⟩ := h
  obtain ⟨l1, l2, l3, l4⟩ := pump_loop_guarded C w.reads inst w h2 h3 h4
  obtain ⟨q1, q2⟩ := pump_pipe_pending C inst w h3 h4
  have hav : ring_available C (pump_loop C w.reads inst w).1 + 1 ≤ C := by
    have := max_le (a := ring_available C inst) (b := C - 1) (c := C - 1) (by omega) le_rfl
    omega
  rcases pump_pipe_cases C inst w with hc | ⟨ra, clk, hc⟩
  · rw [hc]
    exact ⟨⟨h1, h2, h3, h4⟩, rfl, by dsimp only; omega⟩
  · rw [hc] at q1 q2 ⊢
    exact ⟨⟨hav, l2, q1, q2⟩, l1, l3⟩

/-- Function `ring_pop` keeps a drainable state drainable. -/
theorem ring_pop_drainable (C : Nat) (inst : Instance) (out : List Int) (n : Nat)
    (h : Drainable C inst) : Drainable C (ring_pop C inst out n).1 := by
  obtain ⟨h1, h2, h3, h4⟩ := h
  unfold ring_pop
  by_cases hn : n = 0
  · rw [if_pos hn]
    exact ⟨h1, h2, h3, h4⟩
  · rw [if_neg hn]
    dsimp only
    have hgot : (if ring_available C inst > n then n else ring_available C inst)
        ≤ ring_available C inst := by split_ifs <;> omega
    generalize (if ring_available C inst > n then n else ring_available C inst) = got at hgot ⊢
    by_cases hz : got = 0
    · subst hz
      simp only [List.range_zero, List.foldl_nil]
      exact ⟨h1, h2, h3, h4⟩
    · have hav := hgot
      unfold ring_available at hav h1
      dsimp only at hav h1
      have hwp : inst.play_abs + got ≤ inst.write_abs := by split_ifs at hav <;> omega
      rw [pop_loop_cursor C inst got out inst.play_abs (by omega)]
      refine ⟨?_, h2, h3, h4⟩
      unfold ring_available
      dsimp only
      split_ifs at h1 ⊢ <;> omega

/-- Being drainable depends on the two counters and the pending remainder only. -/
theorem drainable_of_fields (C : Nat) (a b : Instance) (h1 : a.write_abs = b.write_abs)
    (h2 : a.play_abs = b.play_abs) (h3 : a.pending_len = b.pending_len)
    (h4 : a.pending_bytes = b.pending_bytes) (h : Drainable C b) : Drainable C a := by
  unfold Drainable ring_available at *
  rw [h1, h2, h3, h4]
  exact h

/-- A cleared ring is drainable. -/
theorem drainable_of_cleared (C : Nat) (hC : 0 < C) (i : Instance) (h1 : i.write_abs = 0)
    (h2 : i.play_abs = 0) (h3 : i.pending_len = 0)
    (h4 : i.pending_bytes = List.replicate 4 0) : Drainable C i := by
  unfold Drainable ring_available
  rw [h1, h2, h3, h4]
  refine ⟨?_, by decide, by decide, rfl⟩
  rw [if_pos (le_refl 0)]
  omega

/-- Function `start_daemon` leaves the counters and the pending remainder alone. -/
theorem start_daemon_ring (inst : Instance) (w : World) :
    (start_daemon inst w).2.1.write_abs = inst.write_abs ∧
    (start_daemon inst w).2.1.play_abs = inst.play_abs ∧
    (start_daemon inst w).2.1.pending_len = inst.pending_len ∧
    (start_daemon inst w).2.1.pending_bytes = inst.pending_bytes := by
  refine ⟨?_, ?_, ?_, ?_⟩ <;>
    rcases start_daemon_eq inst w with ⟨pid, _, _, h⟩ | ⟨_, h | h⟩ <;>
    rw [h, stop_daemon_eq]

/-- Function `v2_set_param` keeps a drainable state drainable. -/
theorem v2_set_param_drainable (C : Nat) (hC : 0 < C) (atof : String → F64)
    (inst : Instance) (w : World) (key val : String) (h : Drainable C inst) :
    Drainable C (v2_set_param atof inst w key val).1 := by
  unfold v2_set_param
  split_ifs
  · exact drainable_of_fields C _ inst rfl rfl rfl rfl h
  · exact h
  · obtain ⟨s1, s2, s3, s4⟩ := start_daemon_ring
      (clear_ring { inst with device_name := snprintf_s 128 val })
      (ap_log w (snprintf_s 256 ("device name changed to: " ++ snprintf_s 128 val)))
    exact drainable_of_cleared C hC _ s1 s2 s3 s4
  · obtain ⟨s1, s2, s3, s4⟩ := start_daemon_ring
      { clear_error (clear_ring inst) with receiving_audio := false }
      (ap_log w "manual restart requested")
    exact drainable_of_cleared C hC _ s1 s2 s3 s4
  · exact h

/-- Function `v2_render_block` keeps a drainable state drainable. -/
theorem v2_render_block_drainable (C : Nat) (inst : Instance) (out : List Int)
    (frames : Int) (w : World) (h : Drainable C inst) :
    Drainable C ((v2_render_block C (some inst) out frames w).1.getD inst) := by
  by_cases hf : 0 < frames
  · rw [v2_render_block_eq C inst out frames w hf]
    obtain ⟨_, pid, e, hc⟩ := check_daemon_alive_eq inst w
    have h1 : Drainable C (check_daemon_alive inst w).1 :=
      drainable_of_fields C _ inst (by rw [hc]) (by rw [hc]) (by rw [hc]) (by rw [hc]) h
    have h2 := (pump_pipe_drainable C (check_daemon_alive inst w).1
      (check_daemon_alive inst w).2 h1).1
    exact ring_pop_drainable C _ (memset_zero out (frames.toNat * 2)) (frames.toNat * 2) h2
  · unfold v2_render_block
    rw [if_pos (by omega)]
    exact h

/-- Every state the host reaches from a drainable one is drainable. -/
theorem api_run_drainable (C : Nat) (hC : 0 < C) (atof : String → F64)
    (calls : List (ApiCall × World)) :
    ∀ inst : Instance, Drainable C inst → Drainable C (api_run C atof inst calls) := by
  induction calls with
  | nil => intro inst h; exact h
  | cons c rest ih =>
    intro inst h
    unfold api_run
    rw [List.foldl_cons]
    apply ih
    obtain ⟨call, cw⟩ := c
    cases call with
    | set_param key val => exact v2_set_param_drainable C hC atof inst cw key val h
    | render_block out frames => exact v2_render_block_drainable C inst out frames cw h

/-- A created instance is drainable. -/
theorem created_drainable (C : Nat) (hC : 0 < C) (g : Int) (w : World) (md : Option String)
    (inst : Instance) (hc : (v2_create_instance C g w md).inst = some inst) :
    Drainable C inst := by
  obtain ⟨fd, pid, _, hshape⟩ := created_shape C g w md inst hc
  rw [hshape]
  exact drainable_of_cleared C hC _ rfl rfl rfl rfl

/-! ## Parameters and render tick: claims -/

/-- C11: for every instance, `v2_get_param` with key `"status"` and a buffer of at least 8
bytes writes `"error"` if `error_msg` is non-empty, else `"stopped"` if `daemon_running` is
false, else `"playing"` if `receiving_audio` is true, else `"waiting"`, and returns the
length of that text; the result is one of the four texts and is the same for any two
instances that agree on these three facts, whatever their other fields. -/
theorem status_derivation (printf_2f : F32 → String) (inst inst2 : Instance)
    (buf : String) (buf_len : Int) (hlen : 8 ≤ buf_len)
    (herr : inst.error_msg = "" ↔ inst2.error_msg = "")
    (hrun : inst.daemon_running = inst2.daemon_running)
    (hrec : inst.receiving_audio = inst2.receiving_audio) :
    v2_get_param printf_2f (some inst) "status" buf buf_len
      = (if inst.error_msg ≠ "" then (5, "error")
         else if inst.daemon_running = false then (7, "stopped")
         else if inst.receiving_audio = true then (7, "playing") else (7, "waiting")) ∧
    (v2_get_param printf_2f (some inst) "status" buf buf_len).2
      ∈ ["error", "stopped", "playing", "waiting"] ∧
    v2_get_param printf_2f (some inst2) "status" buf buf_len
      = v2_get_param printf_2f (some inst) "status" buf buf_len := by
  have hfit : ∀ t : String, t.length + 1 ≤ 8 → snprintf_ret buf_len t = ((t.length : Int), t) := by
    intro t ht
    unfold snprintf_ret
    rw [snprintf_s_fits _ _ (by omega)]
  have h1 := v2_get_param_status printf_2f inst buf buf_len (by omega)
  have h2 := v2_get_param_status printf_2f inst2 buf buf_len (by omega)
  have hval : v2_get_param printf_2f (some inst) "status" buf buf_len
      = (if inst.error_msg ≠ "" then (5, "error")
         else if inst.daemon_running = false then (7, "stopped")
         else if inst.receiving_audio = true then (7, "playing") else (7, "waiting")) := by
    rw [h1]
    split_ifs
    · exact hfit "error" (by decide)
    · exact hfit "stopped" (by decide)
    · exact hfit "playing" (by decide)
    · exact hfit "waiting" (by decide)
  refine ⟨hval, ?_, ?_⟩
  · rw [hval]
    split_ifs <;> decide
  · rw [h1, h2, ← hrun, ← hrec]
    by_cases he : inst.error_msg = ""
    · have he2 := herr.mp he
      simp only [he, he2, ne_eq, not_true_eq_false, if_false]
    · have he2 : ¬ inst2.error_msg = "" := fun h => he (herr.mpr h)
      simp only [he, he2, ne_eq, not_false_eq_true, if_true]

/-- C11 at two instances that differ in gain, slot and cursors but agree on the three
facts: both read `"playing"`. -/
theorem status_derivation_witness :
    v2_get_param (fun _ => "1.00")
      (some { zeroed 8 with daemon_running := true, receiving_audio := true })
      "status" "" 16 = (7, "playing") ∧
    v2_get_param (fun _ => "1.00")
      (some { zeroed 8 with
        daemon_running := true, receiving_audio := true, slot := 3, write_abs := 5
        gain := F32.val 2 0 })
      "status" "" 16
      = v2_get_param (fun _ => "1.00")
          (some { zeroed 8 with daemon_running := true, receiving_audio := true })
          "status" "" 16 :=
  ⟨(status_derivation (fun _ => "1.00")
      { zeroed 8 with daemon_running := true, receiving_audio := true }
      { zeroed 8 with
        daemon_running := true, receiving_audio := true, slot := 3, write_abs := 5
        gain := F32.val 2 0 }
      "" 16 (by decide) (by decide) (by decide) (by decide)).1,
    (status_derivation (fun _ => "1.00")
      { zeroed 8 with daemon_running := true, receiving_audio := true }
      { zeroed 8 with
        daemon_running := true, receiving_audio := true, slot := 3, write_abs := 5
        gain := F32.val 2 0 }
      "" 16 (by decide) (by decide) (by decide) (by decide)).2.2⟩


/-- C17: in every instance state, after `clear_ring` the three cursors and `pending_len`
are zero and the four pending bytes are zero, `ring_available` returns 0, a following
`ring_pop` of any `n` returns 0 and leaves the caller's buffer and the instance as they
are; `gain`, `device_name`, `error_msg` and the supervisor fields are not modified. -/
theorem clear_ring_resets (RING_SAMPLES : Nat) (inst : Instance) (out : List Int) (n : Nat) :
    (clear_ring inst).write_pos = 0 ∧ (clear_ring inst).write_abs = 0 ∧
    (clear_ring inst).play_abs = 0 ∧ (clear_ring inst).pending_len = 0 ∧
    (clear_ring inst).pending_bytes = [0, 0, 0, 0] ∧
    ring_available RING_SAMPLES (clear_ring inst) = 0 ∧
    ring_pop RING_SAMPLES (clear_ring inst) out n = (clear_ring inst, out, 0) ∧
    (clear_ring inst).gain = inst.gain ∧ (clear_ring inst).device_name = inst.device_name ∧
    (clear_ring inst).error_msg = inst.error_msg ∧
    (clear_ring inst).daemon_pid = inst.daemon_pid ∧
    (clear_ring inst).daemon_running = inst.daemon_running ∧
    (clear_ring inst).receiving_audio = inst.receiving_audio ∧
    (clear_ring inst).fifo_fd = inst.fifo_fd ∧ (clear_ring inst).ring = inst.ring := by
  have hav : ring_available RING_SAMPLES (clear_ring inst) = 0 := by
    simp [ring_available, clear_ring]
  refine ⟨rfl, rfl, rfl, rfl, rfl, hav, ?_, rfl, rfl, rfl, rfl, rfl, rfl, rfl, rfl⟩
  unfold ring_pop
  by_cases hn : n = 0
  · rw [if_pos hn]
  · rw [if_neg hn]
    simp only [hav]
    rw [if_neg (by omega)]
    rfl

/-- C14: when `write_config` can open the file it stores, for the instance's config path,
a text whose `port` is `5000 + slot - 1` and whose `udp_port_base` is
`6001 + (slot - 1) * 10`, for every slot from 1 up to 214747765, the last slot whose UDP
base fits the 32-bit `int` the source computes in.  For slots `s1, s2` in that range the
values are at least 5000 and 6001, and for distinct slots the RTSP ports differ and the UDP
bases differ by at least 10, so the ranges `[base, base + 9]` are disjoint.  From slot
214747766 on the `int` expression overflows. -/
theorem port_derivation (inst : Instance) (w : World) (rest : List Bool)
    (hfo : w.fopens = true :: rest)
    (hs : 1 ≤ inst.slot ∧ inst.slot ≤ 214747765)
    (s1 s2 : Int) (h1 : 1 ≤ s1 ∧ s1 ≤ 214747765) (h2 : 1 ≤ s2 ∧ s2 ≤ 214747765)
    (hne : s1 ≠ s2) (i j : Int) (hi : 0 ≤ i ∧ i ≤ 9) (hj : 0 ≤ j ∧ j ≤ 9) :
    (write_config inst w).1 = 0 ∧
    (write_config inst w).2.2.configs.head? = some (inst.config_path, config_text inst) ∧
    config_text inst
      = "general = \x7b\n" ++
        "  name = \"" ++ inst.device_name ++ "\";\n" ++
        "  port = " ++ toString (5000 + inst.slot - 1) ++ ";\n" ++
        "  udp_port_base = " ++ toString (6001 + (inst.slot - 1) * 10) ++ ";\n" ++
        "  interpolation = \"basic\";\n" ++
        "  drift_tolerance_in_seconds = 0.002;\n" ++
        "\x7d;\n" ++
        "\n" ++
        "pipe = \x7b\n" ++
        "  name = \"" ++ inst.fifo_path ++ "\";\n" ++
        "  audio_backend_buffer_desired_length_in_seconds = 0.2;\n" ++
        "\x7d;\n" ∧
    rtsp_port s1 = 5000 + s1 - 1 ∧ udp_port_base s1 = 6001 + (s1 - 1) * 10 ∧
    5000 ≤ rtsp_port s1 ∧ 6001 ≤ udp_port_base s1 ∧
    5000 ≤ rtsp_port s2 ∧ 6001 ≤ udp_port_base s2 ∧
    rtsp_port s1 ≠ rtsp_port s2 ∧
    10 ≤ |udp_port_base s1 - udp_port_base s2| ∧
    udp_port_base s1 + i ≠ udp_port_base s2 + j ∧
    udp_port_base 214747765 = 2147483641 ∧
    udp_port_base 214747766 = -2147483645 ∧
    udp_port_base 214748365 = -2147477655 := by
  have hw : write_config inst w
      = (0, inst,
          { w with
            fopens := rest
            files := inst.config_path :: w.files.filter (fun p => p ≠ inst.config_path)
            configs := (inst.config_path, config_text inst)
              :: w.configs.filter (fun c => c.1 ≠ inst.config_path) }) := by
    unfold write_config
    rw [hfo]
  have hr := rtsp_port_eq inst.slot hs
  have hu := udp_port_base_eq inst.slot hs
  have r1 := rtsp_port_eq s1 h1
  have u1 := udp_port_base_eq s1 h1
  have r2 := rtsp_port_eq s2 h2
  have u2 := udp_port_base_eq s2 h2
  have habs : 10 ≤ |udp_port_base s1 - udp_port_base s2| := by
    rw [u1, u2]
    rcases lt_or_gt_of_ne hne with h | h
    · rw [abs_of_neg (by omega)]; omega
    · rw [abs_of_pos (by omega)]; omega
  refine ⟨by rw [hw], by rw [hw]; rfl, ?_, r1, u1, ?_, ?_, ?_, ?_, ?_, habs, ?_,
    by decide, by decide, by decide⟩
  · unfold config_text
    rw [hr, hu]
  · rw [r1]; omega
  · rw [u1]; omega
  · rw [r2]; omega
  · rw [u2]; omega
  · rw [r1, r2]; omega
  · rw [u1, u2]
    omega

/-- C14 at slots 1 and 2: ports 5000 and 5001, UDP bases 6001 and 6011. -/
theorem port_derivation_witness :
    (write_config { zeroed 8 with slot := 1, config_path := "/tmp/airplay-config-1.conf" }
      { World.idle with fopens := [true] }).1 = 0 ∧
    rtsp_port 1 = 5000 ∧ rtsp_port 2 = 5001 ∧ udp_port_base 1 = 6001 ∧
    udp_port_base 2 = 6011 ∧ udp_port_base 1 + 9 ≠ udp_port_base 2 + 0 :=
  ⟨(port_derivation { zeroed 8 with slot := 1, config_path := "/tmp/airplay-config-1.conf" }
      { World.idle with fopens := [true] } [] rfl (by decide) 1 2 (by decide) (by decide)
      (by decide) 9 0 (by decide) (by decide)).1,
    by decide, by decide, by decide, by decide,
    (port_derivation { zeroed 8 with slot := 1, config_path := "/tmp/airplay-config-1.conf" }
      { World.idle with fopens := [true] } [] rfl (by decide) 1 2 (by decide) (by decide)
      (by decide) 9 0 (by decide) (by decide)).2.2.2.2.2.2.2.2.2.2.2.1⟩

/-- Where the gain clamp works: for every parsed value other than NaN, the stored gain is a
number that is neither below 0 nor above 2. -/
theorem gain_of_double_clamped (d : F64) (hd : d ≠ F64.nan) :
    ∃ m e, gain_of_double d = F32.val m e ∧ f32_lt m e 0 = false ∧ f32_gt m e 2 = false := by
  cases d with
  | nan => exact absurd rfl hd
  | inf negative =>
    cases negative
    · exact ⟨2, 0, rfl, by decide, by decide⟩
    · exact ⟨0, 0, rfl, by decide, by decide⟩
  | val m e =>
    have e1 : f32_gt 0 0 2 = false := by decide
    have e2 : f32_lt 0 0 0 = false := by decide
    have e3 : f32_lt 2 0 0 = false := by decide
    have e4 : f32_gt 2 0 2 = false := by decide
    unfold gain_of_double
    simp only
    generalize f32_of_double m e = g
    obtain ⟨a, b⟩ := g
    refine ⟨_, _, rfl, ?_, ?_⟩ <;>
      cases h1 : f32_lt a b 0 <;> cases h2 : f32_gt a b 2 <;> simp [h1, h2, e1, e2, e3, e4]

/-- C12 fails on the code for the value `"nan"`: `atof` returns NaN, both comparisons of
the clamp are false, and the stored gain is NaN, which is not in `[0, 2]`; the values `-1`
and `5` are clamped to `0.0` and `2.0` as the claim says. -/
theorem gain_nan_stored :
    (v2_set_param (fun s => if s = "nan" then F64.nan else F64.val 0 0)
      { zeroed 8 with gain := F32.val 1 0 } World.idle "gain" "nan").1.gain = F32.nan ∧
    (v2_set_param (fun _ => F64.val (-1) 0)
      { zeroed 8 with gain := F32.val 1 0 } World.idle "gain" "-1").1.gain = F32.val 0 0 ∧
    (v2_set_param (fun _ => F64.val 5 0)
      { zeroed 8 with gain := F32.val 1 0 } World.idle "gain" "5").1.gain = F32.val 2 0 := by
  decide

/-- C18 fails on the code for small negative samples: a created instance receives eight
quiet samples ending in `-4` and renders four frames with the receiver running; the
keep-alive step turns the last sample into `-4 | 5 = -3`, and no output sample has a
magnitude above the silence level 4. -/
theorem keep_alive_below_threshold :
    (v2_render_block 4096
      (v2_create_instance 4096 0
        { World.idle with
          callocs := [true], mkfifos := [true], opens := [3], fopens := [true],
          forks := [1234], execs := [true] } none).inst
      [0, 0, 0, 0, 0, 0, 0, 0] 4
      { World.idle with
        waitpids := [0]
        reads := [.data [1, 0, 255, 255, 2, 0, 254, 255, 1, 0, 255, 255, 3, 0, 252, 255]] }).2.1
      = [1, -1, 2, -2, 1, -1, 3, -3] ∧
    (∀ x ∈ ([1, -1, 2, -2, 1, -1, 3, -3] : List Int), x.natAbs ≤ 4) ∧
    toInt16 (toUInt16 (-4) ||| 5) = -3 ∧
    (∀ x ∈ ([-8, -7, -6, -5, -4, -3, -2, -1] : List Int),
      (toInt16 (toUInt16 x ||| 5)).natAbs ≤ 4) := by
  decide

/-- C20: when `check_daemon_alive` sees that the tracked process has exited (`waitpid`
returns its pid) it sets `daemon_running = false`, `daemon_pid = -1` and
`error_msg = "shairport-sync exited unexpectedly"`, so the status reads `"error"`; and over
every sequence of `v2_render_block` calls, whatever the reads and `waitpid` return, the
receiver is running afterwards only if it was running before, and no process is forked or
signalled.  Of the `v2_set_param` keys only `"restart"` and a non-empty `"device_name"`
reach `start_daemon`: any other call leaves the supervisor state and the world alone. -/
theorem crash_detection_no_restart (RING_SAMPLES : Nat) (printf_2f : F32 → String)
    (atof : String → F64) (inst : Instance) (w : World)
    (hpid : 0 < inst.daemon_pid) (hexit : (sys_waitpid w).1 = inst.daemon_pid)
    (buf : String) (ticks : List (List Int × Int)) (inst2 : Instance) (w2 : World)
    (key val : String) (hkey : key ≠ "restart" ∧ (key ≠ "device_name" ∨ val = "")) :
    (check_daemon_alive inst w).1.daemon_running = false ∧
    (check_daemon_alive inst w).1.daemon_pid = -1 ∧
    (check_daemon_alive inst w).1.error_msg = "shairport-sync exited unexpectedly" ∧
    v2_get_param printf_2f (some (check_daemon_alive inst w).1) "status" buf 16
      = (5, "error") ∧
    ((render_ticks RING_SAMPLES ticks inst2 w2).1.daemon_running = true →
      inst2.daemon_running = true) ∧
    (render_ticks RING_SAMPLES ticks inst2 w2).2.children = w2.children ∧
    (render_ticks RING_SAMPLES ticks inst2 w2).2.forks = w2.forks ∧
    (render_ticks RING_SAMPLES ticks inst2 w2).2.signals = w2.signals ∧
    (v2_set_param atof inst2 w2 key val).1.daemon_running = inst2.daemon_running ∧
    (v2_set_param atof inst2 w2 key val).1.daemon_pid = inst2.daemon_pid ∧
    (v2_set_param atof inst2 w2 key val).2 = w2 := by
  have hmsg : snprintf_s 256 "shairport-sync exited unexpectedly"
      = "shairport-sync exited unexpectedly" := by decide
  have hc : (check_daemon_alive inst w).1
      = { inst with
          daemon_pid := -1, daemon_running := false
          error_msg := "shairport-sync exited unexpectedly" } := by
    unfold check_daemon_alive
    rw [if_neg (by omega)]
    dsimp only
    rw [if_pos hexit]
    simp only [set_error, hmsg]
  obtain ⟨r1, r2, r3, r4⟩ := render_ticks_no_start RING_SAMPLES ticks inst2 w2
  have hstatus : v2_get_param printf_2f (some (check_daemon_alive inst w).1) "status" buf 16
      = (5, "error") := by
    rw [v2_get_param_status printf_2f _ buf 16 (by decide), hc]
    rw [if_pos (show ("shairport-sync exited unexpectedly" : String) ≠ "" by decide)]
    decide
  have hset : v2_set_param atof inst2 w2 key val
      = (if key = "gain" then ({ inst2 with gain := gain_of_double (atof val) }, w2)
         else (inst2, w2)) := by
    unfold v2_set_param
    by_cases hg : key = "gain"
    · rw [if_pos hg, if_pos hg]
    · rw [if_neg hg, if_neg hg]
      by_cases hd : key = "device_name"
      · rw [if_pos hd]
        rcases hkey.2 with h | h
        · exact absurd hd h
        · rw [if_pos h]
      · rw [if_neg hd, if_neg hkey.1]
  refine ⟨by rw [hc], by rw [hc], by rw [hc], hstatus, r1, r2, r3, r4, ?_, ?_, ?_⟩ <;>
    (rw [hset]; split_ifs <;> rfl)

/-- C20 at a run in which the receiver 1234 has exited: the health check records the
error, and three later render ticks start nothing. -/
theorem crash_detection_no_restart_witness :
    (check_daemon_alive { zeroed 8 with daemon_pid := 1234, daemon_running := true }
      { World.idle with waitpids := [1234] }).1.daemon_running = false ∧
    v2_get_param (fun _ => "1.00")
      (some (check_daemon_alive { zeroed 8 with daemon_pid := 1234, daemon_running := true }
        { World.idle with waitpids := [1234] }).1) "status" "" 16 = (5, "error") ∧
    (render_ticks 8 [([0, 0], 1), ([0, 0, 0, 0], 2), ([0, 0], 1)]
      (check_daemon_alive { zeroed 8 with daemon_pid := 1234, daemon_running := true }
        { World.idle with waitpids := [1234] }).1 World.idle).2.children = [] :=
  ⟨(crash_detection_no_restart 8 (fun _ => "1.00") (fun _ => F64.nan)
      { zeroed 8 with daemon_pid := 1234, daemon_running := true }
      { World.idle with waitpids := [1234] } (by decide) (by decide) ""
      [([0, 0], 1), ([0, 0, 0, 0], 2), ([0, 0], 1)]
      (check_daemon_alive { zeroed 8 with daemon_pid := 1234, daemon_running := true }
        { World.idle with waitpids := [1234] }).1 World.idle "gain" "1"
      (by decide)).1,
    (crash_detection_no_restart 8 (fun _ => "1.00") (fun _ => F64.nan)
      { zeroed 8 with daemon_pid := 1234, daemon_running := true }
      { World.idle with waitpids := [1234] } (by decide) (by decide) ""
      [([0, 0], 1), ([0, 0, 0, 0], 2), ([0, 0], 1)]
      (check_daemon_alive { zeroed 8 with daemon_pid := 1234, daemon_running := true }
        { World.idle with waitpids := [1234] }).1 World.idle "gain" "1"
      (by decide)).2.2.2.1,
    (crash_detection_no_restart 8 (fun _ => "1.00") (fun _ => F64.nan)
      { zeroed 8 with daemon_pid := 1234, daemon_running := true }
      { World.idle with waitpids := [1234] } (by decide) (by decide) ""
      [([0, 0], 1), ([0, 0, 0, 0], 2), ([0, 0], 1)]
      (check_daemon_alive { zeroed 8 with daemon_pid := 1234, daemon_running := true }
        { World.idle with waitpids := [1234] }).1 World.idle "gain" "1"
      (by decide)).2.2.2.2.2.1⟩

/-- C19: `pending_len ≤ 3` (with the four-byte array `pending_bytes`) holds after creation
and is kept by `pump_pipe`, by any number of `pump_pipe` calls and by `clear_ring`, for
every script of read results; under it, a read of `1 ≤ n ≤ 4096` bytes merges at most 4099
bytes, so `merged[4100]` keeps its length (no store outside it), the aligned part is at
most 4096 bytes, the at most 2048 samples fit `samples[2048]`, and the remainder, at most
3 bytes, fits `pending_bytes[4]`. -/
theorem pending_invariant (RING_SAMPLES : Nat) (inst : Instance) (w : World) (k : Nat)
    (buf : List Nat) (hpl : inst.pending_len ≤ 3) (hpb : inst.pending_bytes.length = 4)
    (hn : 1 ≤ buf.length ∧ buf.length ≤ 4096)
    (g : Int) (w0 : World) (module_dir : Option String) (created : Instance)
    (hcreate : (v2_create_instance RING_SAMPLES g w0 module_dir).inst = some created) :
    (created.pending_len = 0 ∧ created.pending_bytes.length = 4) ∧
    ((pump_pipe RING_SAMPLES inst w).1.pending_len ≤ 3 ∧
      (pump_pipe RING_SAMPLES inst w).1.pending_bytes.length = 4) ∧
    ((pump_calls RING_SAMPLES k inst w).1.pending_len ≤ 3 ∧
      (pump_calls RING_SAMPLES k inst w).1.pending_bytes.length = 4) ∧
    ((clear_ring inst).pending_len ≤ 3 ∧ (clear_ring inst).pending_bytes.length = 4) ∧
    inst.pending_len + buf.length ≤ 4099 ∧
    (merge_pending inst buf).length = 4100 ∧
    (inst.pending_len + buf.length) &&& (2 ^ 64 - 4) ≤ 4096 ∧
    ((inst.pending_len + buf.length) &&& (2 ^ 64 - 4)) / 2 ≤ 2048 ∧
    (memcpy (List.replicate 2048 (0 : Int)) 0
      (le16 ((merge_pending inst buf).take
        (((inst.pending_len + buf.length) &&& (2 ^ 64 - 4)) / 2 * 2)))
      (((inst.pending_len + buf.length) &&& (2 ^ 64 - 4)) / 2)).length = 2048 ∧
    inst.pending_len + buf.length - ((inst.pending_len + buf.length) &&& (2 ^ 64 - 4)) ≤ 3 ∧
    (pump_block RING_SAMPLES inst w buf).1.pending_len
      = (inst.pending_len + buf.length) % 4 ∧
    (pump_block RING_SAMPLES inst w buf).1.pending_bytes.length = 4 := by
  obtain ⟨fd, pid, _, hshape⟩ := created_shape RING_SAMPLES g w0 module_dir created hcreate
  have hml := merge_pending_length inst buf (by omega) (by omega)
  have hal := land_not_three (inst.pending_len + buf.length) (by omega)
  obtain ⟨b1, b2⟩ := pump_block_pending RING_SAMPLES inst w buf hpl hpb hn.2
  refine ⟨by rw [hshape]; exact ⟨rfl, rfl⟩, pump_pipe_pending RING_SAMPLES inst w hpl hpb,
    pump_calls_pending RING_SAMPLES k inst w hpl hpb, ⟨by simp [clear_ring], rfl⟩,
    by omega, hml, by omega, by omega, ?_, by omega, b1, b2⟩
  rw [hal]
  generalize hm : inst.pending_len + buf.length = m at *
  have hl16 : (le16 ((merge_pending inst buf).take (4 * (m / 4) / 2 * 2))).length
      = 2 * (m / 4) := by
    rw [le16_length, List.length_take, hml]; omega
  have hzl : (List.replicate 2048 (0 : Int)).length = 2048 := List.length_replicate _ _
  generalize List.replicate 2048 (0 : Int) = z at hzl
  unfold memcpy
  simp only [List.length_append, List.length_take, List.length_drop, List.take_zero,
    List.length_nil, hl16]
  omega

/-- C19 at an instance that has two bytes pending and reads seven more. -/
theorem pending_invariant_witness :
    (pump_block 8
      { zeroed 8 with pending_len := 2, pending_bytes := [9, 10, 0, 0] } World.idle
      [1, 2, 3, 4, 5, 6, 7]).1.pending_len = (2 + 7) % 4 ∧
    (pump_pipe 8
      { zeroed 8 with pending_len := 2, pending_bytes := [9, 10, 0, 0] }
      World.idle).1.pending_len ≤ 3 :=
  ⟨(pending_invariant 8
      { zeroed 8 with pending_len := 2, pending_bytes := [9, 10, 0, 0] } World.idle 1
      [1, 2, 3, 4, 5, 6, 7] (by decide) (by decide) (by decide) 0
      { World.idle with
        callocs := [true], mkfifos := [true], opens := [3], fopens := [true],
        forks := [1234], execs := [true] } none
      { zeroed 8 with
          slot := 1, module_dir := ".", device_name := "Move - Slot 1"
          config_path := "/tmp/airplay-config-1.conf", fifo_path := "/tmp/airplay-audio-1"
          gain := F32.val 1 0, fifo_fd := 3, daemon_pid := 1234, daemon_running := true }
      (by decide)).2.2.2.2.2.2.2.2.2.2.1,
    (pending_invariant 8
      { zeroed 8 with pending_len := 2, pending_bytes := [9, 10, 0, 0] } World.idle 1
      [1, 2, 3, 4, 5, 6, 7] (by decide) (by decide) (by decide) 0
      { World.idle with
        callocs := [true], mkfifos := [true], opens := [3], fopens := [true],
        forks := [1234], execs := [true] } none
      { zeroed 8 with
          slot := 1, module_dir := ".", device_name := "Move - Slot 1"
          config_path := "/tmp/airplay-config-1.conf", fifo_path := "/tmp/airplay-audio-1"
          gain := F32.val 1 0, fifo_fd := 3, daemon_pid := 1234, daemon_running := true }
      (by decide)).2.1.1⟩

/-! ## Draining and ring occupancy -/

/-- The cursor invariant alone does not exclude a full ring: with capacity 4096,
`write_abs = 4096` and `play_abs = 0` satisfy it, the guard of `pump_pipe` then stops the
drain before any read, and the occupancy stays 4096. -/
theorem full_ring_stays_full :
    RingInv 4096 { zeroed 4096 with write_abs := 4096, fifo_fd := 3 } ∧
    ring_available 4096
        (pump_pipe 4096 { zeroed 4096 with write_abs := 4096, fifo_fd := 3 }
          { World.idle with reads := [ReadResult.data [1, 2, 3, 4]] }).1 = 4096 :=
  ⟨by unfold RingInv; decide, by decide⟩

/-- C16: take any instance that `v2_create_instance` returned and any sequence of
`v2_set_param` and `v2_render_block` calls on it, each in any environment; in the state
reached, for every environment `w` and its script of read results: the ring is not full;
`pump_pipe` does not move `play_abs`, so no unread sample is discarded; the occupancy after
the drain is at most `RING_SAMPLES - 1`; at most 2048 samples are pushed per read result;
a single read made under the guard `ring_available + 2048 < RING_SAMPLES` pushes at most
2048 samples, leaves `play_abs` alone and leaves the ring not full.  In any state at all,
when the guard fails `pump_pipe` consumes no read result and pushes nothing; and in any
state whose ring is not full, with a 64-bit write counter and at most three pending bytes,
`pump_pipe` does not move `play_abs` and leaves the ring not full.  Neither the cursor
invariant nor a bound on the counters is assumed: the statement also holds where the
64-bit write counter wraps. -/
theorem drain_never_overflows (RING_SAMPLES : Nat) (hC : 2048 < RING_SAMPLES)
    (atof : String → F64) (g : Int) (w0 : World) (module_dir : Option String)
    (created : Instance)
    (hcreate : (v2_create_instance RING_SAMPLES g w0 module_dir).inst = some created)
    (calls : List (ApiCall × World)) (w : World) :
    ring_available RING_SAMPLES (api_run RING_SAMPLES atof created calls)
      ≤ RING_SAMPLES - 1 ∧
    (pump_pipe RING_SAMPLES (api_run RING_SAMPLES atof created calls) w).1.play_abs
      = (api_run RING_SAMPLES atof created calls).play_abs ∧
    ring_available RING_SAMPLES
        (pump_pipe RING_SAMPLES (api_run RING_SAMPLES atof created calls) w).1
      ≤ RING_SAMPLES - 1 ∧
    (pump_pipe RING_SAMPLES (api_run RING_SAMPLES atof created calls) w).2.pushed.length
      ≤ w.pushed.length + 2048 * w.reads.length ∧
    (∀ buf : List Nat, buf.length ≤ 4096 →
      ring_available RING_SAMPLES (api_run RING_SAMPLES atof created calls) + 2048
        < RING_SAMPLES →
      (pump_block RING_SAMPLES (api_run RING_SAMPLES atof created calls) w buf).1.play_abs
        = (api_run RING_SAMPLES atof created calls).play_abs ∧
      (pump_block RING_SAMPLES (api_run RING_SAMPLES atof created calls) w buf).2.pushed.length
        ≤ w.pushed.length + 2048 ∧
      ring_available RING_SAMPLES
          (pump_block RING_SAMPLES (api_run RING_SAMPLES atof created calls) w buf).1
        ≤ RING_SAMPLES - 1) ∧
    (∀ (inst : Instance) (v : World),
      ring_available RING_SAMPLES inst + 2048 ≥ RING_SAMPLES →
      (pump_pipe RING_SAMPLES inst v).2.reads = v.reads ∧
      (pump_pipe RING_SAMPLES inst v).2.pushed = v.pushed ∧
      (pump_pipe RING_SAMPLES inst v).1.write_abs = inst.write_abs ∧
      (pump_pipe RING_SAMPLES inst v).1.play_abs = inst.play_abs) ∧
    (∀ (inst : Instance) (v : World), Drainable RING_SAMPLES inst →
      (pump_pipe RING_SAMPLES inst v).1.play_abs = inst.play_abs ∧
      ring_available RING_SAMPLES (pump_pipe RING_SAMPLES inst v).1 ≤ RING_SAMPLES - 1 ∧
      Drainable RING_SAMPLES (pump_pipe RING_SAMPLES inst v).1) := by
  have hd := api_run_drainable RING_SAMPLES (by omega) atof calls created
    (created_drainable RING_SAMPLES (by omega) g w0 module_dir created hcreate)
  generalize api_run RING_SAMPLES atof created calls = inst at hd ⊢
  obtain ⟨⟨p1, _, _, _⟩, p2, p3⟩ := pump_pipe_drainable RING_SAMPLES inst w hd
  obtain ⟨d1, d2, d3, d4⟩ := hd
  refine ⟨by omega, p2, by omega, p3, ?_, ?_, ?_⟩
  · intro buf hn hg
    obtain ⟨b1, _, b3, b4, b5⟩ := pump_block_guarded RING_SAMPLES inst w buf d2 d3 d4 hn hg
    exact ⟨b1, by omega, by omega⟩
  · intro i v hg
    have hL := pump_loop_blocked RING_SAMPLES v.reads i v hg
    rcases pump_pipe_cases RING_SAMPLES i v with h | ⟨ra, clk, h⟩
    · rw [h]
      exact ⟨rfl, rfl, rfl, rfl⟩
    · rw [h, hL]
      exact ⟨rfl, rfl, rfl, rfl⟩
  · intro i v hi
    obtain ⟨q1, q2, _⟩ := pump_pipe_drainable RING_SAMPLES i v hi
    have q3 := q1.1
    exact ⟨q2, by omega, q1⟩

/-- C16 at a run: the instance created in slot 1 renders two frames while the pipe delivers
two frames, the gain is set, and four more bytes are waiting; the next drain leaves
`play_abs` where it was and the ring not full. -/
theorem drain_never_overflows_witness :
    2048 < 4096 ∧
    (pump_pipe 4096
      (api_run 4096 (fun _ => F64.val 1 (-1))
        { zeroed 4096 with
          slot := 1, module_dir := ".", device_name := "Move - Slot 1"
          config_path := "/tmp/airplay-config-1.conf", fifo_path := "/tmp/airplay-audio-1"
          gain := F32.val 1 0, fifo_fd := 3, daemon_pid := 1234, daemon_running := true }
        [(ApiCall.render_block [0, 0, 0, 0] 2,
            { World.idle with
              waitpids := [0], reads := [ReadResult.data [1, 0, 2, 0, 3, 0, 4, 0]] }),
         (ApiCall.set_param "gain" "0.5", World.idle)])
      { World.idle with reads := [ReadResult.data [5, 0, 6, 0]] }).1.play_abs
      = (api_run 4096 (fun _ => F64.val 1 (-1))
        { zeroed 4096 with
          slot := 1, module_dir := ".", device_name := "Move - Slot 1"
          config_path := "/tmp/airplay-config-1.conf", fifo_path := "/tmp/airplay-audio-1"
          gain := F32.val 1 0, fifo_fd := 3, daemon_pid := 1234, daemon_running := true }
        [(ApiCall.render_block [0, 0, 0, 0] 2,
            { World.idle with
              waitpids := [0], reads := [ReadResult.data [1, 0, 2, 0, 3, 0, 4, 0]] }),
         (ApiCall.set_param "gain" "0.5", World.idle)]).play_abs ∧
    ring_available 4096
      (pump_pipe 4096
        (api_run 4096 (fun _ => F64.val 1 (-1))
          { zeroed 4096 with
            slot := 1, module_dir := ".", device_name := "Move - Slot 1"
            config_path := "/tmp/airplay-config-1.conf", fifo_path := "/tmp/airplay-audio-1"
            gain := F32.val 1 0, fifo_fd := 3, daemon_pid := 1234, daemon_running := true }
          [(ApiCall.render_block [0, 0, 0, 0] 2,
              { World.idle with
                waitpids := [0], reads := [ReadResult.data [1, 0, 2, 0, 3, 0, 4, 0]] }),
           (ApiCall.set_param "gain" "0.5", World.idle)])
        { World.idle with reads := [ReadResult.data [5, 0, 6, 0]] }).1 = 2 :=
  ⟨by decide,
   (drain_never_overflows 4096 (by decide) (fun _ => F64.val 1 (-1)) 0
      { World.idle with
        callocs := [true], mkfifos := [true], opens := [3], fopens := [true],
        forks := [1234], execs := [true] } none
      { zeroed 4096 with
        slot := 1, module_dir := ".", device_name := "Move - Slot 1"
        config_path := "/tmp/airplay-config-1.conf", fifo_path := "/tmp/airplay-audio-1"
        gain := F32.val 1 0, fifo_fd := 3, daemon_pid := 1234, daemon_running := true }
      rfl
      [(ApiCall.render_block [0, 0, 0, 0] 2,
          { World.idle with
            waitpids := [0], reads := [ReadResult.data [1, 0, 2, 0, 3, 0, 4, 0]] }),
       (ApiCall.set_param "gain" "0.5", World.idle)]
      { World.idle with reads := [ReadResult.data [5, 0, 6, 0]] }).2.1,
   by decide⟩

/-! ## Keep-alive bias -/

/-- C15: for every `v2_render_block` call on an instance with `frames > 0` (and a buffer of
at least `2 * frames` samples), let `pre` be the buffer after the pop and gain steps.  It
is the popped samples (gain-scaled when the gain differs from 1) followed by zeros up to
`2 * frames` and the caller's samples beyond.  If `daemon_running` holds after the health
check, the last output sample `out[2 * frames - 1]` is `pre[2 * frames - 1] | 5`, which is
non-zero, and every other output sample equals that of `pre`; this holds for every value of
`receiving_audio` and every number of popped samples.  If `daemon_running` is false the
output is exactly `pre`. -/
theorem keep_alive_bias (RING_SAMPLES : Nat) (inst : Instance) (out : List Int)
    (frames : Int) (w : World) (hf : 0 < frames) (hout : frames.toNat * 2 ≤ out.length) :
    ((check_daemon_alive inst w).1.daemon_running = true →
      (v2_render_block RING_SAMPLES (some inst) out frames w).2.1.getD
          (frames.toNat * 2 - 1) 0
        = toInt16 (toUInt16 ((gain_stage inst.gain
            (render_popped RING_SAMPLES inst out frames w).2.1
            (render_popped RING_SAMPLES inst out frames w).2.2).getD
              (frames.toNat * 2 - 1) 0) ||| 5) ∧
      (v2_render_block RING_SAMPLES (some inst) out frames w).2.1.getD
          (frames.toNat * 2 - 1) 0 ≠ 0 ∧
      ∀ i, i ≠ frames.toNat * 2 - 1 →
        (v2_render_block RING_SAMPLES (some inst) out frames w).2.1[i]?
          = (gain_stage inst.gain (render_popped RING_SAMPLES inst out frames w).2.1
              (render_popped RING_SAMPLES inst out frames w).2.2)[i]?) ∧
    ((check_daemon_alive inst w).1.daemon_running = false →
      (v2_render_block RING_SAMPLES (some inst) out frames w).2.1
        = gain_stage inst.gain (render_popped RING_SAMPLES inst out frames w).2.1
            (render_popped RING_SAMPLES inst out frames w).2.2) ∧
    gain_stage inst.gain (render_popped RING_SAMPLES inst out frames w).2.1
        (render_popped RING_SAMPLES inst out frames w).2.2
      = (if inst.gain.ne_one = true then
          ((render_popped RING_SAMPLES inst out frames w).2.1.take
            (render_popped RING_SAMPLES inst out frames w).2.2).map (gain_sample inst.gain)
         else
          (render_popped RING_SAMPLES inst out frames w).2.1.take
            (render_popped RING_SAMPLES inst out frames w).2.2)
        ++ List.replicate
            (frames.toNat * 2 - (render_popped RING_SAMPLES inst out frames w).2.2) 0
        ++ out.drop (frames.toNat * 2) ∧
    (render_popped RING_SAMPLES inst out frames w).2.2 ≤ frames.toNat * 2 ∧
    (v2_render_block RING_SAMPLES (some inst) out frames w).2.1.length = out.length := by
  obtain ⟨p1, p2, p3, p4, p5⟩ := render_popped_shape RING_SAMPLES inst out frames w hout
  have hpre := gain_stage_eq inst.gain (render_popped RING_SAMPLES inst out frames w).2.1
    (render_popped RING_SAMPLES inst out frames w).2.2 (by omega)
  rw [p5, ← List.append_assoc] at hpre
  have hlen : (gain_stage inst.gain (render_popped RING_SAMPLES inst out frames w).2.1
      (render_popped RING_SAMPLES inst out frames w).2.2).length = out.length := by
    rw [hpre]
    have ht : ((render_popped RING_SAMPLES inst out frames w).2.1.take
        (render_popped RING_SAMPLES inst out frames w).2.2).length
        = (render_popped RING_SAMPLES inst out frames w).2.2 := by
      rw [List.length_take]; omega
    rw [List.length_append, List.length_append, List.length_replicate, List.length_drop]
    split_ifs
    · rw [List.length_map, ht]; omega
    · rw [ht]; omega
  rw [v2_render_block_eq RING_SAMPLES inst out frames w hf, p1, p2]
  dsimp only
  generalize gain_stage inst.gain (render_popped RING_SAMPLES inst out frames w).2.1
    (render_popped RING_SAMPLES inst out frames w).2.2 = pre at hpre hlen ⊢
  have hn : 0 < frames.toNat := by omega
  refine ⟨?_, ?_, hpre, p3, ?_⟩
  · intro hrun
    have hk : keep_alive (check_daemon_alive inst w).1.daemon_running pre (frames.toNat * 2)
        = pre.set (frames.toNat * 2 - 1)
            (toInt16 (toUInt16 (pre.getD (frames.toNat * 2 - 1) 0) ||| 5)) := by
      unfold keep_alive
      rw [if_pos hrun]
    have hget : (pre.set (frames.toNat * 2 - 1)
        (toInt16 (toUInt16 (pre.getD (frames.toNat * 2 - 1) 0) ||| 5))).getD
          (frames.toNat * 2 - 1) 0
        = toInt16 (toUInt16 (pre.getD (frames.toNat * 2 - 1) 0) ||| 5) := by
      rw [List.getD_eq_getElem?_getD, List.getElem?_set_self (by omega)]
      rfl
    rw [hk, hget]
    refine ⟨rfl, or_five_ne_zero _, ?_⟩
    intro i hi
    exact List.getElem?_set_ne (fun h => hi h.symm)
  · intro hrun
    unfold keep_alive
    rw [hrun]
    rfl
  · unfold keep_alive
    split_ifs
    · rw [List.length_set, hlen]
    · exact hlen

/-- C15 witness: a running receiver, an empty ring and a silent pipe; four frames are
rendered and the last of the eight output samples is non-zero. -/
theorem keep_alive_bias_witness :
    (0 : Int) < 4 ∧
    (check_daemon_alive
      { zeroed 8 with daemon_running := true, daemon_pid := 42, fifo_fd := 3,
                      gain := F32.val 1 0 }
      { World.idle with waitpids := [0] }).1.daemon_running = true ∧
    (v2_render_block 8
      (some { zeroed 8 with daemon_running := true, daemon_pid := 42, fifo_fd := 3,
                            gain := F32.val 1 0 })
      [7, 7, 7, 7, 7, 7, 7, 7, 7] 4 { World.idle with waitpids := [0] }).2.1.getD
        ((4 : Int).toNat * 2 - 1) 0 ≠ 0 :=
  ⟨by decide, by decide,
   ((keep_alive_bias 8
      { zeroed 8 with daemon_running := true, daemon_pid := 42, fifo_fd := 3,
                      gain := F32.val 1 0 }
      [7, 7, 7, 7, 7, 7, 7, 7, 7] 4 { World.idle with waitpids := [0] }
      (by decide) (by decide)).1 (by decide)).2.1⟩

/-! ## Gain stage -/

/-- C13 as stated fails when the product is taken exactly: the host sets the gain `"0.7"`,
which is stored as the `float` `11744051 * 2 ^ -24`, a gain in `[0, 2]` other than 1, and
the pipe delivers the sample 10.  The `float` product rounds to `7.0` and 7 is stored,
while the exact product `6.99999988...` clamped and truncated toward zero is 6. -/
theorem gain_exact_product_counterexample :
    (v2_set_param (fun _ => F64.val 6305039478318694 (-53))
      { zeroed 4096 with fifo_fd := 3, gain := F32.val 1 0 } World.idle "gain" "0.7").1.gain
      = F32.val 11744051 (-24) ∧
    (0 ≤ dyadic 11744051 (-24) ∧ dyadic 11744051 (-24) ≤ 2 ∧ dyadic 11744051 (-24) ≠ 1) ∧
    (v2_render_block 4096
      (some (v2_set_param (fun _ => F64.val 6305039478318694 (-53))
        { zeroed 4096 with fifo_fd := 3, gain := F32.val 1 0 } World.idle "gain" "0.7").1)
      [0, 0] 1
      { World.idle with reads := [ReadResult.data [10, 0, 10, 0]] }).2.1 = [7, 7] ∧
    gain_sample (F32.val 11744051 (-24)) 10 = 7 ∧
    clip_truncate ((10 : ℚ) * dyadic 11744051 (-24)) = 6 := by
  refine ⟨by decide, ?_, by decide, by decide, ?_⟩
  · unfold dyadic
    exact ⟨by norm_num, by norm_num, by norm_num⟩
  · unfold clip_truncate dyadic
    have hv : (10 : ℚ) * (((11744051 : Int) : ℚ) * (2 : ℚ) ^ (-24 : Int))
        = (117440510 : ℚ) / 16777216 := by norm_num
    rw [hv]
    have h1 : min (32767 : ℚ) (117440510 / 16777216) = 117440510 / 16777216 :=
      min_eq_right (by norm_num)
    have h2 : max (-32768 : ℚ) (117440510 / 16777216) = 117440510 / 16777216 :=
      max_eq_right (by norm_num)
    dsimp only
    rw [h1, h2, if_pos (by norm_num)]
    rw [Int.floor_eq_iff]
    constructor <;> norm_num

/-- C13, amended: for every `v2_render_block` call with `frames > 0` on an instance whose
gain is a finite `float` `m * 2 ^ e` (this covers every gain in `[0, 2]`), the buffer
handed to the keep-alive step is: the `got` popped samples, each replaced by `gain_sample`
when the gain differs from 1 and passed through unchanged when it equals 1, followed by the
zeros up to `2 * frames` and the caller's samples beyond.  For every sample `x`,
`gain_sample` is the `float` product `x * gain`, that is the exact product rounded to
binary32, clamped to `[-32768, 32767]` and truncated toward zero, so it lies in the
`int16_t` range.  The `float` product is within half a unit in the last place of the exact
product, has at most 24 significant bits, and equals the exact product when `x * m` has
fewer than 25 bits.  In particular 32000 at gain 2.0 gives 32767 and -32000 at gain 2.0
gives -32768. -/
theorem gain_hard_clip (RING_SAMPLES : Nat) (inst : Instance) (out : List Int)
    (frames : Int) (w : World) (m e : Int)
    (hf : 0 < frames) (hout : frames.toNat * 2 ≤ out.length)
    (hg : inst.gain = F32.val m e) :
    (v2_render_block RING_SAMPLES (some inst) out frames w).2.1
      = keep_alive (check_daemon_alive inst w).1.daemon_running
          ((if dyadic m e ≠ 1 then
              ((render_popped RING_SAMPLES inst out frames w).2.1.take
                (render_popped RING_SAMPLES inst out frames w).2.2).map
                  (gain_sample (F32.val m e))
            else
              (render_popped RING_SAMPLES inst out frames w).2.1.take
                (render_popped RING_SAMPLES inst out frames w).2.2)
            ++ List.replicate
                (frames.toNat * 2 - (render_popped RING_SAMPLES inst out frames w).2.2) 0
            ++ out.drop (frames.toNat * 2))
          (frames.toNat * 2) ∧
    (render_popped RING_SAMPLES inst out frames w).2.2 ≤ frames.toNat * 2 ∧
    (∀ x : Int,
      gain_sample (F32.val m e) x
        = clip_truncate (dyadic (f32_mul_int16 x m e).1 (f32_mul_int16 x m e).2) ∧
      -32768 ≤ gain_sample (F32.val m e) x ∧ gain_sample (F32.val m e) x ≤ 32767 ∧
      2 * |dyadic (f32_mul_int16 x m e).1 (f32_mul_int16 x m e).2 - (x : ℚ) * dyadic m e|
        ≤ (2 : ℚ) ^ (f32_mul_int16 x m e).2 ∧
      ((x * m).natAbs < 2 ^ 24 →
        dyadic (f32_mul_int16 x m e).1 (f32_mul_int16 x m e).2 = (x : ℚ) * dyadic m e) ∧
      ((x * m).natAbs < 2 ^ 64 → (f32_mul_int16 x m e).1.natAbs ≤ 2 ^ 24)) ∧
    gain_sample (F32.val 2 0) 32000 = 32767 ∧
    gain_sample (F32.val 2 0) (-32000) = -32768 := by
  obtain ⟨p1, p2, p3, p4, p5⟩ := render_popped_shape RING_SAMPLES inst out frames w hout
  have hpre := gain_stage_eq inst.gain (render_popped RING_SAMPLES inst out frames w).2.1
    (render_popped RING_SAMPLES inst out frames w).2.2 (by omega)
  rw [p5, ← List.append_assoc, hg] at hpre
  refine ⟨?_, p3, ?_, by decide, by decide⟩
  · rw [v2_render_block_eq RING_SAMPLES inst out frames w hf, p1, p2, hg]
    dsimp only
    rw [hpre]
    by_cases h1 : dyadic m e ≠ 1
    · rw [if_pos h1, if_pos ((ne_one_iff m e).2 h1)]
    · rw [if_neg h1, if_neg (fun h => h1 ((ne_one_iff m e).1 h))]
  · intro x
    have hr := clip_truncate_range (dyadic (f32_mul_int16 x m e).1 (f32_mul_int16 x m e).2)
    rw [← gain_sample_eq] at hr
    refine ⟨gain_sample_eq m e x, hr.1, hr.2, f32_mul_error x m e, ?_, f32_mul_bits x m e⟩
    intro hx
    rw [f32_mul_exact x m e hx]
    unfold dyadic
    push_cast
    ring

/-- C13, amended, at a run: a pipe delivers the samples 32000 and -32000 to an instance at
gain 2.0 whose receiver is not running; two frames are rendered and the output is 32767,
-32768 and two zeros, the fifth sample of the caller's buffer being left alone. -/
theorem gain_hard_clip_witness :
    (0 : Int) < 2 ∧
    gain_sample (F32.val 2 0) 32000
      = clip_truncate (dyadic (f32_mul_int16 32000 2 0).1 (f32_mul_int16 32000 2 0).2) ∧
    (v2_render_block 4096 (some { zeroed 4096 with fifo_fd := 3, gain := F32.val 2 0 })
      [9, 9, 9, 9, 9] 2
      { World.idle with reads := [ReadResult.data [0, 125, 0, 131]] }).2.1
      = [32767, -32768, 0, 0, 9] :=
  ⟨by decide,
   ((gain_hard_clip 4096 { zeroed 4096 with fifo_fd := 3, gain := F32.val 2 0 }
      [9, 9, 9, 9, 9] 2 { World.idle with reads := [ReadResult.data [0, 125, 0, 131]] }
      2 0 (by decide) (by decide) rfl).2.2.1 32000).1,
   by decide⟩

end AirPlay
